import Mathlib

/-!
The interpreter miniskim: a shallow embedding of `miniskim.c`

The interpreter works on heap-allocated `struct val` cells that are shared
and mutated in place (`set!` copies a whole cell over another one, the
association tree stores child pointers into existing nodes).  The embedding
therefore keeps an explicit heap:

* a pointer (`struct val *`) is a natural number, `NULL` is `0`;
* the heap is the list of all cells ever allocated, the cell of pointer `p`
  being entry `p` of the list; entry `0` is a placeholder that no accessor
  accepts, so dereferencing `NULL` has no result;
* `malloc` appends a cell, nothing is ever freed (as in the source);
* reading a union member that does not belong to the cell's `type`
  (for instance `car` of a `NUM` cell) has no result (`none`);
* recursion and loops of the source take a fuel argument; `none` is also
  the answer when the fuel runs out;
* the `double` payload of a `NUM` cell is a rational number; what is
  printed by `printf` is not part of the model.

Where C leaves the order of evaluation of two operands open, the embedding
takes them from left to right.

The global environment is the one `setup_global_env` returns; `main` then
loads `init.scm`, a file that is not part of the sources, and its effect is not
part of the model.  The input stream of the tokenizer is a list of bytes, each
written as the character with that code; a write behind the `256` bytes of
`token` has no result.
-/

namespace Miniskim

/-- The functions registered in `builtins_tbl` (the `fn` member of a cell). -/
inductive Fn
  | _car | _cdr | _cons | sub1 | zeroq | positiveq | negativeq | nullq | pairq
  | add | sub | mul | f_div | equals | begin | display
  deriving DecidableEq, Repr

/-- A `struct val`: the `type` tag together with the union member it selects.
`unmapped` is the content of address `0` only. -/
inductive Cell
  | SYMBOL (str : String)
  | NUM (d : Rat)
  | CONS (car cdr : Nat)
  | LAMBDA (car cdr : Nat)
  | FUNCTION (fn : Fn)
  | unmapped
  deriving DecidableEq, Repr

abbrev Heap := List Cell

/-- The null pointer. -/
def NULL : Nat := 0
/-- Global `None`: first cell allocated by `main`. -/
def None : Nat := 1
/-- Global `True`: second cell allocated by `main`. -/
def True_ : Nat := 2
/-- Global `False`: third cell allocated by `main`. -/
def False_ : Nat := 3

/-- The heap right after the first four statements of `main`:
`NEW(None, CONS); car(None) = cdr(None) = None; True = make_num(1.0);
False = make_num(0.0);`. -/
def main_heap : Heap := [Cell.unmapped, Cell.CONS None None, Cell.NUM 1, Cell.NUM 0]

/-- `NEW` followed by the initialisation of the members. -/
def alloc (h : Heap) (c : Cell) : Nat × Heap := (h.length, h ++ [c])

def make_str (h : Heap) (str : String) : Nat × Heap := alloc h (Cell.SYMBOL str)
def make_num (h : Heap) (d : Rat) : Nat × Heap := alloc h (Cell.NUM d)
def make_fn (h : Heap) (f : Fn) : Nat × Heap := alloc h (Cell.FUNCTION f)
def cons (h : Heap) (a d : Nat) : Nat × Heap := alloc h (Cell.CONS a d)

/-- Macro `car(x)`: `x->car`, defined for `CONS` and `LAMBDA` cells. -/
def car (h : Heap) (x : Nat) : Option Nat :=
  match h[x]? with
  | some (Cell.CONS a _) => some a
  | some (Cell.LAMBDA a _) => some a
  | _ => none

/-- Macro `cdr(x)`: `x->cdr`. -/
def cdr (h : Heap) (x : Nat) : Option Nat :=
  match h[x]? with
  | some (Cell.CONS _ d) => some d
  | some (Cell.LAMBDA _ d) => some d
  | _ => none

def caar (h : Heap) (x : Nat) : Option Nat := (car h x).bind (car h)
def cdar (h : Heap) (x : Nat) : Option Nat := (car h x).bind (cdr h)
def cddr (h : Heap) (x : Nat) : Option Nat := (cdr h x).bind (cdr h)
def cadr (h : Heap) (x : Nat) : Option Nat := (cdr h x).bind (car h)
def caddr (h : Heap) (x : Nat) : Option Nat := (cddr h x).bind (car h)
def cadddr (h : Heap) (x : Nat) : Option Nat :=
  ((cddr h x).bind (cdr h)).bind (car h)

/-- Member `x->str` of a `SYMBOL` cell. -/
def str (h : Heap) (x : Nat) : Option String :=
  match h[x]? with
  | some (Cell.SYMBOL s) => some s
  | _ => none

/-- Member `x->d` of a `NUM` cell. -/
def num (h : Heap) (x : Nat) : Option Rat :=
  match h[x]? with
  | some (Cell.NUM d) => some d
  | _ => none

/-- Whole-cell read `*x` of an allocated cell. -/
def deref (h : Heap) (x : Nat) : Option Cell :=
  match h[x]? with
  | some Cell.unmapped => none
  | r => r

/-- Whole-cell store `*x = c` into an allocated cell. -/
def store (h : Heap) (x : Nat) (c : Cell) : Option Heap :=
  match deref h x with
  | some _ => some (h.set x c)
  | none => none

/-- Store `x->car = v`. -/
def set_car (h : Heap) (x v : Nat) : Option Heap :=
  match h[x]? with
  | some (Cell.CONS _ d) => some (h.set x (Cell.CONS v d))
  | some (Cell.LAMBDA _ d) => some (h.set x (Cell.LAMBDA v d))
  | _ => none

/-- Store `x->cdr = v`. -/
def set_cdr (h : Heap) (x v : Nat) : Option Heap :=
  match h[x]? with
  | some (Cell.CONS a _) => some (h.set x (Cell.CONS a v))
  | some (Cell.LAMBDA a _) => some (h.set x (Cell.LAMBDA a v))
  | _ => none

/-- Sign of `strcmp` on the characters of two strings. -/
def strcmpL : List Char → List Char → Int
  | [], [] => 0
  | [], _ :: _ => -1
  | _ :: _, [] => 1
  | a :: as, b :: bs =>
    if a.toNat < b.toNat then -1
    else if b.toNat < a.toNat then 1
    else strcmpL as bs

def strcmp (a b : String) : Int := strcmpL a.data b.data

/-! ## Association tree -/

/-- Function `btbl_find`. `TBL_KEY` is `caar`, `TBL_VAL` is `cdar`,
`TBL_RITE_CHILD` is `cadr` and `TBL_LEFT_CHILD` is `cddr`. -/
def btbl_find : Nat → Heap → Nat → String → Option Nat
  | 0, _, _, _ => none
  | n + 1, h, tbl, s =>
    if tbl = NULL ∨ tbl = None then some None
    else
      (caar h tbl).bind fun k =>
      (str h k).bind fun ks =>
      let c := strcmp ks s
      if c = 0 then cdar h tbl
      else if c < 0 then (cddr h tbl).bind fun l => btbl_find n h l s
      else (cadr h tbl).bind fun r => btbl_find n h r s

/-- Function `btbl_insert`. The child pointer handed to the recursive call is
read before the call, the cell `cdr(tbl)` that receives the result is read
after it. -/
def btbl_insert : Nat → Heap → Nat → Nat → Nat → Option (Nat × Heap)
  | 0, _, _, _, _ => none
  | n + 1, h, tbl, key, val =>
    if tbl = None then
      let (kv, h1) := cons h key val
      let (ch, h2) := cons h1 None None
      some (cons h2 kv ch)
    else
      (caar h tbl).bind fun tk =>
      (str h tk).bind fun tks =>
      (str h key).bind fun ks =>
      if strcmp tks ks < 0 then
        (cddr h tbl).bind fun l =>
        (btbl_insert n h l key val).bind fun (l', h1) =>
        (cdr h1 tbl).bind fun d =>
        (set_cdr h1 d l').bind fun h2 =>
        some (tbl, h2)
      else
        (cadr h tbl).bind fun r =>
        (btbl_insert n h r key val).bind fun (r', h1) =>
        (cdr h1 tbl).bind fun d =>
        (set_car h1 d r').bind fun h2 =>
        some (tbl, h2)

/-! ## Environment -/

/-- Function `env_find`; one unit of fuel per iteration of the `for` loop. -/
def env_find : Nat → Heap → Nat → String → Option Nat
  | 0, _, _, _ => none
  | n + 1, h, p, s =>
    if p = None then some None
    else
      (car h p).bind fun f =>
      (btbl_find n h f s).bind fun t =>
      if t ≠ None then some t
      else (cdr h p).bind fun p' => env_find n h p' s

/-- Function `env_insert`: the tree returned by `btbl_insert` is dropped. -/
def env_insert (n : Nat) (h : Heap) (env key val : Nat) : Option Heap :=
  (car h env).bind fun f =>
  (btbl_insert n h f key val).bind fun (_, h1) =>
  some h1

/-- Macro `PUSH_ENV(x, y)`: `cons(y, x)`. -/
def PUSH_ENV (h : Heap) (x y : Nat) : Nat × Heap := cons h y x

/-- Function `bind_params`. -/
def bind_params : Nat → Heap → Nat → Nat → Option (Nat × Heap)
  | 0, _, _, _ => none
  | n + 1, h, params, vals =>
    (car h vals).bind fun v =>
    if v = None then some (None, h)
    else
      (cdr h params).bind fun ps =>
      (cdr h vals).bind fun vs =>
      (bind_params n h ps vs).bind fun (t, h1) =>
      (car h1 params).bind fun p =>
      (car h1 vals).bind fun v1 =>
      btbl_insert n h1 t p v1

/-! ## Builtin functions -/

/-- Function `add_`. -/
def add_ : Nat → Heap → Nat → Option Rat
  | 0, _, _ => none
  | n + 1, h, l =>
    (car h l).bind fun a =>
    if a = None then some 0
    else (num h a).bind fun d => (cdr h l).bind fun r => (add_ n h r).map fun x => d + x

/-- Function `sub_`. -/
def sub_ : Nat → Heap → Nat → Option Rat
  | 0, _, _ => none
  | n + 1, h, l =>
    (car h l).bind fun a =>
    if a = None then some 0
    else (num h a).bind fun d => (cdr h l).bind fun r => (sub_ n h r).map fun x => d - x

/-- Function `mul_`. -/
def mul_ : Nat → Heap → Nat → Option Rat
  | 0, _, _ => none
  | n + 1, h, l =>
    (car h l).bind fun a =>
    if a = None then some 1
    else (num h a).bind fun d => (cdr h l).bind fun r => (mul_ n h r).map fun x => d * x

/-- Function `div_` (its body multiplies, as in the source). -/
def div_ : Nat → Heap → Nat → Option Rat
  | 0, _, _ => none
  | n + 1, h, l =>
    (car h l).bind fun a =>
    if a = None then some 1
    else (num h a).bind fun d => (cdr h l).bind fun r => (div_ n h r).map fun x => d * x

/-- The `while` loop of `begin`. -/
def begin_loop : Nat → Heap → Nat → Option Nat
  | 0, _, _ => none
  | n + 1, h, p =>
    (cdr h p).bind fun d =>
    if d ≠ None then begin_loop n h d else car h p

/-- Function `pprint`, reduced to the cells it visits (the text is not
modelled). -/
def pprint : Nat → Heap → Nat → Option Unit
  | 0, _, _ => none
  | n + 1, h, exp =>
    if exp = NULL ∨ exp = None then some ()
    else
      match h[exp]? with
      | some (Cell.SYMBOL _) => some ()
      | some (Cell.NUM _) => some ()
      | some (Cell.FUNCTION _) => some ()
      | some (Cell.LAMBDA a _) =>
        (pprint n h a).bind fun _ => (cadr h exp).bind fun b => pprint n h b
      | some (Cell.CONS a d) =>
        (pprint n h a).bind fun _ => pprint n h d
      | _ => none

/-- Macro `IS_CONS(x)` on an allocated cell. -/
def IS_CONS (h : Heap) (x : Nat) : Option Bool :=
  (deref h x).map fun c => match c with
    | Cell.CONS _ _ => true
    | _ => false

/-- Macro `IS_SYMBOL(x)` on an allocated cell. -/
def IS_SYMBOL (h : Heap) (x : Nat) : Option Bool :=
  (deref h x).map fun c => match c with
    | Cell.SYMBOL _ => true
    | _ => false

/-- Call `(proc->fn)(args)` of one of the functions of `builtins_tbl`. -/
def call_fn (n : Nat) (h : Heap) (f : Fn) (args : Nat) : Option (Nat × Heap) :=
  match f with
  | Fn._car => (caar h args).map fun r => (r, h)
  | Fn._cdr => (cdar h args).map fun r => (r, h)
  | Fn._cons => (car h args).bind fun a => (cadr h args).map fun d => cons h a d
  | Fn.nullq => (car h args).map fun a => (if a = None then True_ else False_, h)
  | Fn.zeroq =>
    (car h args).bind fun a => (num h a).map fun d => (if d = 0 then True_ else False_, h)
  | Fn.pairq =>
    (car h args).bind fun a => (IS_CONS h a).map fun b => (if b then True_ else False_, h)
  | Fn.add => (add_ n h args).map fun d => make_num h d
  | Fn.sub => (sub_ n h args).map fun d => make_num h d
  | Fn.mul => (mul_ n h args).map fun d => make_num h d
  | Fn.f_div => (div_ n h args).map fun d => make_num h d
  | Fn.sub1 => (car h args).bind fun a => (num h a).map fun d => make_num h (d - 1)
  | Fn.positiveq =>
    (car h args).bind fun a => (num h a).map fun d => (if d > 0 then True_ else False_, h)
  | Fn.negativeq =>
    (car h args).bind fun a => (num h a).map fun d => (if d < 0 then True_ else False_, h)
  | Fn.equals =>
    (cadr h args).bind fun b => (num h b).bind fun y =>
    (car h args).bind fun a => (num h a).map fun x =>
    (if y - x = 0 then True_ else False_, h)
  | Fn.display => (car h args).bind fun a => (pprint n h a).map fun _ => (None, h)
  | Fn.begin => (begin_loop n h args).map fun r => (r, h)

/-! ## Evaluator -/

/-- Macro `ISEQU(x, y)`: `strcmp(x->str, y) == 0`, for a `SYMBOL` cell `x`. -/
def ISEQU (h : Heap) (x : Nat) (y : String) : Option Bool :=
  (str h x).map fun s => decide (strcmp s y = 0)

mutual

/-- Function `list_of_values`. -/
def list_of_values : Nat → Heap → Nat → Nat → Option (Nat × Heap)
  | 0, _, _, _ => none
  | n + 1, h, exps, env =>
    (car h exps).bind fun a =>
    if a = None then some (None, h)
    else
      (eval n h a env).bind fun (v, h1) =>
      (cdr h1 exps).bind fun d =>
      (list_of_values n h1 d env).bind fun (vs, h2) =>
      some (cons h2 v vs)
  termination_by structural n => n

/-- Function `apply`. -/
def apply : Nat → Heap → Nat → Nat → Option (Nat × Heap)
  | 0, _, _, _ => none
  | n + 1, h, proc, args =>
    if proc ≠ None then
      match deref h proc with
      | some (Cell.FUNCTION f) => call_fn n h f args
      | some (Cell.LAMBDA ps _) =>
        (bind_params n h ps args).bind fun (fr, h1) =>
        (cddr h1 proc).bind fun cenv =>
        let (nenv, h2) := PUSH_ENV h1 cenv fr
        (cadr h2 proc).bind fun body =>
        eval n h2 body nenv
      | some _ => some (None, h)
      | none => none
    else some (None, h)
  termination_by structural n => n

/-- Function `eval_if`. -/
def eval_if : Nat → Heap → Nat → Nat → Option (Nat × Heap)
  | 0, _, _, _ => none
  | n + 1, h, exp, env =>
    (cadr h exp).bind fun t =>
    (eval n h t env).bind fun (r, h1) =>
    if r = False_ then
      (cadddr h1 exp).bind fun e => eval n h1 e env
    else
      (caddr h1 exp).bind fun e => eval n h1 e env
  termination_by structural n => n

/-- Function `eval`. `call` is the part of the body behind the special
forms (`if (car(exp) != None) ...`), reached when none of them applies. -/
def eval : Nat → Heap → Nat → Nat → Option (Nat × Heap)
  | 0, _, _, _ => none
  | n + 1, h, exp, env =>
    if exp = NULL then some (NULL, h)
    else
      match deref h exp with
      | none => none
      | some (Cell.SYMBOL s) => (env_find n h env s).map fun r => (r, h)
      | some (Cell.NUM _) => some (exp, h)
      | some (Cell.LAMBDA _ _) => some (exp, h)
      | some (Cell.CONS a _) =>
        let call : Unit → Option (Nat × Heap) := fun _ =>
          if a ≠ None then
            (eval n h a env).bind fun (fn, h1) =>
            if fn = None then some (None, h1)
            else
              (cdr h1 exp).bind fun d =>
              (list_of_values n h1 d env).bind fun (args, h2) =>
              apply n h2 fn args
          else some (None, h)
        (IS_SYMBOL h a).bind fun sy =>
        if sy then
          (str h a).bind fun s =>
          if strcmp s "define" = 0 then
            (cadr h exp).bind fun k =>
            (caddr h exp).bind fun e =>
            (eval n h e env).bind fun (v, h1) =>
            (env_insert n h1 env k v).bind fun h2 =>
            (cadr h2 exp).map fun r => (r, h2)
          else if strcmp s "set!" = 0 then
            (cadr h exp).bind fun k =>
            (str h k).bind fun ks =>
            (env_find n h env ks).bind fun var =>
            (caddr h exp).bind fun e =>
            (eval n h e env).bind fun (v, h1) =>
            (deref h1 v).bind fun c =>
            (store h1 var c).map fun h2 => (var, h2)
          else if strcmp s "if" = 0 then
            eval_if n h exp env
          else if strcmp s "quote" = 0 then
            (cadr h exp).map fun r => (r, h)
          else if strcmp s "lambda" = 0 then
            (cadr h exp).bind fun ps =>
            (IS_CONS h ps).bind fun c =>
            if !c then some (None, h)
            else
              (caddr h exp).map fun b =>
              let (d, h1) := cons h b env
              alloc h1 (Cell.LAMBDA ps d)
          else call ()
        else call ()
      | some _ => some (None, h)
  termination_by structural n => n

end

/-! ## Start-up -/

/-- Table `builtins_tbl`. -/
def builtins_tbl : List (String × Fn) :=
  [("car", Fn._car), ("cdr", Fn._cdr), ("cons", Fn._cons), ("sub1", Fn.sub1),
   ("zero?", Fn.zeroq), ("positive?", Fn.positiveq), ("negative?", Fn.negativeq),
   ("null?", Fn.nullq), ("pair?", Fn.pairq), ("+", Fn.add), ("-", Fn.sub),
   ("*", Fn.mul), ("/", Fn.f_div), ("=", Fn.equals), ("begin", Fn.begin),
   ("display", Fn.display)]

/-- The `while` loop of `setup_global_env` over the entries of the table. -/
def setup_loop (n : Nat) : List (String × Fn) → Nat → Heap → Option (Nat × Heap)
  | [], p, h => some (p, h)
  | (name, f) :: es, p, h =>
    let (k, h1) := make_str h name
    let (v, h2) := make_fn h1 f
    (btbl_insert n h2 p k v).bind fun (p', h3) => setup_loop n es p' h3

/-- Function `setup_global_env`. -/
def setup_global_env (n : Nat) (h : Heap) : Option (Nat × Heap) :=
  (setup_loop n builtins_tbl None h).map fun (p, h1) => cons h1 p None

/-- The heap returned by `setup_global_env` on the heap of `main` (see
`setup_global_env_eq`): the four cells of `main`, then for each entry of
`builtins_tbl` its `SYMBOL`, its `FUNCTION` and the three cells of its tree
node, and last the chain cell of the global environment. -/
def global_heap : Heap :=
  [Cell.unmapped, Cell.CONS 1 1, Cell.NUM 1, Cell.NUM 0, Cell.SYMBOL "car",
   Cell.FUNCTION Fn._car, Cell.CONS 4 5, Cell.CONS 53 13, Cell.CONS 6 7, Cell.SYMBOL "cdr",
   Cell.FUNCTION Fn._cdr, Cell.CONS 9 10, Cell.CONS 1 18, Cell.CONS 11 12, Cell.SYMBOL "cons",
   Cell.FUNCTION Fn._cons, Cell.CONS 14 15, Cell.CONS 1 23, Cell.CONS 16 17,
   Cell.SYMBOL "sub1", Cell.FUNCTION Fn.sub1, Cell.CONS 19 20, Cell.CONS 33 28,
   Cell.CONS 21 22, Cell.SYMBOL "zero?", Cell.FUNCTION Fn.zeroq, Cell.CONS 24 25,
   Cell.CONS 1 1, Cell.CONS 26 27, Cell.SYMBOL "positive?", Cell.FUNCTION Fn.positiveq,
   Cell.CONS 29 30, Cell.CONS 38 1, Cell.CONS 31 32, Cell.SYMBOL "negative?",
   Cell.FUNCTION Fn.negativeq, Cell.CONS 34 35, Cell.CONS 83 43, Cell.CONS 36 37,
   Cell.SYMBOL "null?", Cell.FUNCTION Fn.nullq, Cell.CONS 39 40, Cell.CONS 1 48,
   Cell.CONS 41 42, Cell.SYMBOL "pair?", Cell.FUNCTION Fn.pairq, Cell.CONS 44 45,
   Cell.CONS 1 1, Cell.CONS 46 47, Cell.SYMBOL "+", Cell.FUNCTION Fn.add, Cell.CONS 49 50,
   Cell.CONS 63 58, Cell.CONS 51 52, Cell.SYMBOL "-", Cell.FUNCTION Fn.sub, Cell.CONS 54 55,
   Cell.CONS 1 68, Cell.CONS 56 57, Cell.SYMBOL "*", Cell.FUNCTION Fn.mul, Cell.CONS 59 60,
   Cell.CONS 1 1, Cell.CONS 61 62, Cell.SYMBOL "/", Cell.FUNCTION Fn.f_div, Cell.CONS 64 65,
   Cell.CONS 1 73, Cell.CONS 66 67, Cell.SYMBOL "=", Cell.FUNCTION Fn.equals, Cell.CONS 69 70,
   Cell.CONS 1 78, Cell.CONS 71 72, Cell.SYMBOL "begin", Cell.FUNCTION Fn.begin,
   Cell.CONS 74 75, Cell.CONS 1 1, Cell.CONS 76 77, Cell.SYMBOL "display",
   Cell.FUNCTION Fn.display, Cell.CONS 79 80, Cell.CONS 1 1, Cell.CONS 81 82, Cell.CONS 8 1]

/-- The pointer returned by `setup_global_env` on the heap of `main`. -/
def global_env : Nat := 84

/-- The heap after `(define x 1)`, `(define f (lambda () x))` and
`(define g (lambda (x) (f)))` have been read and evaluated in the initial global
environment and `(g 2)` has been read (at `128`): the closure of `f` is the cell `105`, the
closure of `g` the cell `123`. -/
def scope_heap : Heap :=
  ((global_heap ++
    [Cell.SYMBOL "define", Cell.CONS 85 88, Cell.SYMBOL "x", Cell.CONS 87 90, Cell.NUM 1,
     Cell.CONS 89 1, Cell.CONS 87 89, Cell.CONS 1 1, Cell.CONS 91 92,
     Cell.SYMBOL "define", Cell.CONS 94 97, Cell.SYMBOL "f", Cell.CONS 96 103,
     Cell.SYMBOL "lambda", Cell.CONS 98 100, Cell.CONS 1 102, Cell.SYMBOL "x",
     Cell.CONS 101 1, Cell.CONS 99 1, Cell.CONS 101 84, Cell.LAMBDA 1 104, Cell.CONS 96 105,
     Cell.CONS 1 126, Cell.CONS 106 107,
     Cell.SYMBOL "define", Cell.CONS 109 112, Cell.SYMBOL "g", Cell.CONS 111 121,
     Cell.SYMBOL "lambda", Cell.CONS 113 117, Cell.SYMBOL "x", Cell.CONS 115 1,
     Cell.CONS 116 120, Cell.SYMBOL "f", Cell.CONS 118 1, Cell.CONS 119 1, Cell.CONS 114 1,
     Cell.CONS 119 84, Cell.LAMBDA 116 122, Cell.CONS 111 123, Cell.CONS 1 1,
     Cell.CONS 124 125,
     Cell.SYMBOL "g", Cell.CONS 127 130, Cell.NUM 2, Cell.CONS 129 1]).set 27
    (Cell.CONS 93 1)).set 82 (Cell.CONS 1 108)

/-! ## Specification-side structures

The structures below are not part of the program: they describe how an
association tree and an environment lie in the heap, and are what the
theorems are stated with. -/

/-- An association tree together with the addresses of its cells: a node is
the cell `a = cons(kv, ch)` with `kv = cons(k, val)`, `k` the `SYMBOL` cell of
the key and `ch = cons(rite, left)`. -/
inductive BT
  | leaf
  | node (a kv ch k : Nat) (key : String) (val : Nat) (rite left : BT)
  deriving Repr

/-- Pointer to the tree: `None` for the empty tree. -/
def BT.root : BT → Nat
  | BT.leaf => None
  | BT.node a _ _ _ _ _ _ _ => a

/-- The `CONS` cells the tree is made of. -/
def BT.cells : BT → List Nat
  | BT.leaf => []
  | BT.node a kv ch _ _ _ r l => a :: kv :: ch :: (r.cells ++ l.cells)

/-- The key strings of the nodes. -/
def BT.keys : BT → List String
  | BT.leaf => []
  | BT.node _ _ _ _ key _ r l => key :: (r.keys ++ l.keys)

def BT.depth : BT → Nat
  | BT.leaf => 0
  | BT.node _ _ _ _ _ _ r l => max r.depth l.depth + 1

/-- What `btbl_find` computes, read off the tree. -/
def BT.find : BT → String → Nat
  | BT.leaf, _ => None
  | BT.node _ _ _ _ key val r l, s =>
    if strcmp key s = 0 then val
    else if strcmp key s < 0 then l.find s
    else r.find s

/-- The descent of `btbl_find` for `s` meets a node whose key is `s`. -/
def BT.hit : BT → String → Prop
  | BT.leaf, _ => False
  | BT.node _ _ _ _ key _ r l, s =>
    if strcmp key s = 0 then True
    else if strcmp key s < 0 then l.hit s
    else r.hit s

/-- What `btbl_insert` builds when the heap has `n` cells: the new node takes
the cells `n`, `n + 1` and `n + 2`. -/
def BT.ins (n : Nat) (k : Nat) (s : String) (v : Nat) : BT → BT
  | BT.leaf => BT.node (n + 2) n (n + 1) k s v BT.leaf BT.leaf
  | BT.node a kv ch k' key val r l =>
    if strcmp key s < 0 then BT.node a kv ch k' key val r (BT.ins n k s v l)
    else BT.node a kv ch k' key val (BT.ins n k s v r) l

/-- The heap holds the tree. -/
def Rep (h : Heap) : BT → Prop
  | BT.leaf => True
  | BT.node a kv ch k key val r l =>
    a ≠ None ∧ a ≠ NULL ∧ h[a]? = some (Cell.CONS kv ch) ∧
    h[kv]? = some (Cell.CONS k val) ∧ h[k]? = some (Cell.SYMBOL key) ∧
    h[ch]? = some (Cell.CONS r.root l.root) ∧ Rep h r ∧ Rep h l

/-- `Rep` is decidable. -/
def Rep.dec (h : Heap) : (t : BT) → Decidable (Rep h t)
  | BT.leaf => isTrue trivial
  | BT.node a kv ch k key val r l =>
    have := Rep.dec h r
    have := Rep.dec h l
    inferInstanceAs (Decidable (a ≠ None ∧ a ≠ NULL ∧ h[a]? = some (Cell.CONS kv ch) ∧
      h[kv]? = some (Cell.CONS k val) ∧ h[k]? = some (Cell.SYMBOL key) ∧
      h[ch]? = some (Cell.CONS r.root l.root) ∧ Rep h r ∧ Rep h l))

instance Rep.instDecidable (h : Heap) (t : BT) : Decidable (Rep h t) := Rep.dec h t

/-- Trees obtained from the empty tree `None` by calls of `btbl_insert` with
`SYMBOL` keys, other cells being allocated in between; the list holds the key
strings inserted so far, latest first. -/
inductive Built : Heap → Nat → List String → Prop
  | empty (h : Heap) : Built h None []
  | alloc {h : Heap} {t : Nat} {ks : List String} (c : Cell) :
      Built h t ks → Built (h ++ [c]) t ks
  | insert {h h' : Heap} {t t' k v : Nat} {ks : List String} {s : String} {n : Nat} :
      Built h t ks → h[k]? = some (Cell.SYMBOL s) →
      btbl_insert n h t k v = some (t', h') → Built h' t' (s :: ks)

/-- Pointer to an environment given by its frames, innermost first: each frame
is the chain cell `a = cons(tree, parent)` together with its tree. -/
def envNext : List (Nat × BT) → Nat
  | [] => None
  | (a, _) :: _ => a

/-- The heap holds the environment chain. -/
def EnvRep (h : Heap) : List (Nat × BT) → Prop
  | [] => True
  | (a, t) :: fs =>
    a ≠ None ∧ h[a]? = some (Cell.CONS t.root (envNext fs)) ∧ Rep h t ∧ EnvRep h fs

/-- The `CONS` cells of the chain and of the trees of its frames. -/
def envCells : List (Nat × BT) → List Nat
  | [] => []
  | (a, t) :: fs => a :: (t.cells ++ envCells fs)

/-- What `env_find` computes, read off the frames. -/
def envLookup : List (Nat × BT) → String → Nat
  | [], _ => None
  | (_, t) :: fs, s => if t.find s ≠ None then t.find s else envLookup fs s

/-- A fuel that is enough for `env_find` on the chain. -/
def envFuel : List (Nat × BT) → Nat
  | [] => 0
  | (_, t) :: fs => max (t.depth + 1) (envFuel fs) + 1

/-- The heap holds at `p` the proper list of the pointers `xs`, ended by `None`. -/
def ListAt (h : Heap) : Nat → List Nat → Prop
  | p, [] => p = None
  | p, x :: xs => ∃ d, h[p]? = some (Cell.CONS x d) ∧ ListAt h d xs

/-- Pointer `p` is `None` or the node cell of a triple allocated from `L` on. -/
def OkP (L n p : Nat) : Prop :=
  p = None ∨ (L ≤ p ∧ p < n ∧ (p - L) % 3 = 2)

/-- From address `L` on the heap consists of the triples allocated by `btbl_insert`:
`cons(key, val)`, then the pair of the children, then the node cell pointing to both. -/
def Fresh3 (L : Nat) (h : Heap) : Prop :=
  None < L ∧ L ≤ h.length ∧ (h.length - L) % 3 = 0 ∧
  ∀ x, L ≤ x → x < h.length →
    ((x - L) % 3 = 2 → ∃ kv, h[x]? = some (Cell.CONS kv (x - 1))) ∧
    ((x - L) % 3 = 1 → ∃ r l, h[x]? = some (Cell.CONS r l) ∧ OkP L h.length r ∧
      OkP L h.length l)

/-- The names of the special forms tested by `eval`. -/
def keywords : List String := ["define", "set!", "if", "quote", "lambda"]

/-- The tree of the global environment right after `setup_global_env`: for each
entry of `builtins_tbl` the key cell `n`, the value cell `n + 1` and the node made of the
cells `n + 2`, `n + 3`, `n + 4`, starting at `n = 4`. -/
def global_bt : BT :=
  (builtins_tbl.foldl (fun (acc : BT × Nat) e =>
    (BT.ins (acc.2 + 2) acc.2 e.1 (acc.2 + 1) acc.1, acc.2 + 5)) (BT.leaf, 4)).1

/-- The heap holds the global environment (chain cell `global_env`, no parent frame) with
the tree `bt`, and the cells of `NULL` and `None` are as `main` made them. -/
def GlobalOK (h : Heap) (bt : BT) : Prop :=
  Rep h bt ∧ bt.cells.Nodup ∧ bt.root = 8 ∧ h[NULL]? = some Cell.unmapped ∧
  h[None]? = some (Cell.CONS None None) ∧ h[global_env]? = some (Cell.CONS 8 None) ∧
  None ∉ bt.cells ∧ global_env ∉ bt.cells

/-- Monotonicity in the fuel of the four functions of the evaluator, at fuel `n`. -/
def MonoAt (n : Nat) : Prop :=
  (∀ m h e env r, eval n h e env = some r → n ≤ m → eval m h e env = some r) ∧
  (∀ m h e env r, list_of_values n h e env = some r → n ≤ m →
    list_of_values m h e env = some r) ∧
  (∀ m h p a r, apply n h p a = some r → n ≤ m → apply m h p a = some r) ∧
  (∀ m h e env r, eval_if n h e env = some r → n ≤ m → eval_if m h e env = some r)

/-- With enough fuel `eval` returns `r` and leaves the heap `h'`. -/
def Evals (h : Heap) (e env r : Nat) (h' : Heap) : Prop :=
  ∃ n, eval n h e env = some (r, h')

/-- With enough fuel `env_find` returns `r`. -/
def EnvFinds (h : Heap) (env : Nat) (s : String) (r : Nat) : Prop :=
  ∃ n, env_find n h env s = some r

/-- With enough fuel `btbl_find` returns `r`. -/
def TblFinds (h : Heap) (t : Nat) (s : String) (r : Nat) : Prop :=
  ∃ n, btbl_find n h t s = some r


/-! ## Tokenizer

The stream `finput` is the list of the bytes still to be read, each written as the character
with that code (codes from `256` on are not bytes and do not occur in a stream).  A value of
the variable `ch`, a `char`, is `some c` for a byte and `none` for the value `EOF`.  For the
bytes from `128` on, which are negative as a `char`, `isspace` and `isdigit` are zero, as in
the tables of the "C" locale.  `token` holds at most 255 characters and the terminating zero;
a write behind it has no defined result (`none`). -/

/-- Library function `getc` with the conversion of `char ch = getc(finput)`: at the end of
the stream the value is `EOF` and the stream stays at its end; the byte `255` is read, and as
a `char` it is equal to `EOF` as well. -/
def getc : List Char → Option Char × List Char
  | [] => (none, [])
  | c :: cs => (if c.toNat = 255 then none else some c, cs)

/-- Library function `ungetc`; pushing back `EOF` does nothing. -/
def ungetc : Option Char → List Char → List Char
  | none, inp => inp
  | some c, inp => c :: inp

/-- Library function `isspace` in the "C" locale; `isspace(EOF)` is zero. -/
def isspace : Option Char → Bool
  | none => false
  | some c => c = ' ' || (9 ≤ c.toNat && c.toNat ≤ 13)

/-- Library function `isdigit`; `isdigit(EOF)` is zero. -/
def isdigit : Option Char → Bool
  | none => false
  | some c => 48 ≤ c.toNat && c.toNat ≤ 57

/-- Value read by `atof` from digits in base ten. -/
def atoi (s : List Char) : Nat := s.foldl (fun a c => 10 * a + (c.toNat - 48)) 0

/-- Library function `atof` on a text made of digits and dots: the digits up to the first dot
and the digits between the first and the second dot. -/
def atof (s : List Char) : Rat :=
  let ip := s.takeWhile fun c => isdigit (some c)
  let fp := ((s.dropWhile fun c => isdigit (some c)).drop 1).takeWhile fun c => isdigit (some c)
  (atoi ip : Rat) + (atoi fp : Rat) / (10 ^ fp.length : Nat)

/-- The C string in `token` once the characters `tok` and the terminating zero are written
to it: the characters before the first zero.  It is what `strdup` and `atof` read. -/
def cstr (tok : List Char) : String := String.mk (tok.takeWhile fun c => c.toNat != 0)

/-- What a call of `gettok` leaves behind: the returned token type with the string in
`token`; for `NUM` the variable `yy_val` holds `atof(token)`. On `DONE` neither variable is
written. -/
inductive Tok
  | SYMBOL (token : String)
  | NUM (token : String)
  | DONE
  deriving DecidableEq, Repr

/-- The loop `do { ch = getc(finput); } while (ch != '\n');` of `gettok`. -/
def skip_line : Nat → List Char → Option (Option Char × List Char)
  | 0, _ => none
  | n + 1, inp =>
    if (getc inp).1 ≠ some '\n' then skip_line n (getc inp).2 else some (getc inp)

/-- The loop `while (isspace(ch)) { ... }` of `gettok`. -/
def skip_space : Nat → Option Char → List Char → Option (Option Char × List Char)
  | 0, _, _ => none
  | n + 1, ch, inp =>
    if isspace ch then
      if (getc inp).1 = some ';' then
        (skip_line n (getc inp).2).bind fun r => skip_space n r.1 r.2
      else skip_space n (getc inp).1 (getc inp).2
    else some (ch, inp)

/-- The loop `while (isdigit(ch) || ch == '.')` of `gettok`; `tok` is what has been written
to `token`. Returns `token`, `ch` and the stream. -/
def num_loop : Nat → Option Char → List Char → List Char →
    Option (List Char × Option Char × List Char)
  | 0, _, _, _ => none
  | n + 1, ch, inp, tok =>
    match ch with
    | some c =>
      if isdigit (some c) ∨ c = '.' then
        if tok.length < 256 then num_loop n (getc inp).1 (getc inp).2 (tok ++ [c]) else none
      else some (tok, ch, inp)
    | none => some (tok, ch, inp)

/-- The loop `while (!isspace(ch) && ch != ')' && ch != '(')` of `gettok`. At `EOF` the
condition holds, `EOF` is written to `token` as a character and read again. -/
def sym_loop : Nat → Option Char → List Char → List Char →
    Option (List Char × Option Char × List Char)
  | 0, _, _, _ => none
  | n + 1, ch, inp, tok =>
    if ¬ isspace ch ∧ ch ≠ some ')' ∧ ch ≠ some '(' then
      if tok.length < 256 then
        sym_loop n (getc inp).1 (getc inp).2 (tok ++ [ch.getD (Char.ofNat 255)])
      else none
    else some (tok, ch, inp)

/-- Function `gettok`; the fuel bounds the iterations of each of its loops. -/
def gettok (n : Nat) (inp : List Char) : Option (Tok × List Char) :=
  (skip_space n (getc inp).1 (getc inp).2).bind fun r =>
  match r.1 with
  | none => some (Tok.DONE, r.2)
  | some c =>
    if c = '(' ∨ c = ')' then some (Tok.SYMBOL (String.singleton c), r.2)
    else if isdigit (some c) then
      (num_loop n (some c) r.2 []).bind fun t =>
      if t.1.length < 256 then some (Tok.NUM (cstr t.1), ungetc t.2.1 t.2.2)
      else none
    else
      (sym_loop n (some c) r.2 []).bind fun t =>
      if t.1.length < 256 then some (Tok.SYMBOL (cstr t.1), ungetc t.2.1 t.2.2)
      else none

/-! ## Parser -/

mutual

/-- Function `parse`. The result holds the pointer returned, the heap and the stream. -/
def parse : Nat → Heap → List Char → Option (Nat × Heap × List Char)
  | 0, _, _ => none
  | n + 1, h, inp =>
    (gettok n inp).bind fun g =>
    match g.1 with
    | Tok.DONE => some (NULL, h, g.2)
    | Tok.NUM s => some ((make_num h (atof s.data)).1, (make_num h (atof s.data)).2, g.2)
    | Tok.SYMBOL s =>
      if s.data.head? = some '(' then
        (parse n h g.2).bind fun r =>
        if r.1 = NULL then some (None, r.2.1, r.2.2)
        else parse_loop n (cons r.2.1 r.1 None).2 r.2.2 (cons r.2.1 r.1 None).1
          (cons r.2.1 r.1 None).1
      else if s.data.head? = some ')' then some (NULL, h, g.2)
      else some ((make_str h s).1, (make_str h s).2, g.2)
  termination_by structural n => n

/-- The loop `t = parse(); while (t != NULL) { tail = cdr(tail) = cons(t, None); t = parse(); }`
of `parse`, entered before the call of `parse`; it ends with `return head`. -/
def parse_loop : Nat → Heap → List Char → Nat → Nat → Option (Nat × Heap × List Char)
  | 0, _, _, _, _ => none
  | n + 1, h, inp, head, tail =>
    (parse n h inp).bind fun r =>
    if r.1 = NULL then some (head, r.2.1, r.2.2)
    else
      (set_cdr (cons r.2.1 r.1 None).2 tail (cons r.2.1 r.1 None).1).bind fun h3 =>
      parse_loop n h3 r.2.2 head (cons r.2.1 r.1 None).1
  termination_by structural n => n

end

/-- Successive calls of `gettok` on the stream return the tokens `ts`, in this order, and
leave the stream returned. -/
def reads (m : Nat) : List Char → List Tok → Option (List Char)
  | inp, [] => some inp
  | inp, t :: ts => (gettok m inp).bind fun g => if g.1 = t then reads m g.2 ts else none

/-! ## Expressions as the parser reads them -/

/-- An expression as a tree: a number token, an atom, the empty list `()` or a list with
first element `a` and the list `d` of the other elements. -/
inductive SExp
  | num (token : String)
  | sym (s : String)
  | nil
  | cons (a d : SExp)
  deriving DecidableEq, Repr

/-- The lists among the expressions. -/
def SExp.IsList : SExp → Prop
  | SExp.nil => True
  | SExp.cons _ d => d.IsList
  | _ => False

/-- Well-formed expressions: an atom is not a parenthesis token and the tail of a list is a
list. -/
def SExp.WF : SExp → Prop
  | SExp.num _ => True
  | SExp.sym s => s.data.head? ≠ some '(' ∧ s.data.head? ≠ some ')'
  | SExp.nil => True
  | SExp.cons a d => a.WF ∧ d.WF ∧ d.IsList

mutual

/-- The tokens of an expression. -/
def SExp.toks : SExp → List Tok
  | SExp.num t => [Tok.NUM t]
  | SExp.sym s => [Tok.SYMBOL s]
  | SExp.nil => [Tok.SYMBOL "(", Tok.SYMBOL ")"]
  | SExp.cons a d => Tok.SYMBOL "(" :: (a.toks ++ d.elems ++ [Tok.SYMBOL ")"])

/-- The tokens of the elements of a list, without the parentheses around the list. -/
def SExp.elems : SExp → List Tok
  | SExp.cons a d => a.toks ++ d.elems
  | _ => []

end

/-- The tokens of a sequence of expressions. -/
def SExp.toksList : List SExp → List Tok
  | [] => []
  | e :: es => e.toks ++ SExp.toksList es

/-- The list expression with the elements `es`. -/
def SExp.ofList : List SExp → SExp
  | [] => SExp.nil
  | e :: es => SExp.cons e (SExp.ofList es)

/-- The heap holds the expression `e` at `p`: a `NUM` cell with the value of `atof` for a
number, a `SYMBOL` cell for an atom, the pointer `None` itself for the empty list, and for a list a `CONS` cell whose `car`
holds the first element and whose `cdr` holds the list of the others.  All cells are at
addresses from `lo` up to `hi`, the latter excluded. -/
def SRep (h : Heap) (lo hi : Nat) : Nat → SExp → Prop
  | p, SExp.num t => lo ≤ p ∧ p < hi ∧ h[p]? = some (Cell.NUM (atof t.data))
  | p, SExp.sym s => lo ≤ p ∧ p < hi ∧ h[p]? = some (Cell.SYMBOL s)
  | p, SExp.nil => p = None
  | p, SExp.cons a d => lo ≤ p ∧ p < hi ∧
      ∃ x y, h[p]? = some (Cell.CONS x y) ∧ SRep h lo hi x a ∧ SRep h lo hi y d

/-- The characters of ASCII other than the zero character. -/
def ascii (c : Char) : Bool := 0 < c.toNat && c.toNat < 128

/-- Characters of the run of a number token. -/
def numch (c : Char) : Bool := isdigit (some c) || c == '.'

/-- Characters of the run of a symbol token. -/
def symch (c : Char) : Bool := !isspace (some c) && c != ')' && c != '('
/-! ## Heap and string lemmas -/

theorem get_lt {h : Heap} {x : Nat} {c : Cell} (hx : h[x]? = some c) : x < h.length := by
  by_contra hge
  have hn : h[x]? = none := List.getElem?_eq_none (Nat.le_of_not_lt hge)
  rw [hn] at hx
  cases hx

theorem get_append {h e : Heap} {x : Nat} {c : Cell} (hx : h[x]? = some c) :
    (h ++ e)[x]? = some c := by
  rw [List.getElem?_append_left (get_lt hx)]; exact hx

theorem get_set_ne {h : Heap} {x y : Nat} (c : Cell) (hxy : x ≠ y) :
    (h.set x c)[y]? = h[y]? := by
  simp [List.getElem?_set, hxy]

theorem get_set_eq {h : Heap} {x : Nat} (c : Cell) (hx : x < h.length) :
    (h.set x c)[x]? = some c := by
  simp [List.getElem?_set, hx]

theorem strcmpL_eq_zero : ∀ a b : List Char, strcmpL a b = 0 ↔ a = b
  | [], [] => by simp [strcmpL]
  | [], _ :: _ => by simp [strcmpL]
  | _ :: _, [] => by simp [strcmpL]
  | a :: as, b :: bs => by
    have ih := strcmpL_eq_zero as bs
    unfold strcmpL
    by_cases h1 : a.toNat < b.toNat
    · have : a ≠ b := by rintro rfl; omega
      simp [h1, this]
    · by_cases h2 : b.toNat < a.toNat
      · have : a ≠ b := by rintro rfl; omega
        simp [h1, h2, this]
      · have hab : a = b := by
          apply Char.ext
          apply UInt32.ext
          have : a.toNat = b.toNat := by omega
          simpa [Char.toNat, UInt32.toNat] using this
        simp [h1, h2, hab, ih]

theorem strcmp_eq_zero (a b : String) : strcmp a b = 0 ↔ a = b := by
  unfold strcmp
  rw [strcmpL_eq_zero]
  constructor
  · intro h; exact String.ext h
  · intro h; rw [h]

/-! ## Association trees in the heap -/

theorem car_of {h : Heap} {x a d : Nat} (hx : h[x]? = some (Cell.CONS a d)) :
    car h x = some a := by simp [car, hx]

theorem cdr_of {h : Heap} {x a d : Nat} (hx : h[x]? = some (Cell.CONS a d)) :
    cdr h x = some d := by simp [cdr, hx]

theorem str_of {h : Heap} {x : Nat} {s : String} (hx : h[x]? = some (Cell.SYMBOL s)) :
    str h x = some s := by simp [str, hx]

@[simp] theorem BT.root_leaf : BT.leaf.root = None := rfl
@[simp] theorem BT.root_node (a kv ch k : Nat) (key : String) (val : Nat) (r l : BT) :
    (BT.node a kv ch k key val r l).root = a := rfl

theorem Rep.cells_cons {h : Heap} : ∀ {t : BT}, Rep h t → ∀ x ∈ t.cells,
    ∃ c d, h[x]? = some (Cell.CONS c d)
  | BT.leaf, _, x, hx => by simp [BT.cells] at hx
  | BT.node a kv ch k key val r l, hr, x, hx => by
    obtain ⟨_, _, ha, hkv, _, hch, hrr, hrl⟩ := hr
    simp only [BT.cells, List.mem_cons, List.mem_append] at hx
    rcases hx with rfl | rfl | rfl | hx | hx
    · exact ⟨_, _, ha⟩
    · exact ⟨_, _, hkv⟩
    · exact ⟨_, _, hch⟩
    · exact Rep.cells_cons hrr x hx
    · exact Rep.cells_cons hrl x hx

theorem Rep.frame {h h' : Heap} {S : Nat → Prop} (hc : ∀ (x c d : Nat), h[x]? = some (Cell.CONS c d) → S x →
      h'[x]? = some (Cell.CONS c d))
    (hs : ∀ (x : Nat) (s : String), h[x]? = some (Cell.SYMBOL s) → h'[x]? = some (Cell.SYMBOL s)) :
    ∀ {t : BT}, Rep h t → (∀ x ∈ t.cells, S x) → Rep h' t
  | BT.leaf, _, _ => trivial
  | BT.node a kv ch k key val r l, hr, hS => by
    obtain ⟨ha1, ha0, ha, hkv, hk, hch, hrr, hrl⟩ := hr
    have hmem : ∀ x, x ∈ (BT.node a kv ch k key val r l).cells ↔
        x = a ∨ x = kv ∨ x = ch ∨ x ∈ r.cells ∨ x ∈ l.cells := by
      intro x; simp [BT.cells]
    refine ⟨ha1, ha0, hc _ _ _ ha (hS _ ((hmem _).2 (Or.inl rfl))),
      hc _ _ _ hkv (hS _ ((hmem _).2 (Or.inr (Or.inl rfl)))), hs _ _ hk,
      hc _ _ _ hch (hS _ ((hmem _).2 (Or.inr (Or.inr (Or.inl rfl))))),
      Rep.frame hc hs hrr (fun x hx => hS _ ((hmem _).2 (Or.inr (Or.inr (Or.inr (Or.inl hx)))))),
      Rep.frame hc hs hrl (fun x hx => hS _ ((hmem _).2 (Or.inr (Or.inr (Or.inr (Or.inr hx))))))⟩

theorem BT.mem_cells_ins (n : Nat) (k : Nat) (s : String) (v : Nat) (x : Nat) (t : BT) :
    x ∈ (BT.ins n k s v t).cells ↔ x ∈ t.cells ∨ x = n ∨ x = n + 1 ∨ x = n + 2 := by
  induction t with
  | leaf =>
    simp only [BT.ins, BT.cells, List.mem_cons, List.append_nil, List.not_mem_nil, false_or,
      or_false, or_left_comm, or_comm, or_assoc]
  | node a kv ch k' key val r l ihr ihl =>
    unfold BT.ins
    split_ifs
    · simp only [BT.cells, List.mem_cons, List.mem_append, ihl, or_assoc]
    · simp only [BT.cells, List.mem_cons, List.mem_append, ihr, or_assoc, or_left_comm, or_comm]

theorem BT.nodup_ins (n : Nat) (k : Nat) (s : String) (v : Nat) :
    ∀ t : BT, t.cells.Nodup → (∀ x ∈ t.cells, x < n) → (BT.ins n k s v t).cells.Nodup
  | BT.leaf, _, _ => by simp [BT.ins, BT.cells]
  | BT.node a kv ch k' key val r l, hnd, hlt => by
    simp only [BT.cells, List.nodup_cons, List.mem_cons, List.mem_append, List.nodup_append,
      not_or] at hnd
    obtain ⟨⟨ha1, ha2, ha3, ha4⟩, ⟨hk1, hk2, hk3⟩, ⟨hc1, hc2⟩, hrn, hln, hdis⟩ := hnd
    have hltr : ∀ x ∈ r.cells, x < n := fun x hx => hlt x (by simp [BT.cells, hx])
    have hltl : ∀ x ∈ l.cells, x < n := fun x hx => hlt x (by simp [BT.cells, hx])
    have han : a < n := hlt a (by simp [BT.cells])
    have hkn : kv < n := hlt kv (by simp [BT.cells])
    have hcn : ch < n := hlt ch (by simp [BT.cells])
    have ihr := BT.nodup_ins n k s v r hrn hltr
    have ihl := BT.nodup_ins n k s v l hln hltl
    unfold BT.ins
    split_ifs
    · simp only [BT.cells, List.nodup_cons, List.mem_cons, List.mem_append, List.nodup_append,
        not_or, BT.mem_cells_ins]
      refine ⟨⟨ha1, ha2, ha3, ?_⟩, ⟨hk1, hk2, ?_⟩, ⟨hc1, ?_⟩, hrn, ihl, ?_⟩
      · refine ⟨ha4, ?_, ?_, ?_⟩ <;> omega
      · refine ⟨hk3, ?_, ?_, ?_⟩ <;> omega
      · refine ⟨hc2, ?_, ?_, ?_⟩ <;> omega
      · intro x hx hx'
        rw [BT.mem_cells_ins] at hx'
        have := hltr x hx
        rcases hx' with hx' | hx' | hx' | hx'
        · exact hdis hx hx'
        all_goals omega
    · simp only [BT.cells, List.nodup_cons, List.mem_cons, List.mem_append, List.nodup_append,
        not_or, BT.mem_cells_ins]
      refine ⟨⟨ha1, ha2, ?_, ha4⟩, ⟨hk1, ?_, hk3⟩, ⟨?_, hc2⟩, ihr, hln, ?_⟩
      · refine ⟨ha3, ?_, ?_, ?_⟩ <;> omega
      · refine ⟨hk2, ?_, ?_, ?_⟩ <;> omega
      · refine ⟨hc1, ?_, ?_, ?_⟩ <;> omega
      · intro x hx hx'
        rw [BT.mem_cells_ins] at hx
        have := hltl x hx'
        rcases hx with hx | hx | hx | hx
        · exact hdis hx hx'
        all_goals omega

theorem BT.mem_keys_ins (n : Nat) (k : Nat) (s : String) (v : Nat) (x : String) (t : BT) :
    x ∈ (BT.ins n k s v t).keys ↔ x = s ∨ x ∈ t.keys := by
  induction t with
  | leaf => simp [BT.ins, BT.keys]
  | node a kv ch k' key val r l ihr ihl =>
    unfold BT.ins
    split_ifs
    · simp only [BT.keys, List.mem_cons, List.mem_append, ihl, or_assoc, or_left_comm, or_comm]
    · simp only [BT.keys, List.mem_cons, List.mem_append, ihr, or_assoc, or_left_comm, or_comm]

theorem btbl_find_rep {h : Heap} : ∀ (t : BT) (n : Nat) (s : String),
    Rep h t → t.depth < n → btbl_find n h t.root s = some (t.find s)
  | BT.leaf, n, s, _, hn => by
    obtain ⟨m, rfl⟩ : ∃ m, n = m + 1 := ⟨n - 1, by simp [BT.depth] at hn; omega⟩
    simp [btbl_find, BT.find]
  | BT.node a kv ch k key val r l, n, s, hr, hn => by
    obtain ⟨m, rfl⟩ : ∃ m, n = m + 1 := ⟨n - 1, by omega⟩
    obtain ⟨ha1, ha0, ha, hkv, hk, hch, hrr, hrl⟩ := hr
    simp only [BT.depth] at hn
    have ihr := btbl_find_rep r m s hrr (by omega)
    have ihl := btbl_find_rep l m s hrl (by omega)
    simp only [btbl_find, BT.root_node, BT.find, caar, cdar, cddr, cadr, car_of ha, cdr_of ha,
      car_of hkv, cdr_of hkv, str_of hk, car_of hch, cdr_of hch, Option.some_bind, ha1, ha0,
      or_self, if_false, ihr, ihl]
    split_ifs <;> rfl

theorem btbl_insert_rep {h : Heap} {k v : Nat} {s : String}
    (hk : h[k]? = some (Cell.SYMBOL s)) :
    ∀ (t : BT) (n : Nat), Rep h t → t.cells.Nodup → t.depth < n →
      ∃ h', btbl_insert n h t.root k v = some ((BT.ins h.length k s v t).root, h') ∧
        Rep h' (BT.ins h.length k s v t) ∧ h'.length = h.length + 3 ∧
        (∀ x, x < h.length → x ∉ t.cells → h'[x]? = h[x]?)
  | BT.leaf, n, _, _, hn => by
    obtain ⟨m, rfl⟩ : ∃ m, n = m + 1 := ⟨n - 1, by simp [BT.depth] at hn; omega⟩
    refine ⟨h ++ [Cell.CONS k v] ++ [Cell.CONS None None] ++
      [Cell.CONS h.length (h.length + 1)], ?_, ?_, ?_, ?_⟩
    · simp [btbl_insert, cons, alloc, BT.ins]
    · have hN : None = 1 := rfl
      have hZ : NULL = 0 := rfl
      refine ⟨by omega, by omega, ?_, ?_, ?_, ?_, trivial, trivial⟩
      · rw [List.getElem?_append_right (by simp)]; simp
      · rw [List.append_assoc, List.append_assoc, List.getElem?_append_right (by simp)]; simp
      · rw [List.append_assoc, List.append_assoc]; exact get_append hk
      · rw [List.append_assoc, List.getElem?_append_right (by simp)]; simp
    · simp
    · intro x hx _
      rw [List.append_assoc, List.append_assoc, List.getElem?_append_left hx]
  | BT.node a kv ch k' key val r l, n, hr, hnd, hn => by
    obtain ⟨m, rfl⟩ : ∃ m, n = m + 1 := ⟨n - 1, by omega⟩
    have hcons := Rep.cells_cons hr
    obtain ⟨ha1, ha0, ha, hkv, hk', hch, hrr, hrl⟩ := hr
    simp only [BT.depth] at hn
    simp only [BT.cells, List.nodup_cons, List.mem_cons, List.mem_append, List.nodup_append,
      not_or] at hnd
    obtain ⟨⟨ha1', ha2, ha3, ha4⟩, ⟨hk1, hk2, hk3⟩, ⟨hc1, hc2⟩, hrn, hln, hdis⟩ := hnd
    have hmem : ∀ x, x ∈ (BT.node a kv ch k' key val r l).cells ↔
        x = a ∨ x = kv ∨ x = ch ∨ x ∈ r.cells ∨ x ∈ l.cells := by
      intro x; simp [BT.cells]
    -- symbol cells are not cells of the tree
    have hsym : ∀ x s', h[x]? = some (Cell.SYMBOL s') →
        x ∉ (BT.node a kv ch k' key val r l).cells := by
      intro x s' hx hin
      obtain ⟨c, d, hcd⟩ := hcons x hin
      rw [hx] at hcd; cases hcd
    have halt := get_lt ha
    have hkvlt := get_lt hkv
    have hchlt := get_lt hch
    by_cases hlt : strcmp key s < 0
    · obtain ⟨h1, hins, hrep1, hlen1, hfr1⟩ := btbl_insert_rep (v := v) hk l m hrl hln (by omega)
      have ha_1 : h1[a]? = some (Cell.CONS kv ch) := by rw [hfr1 a halt ha4]; exact ha
      have hch_1 : h1[ch]? = some (Cell.CONS r.root l.root) := by
        rw [hfr1 ch hchlt hc2]; exact hch
      have hchlt1 : ch < h1.length := by omega
      refine ⟨h1.set ch (Cell.CONS r.root (BT.ins h.length k s v l).root), ?_, ?_, ?_, ?_⟩
      · simp only [btbl_insert, BT.root_node, ha1, if_false, caar, cddr, car_of ha, cdr_of ha,
          car_of hkv, cdr_of hch, str_of hk', str_of hk, Option.some_bind, hlt, if_true, hins,
          cdr_of ha_1, set_cdr, hch_1, BT.ins]
      · simp only [BT.ins, hlt, if_true]
        refine ⟨ha1, ha0, ?_, ?_, ?_, get_set_eq _ hchlt1, ?_, ?_⟩
        · rw [get_set_ne _ (Ne.symm ha2)]; exact ha_1
        · rw [get_set_ne _ (Ne.symm hk1), hfr1 kv hkvlt hk3]; exact hkv
        · have hne : ch ≠ k' := by
            rintro rfl; rw [hk'] at hch; cases hch
          rw [get_set_ne _ hne, hfr1 k' (get_lt hk')
            (fun hin => hsym k' key hk' ((hmem _).2 (Or.inr (Or.inr (Or.inr (Or.inr hin))))))]
          exact hk'
        · refine Rep.frame (S := fun x => x ≠ ch ∧ x ∉ l.cells) ?_ ?_ hrr ?_
          · intro x c d hx hS
            rw [get_set_ne _ (Ne.symm hS.1), hfr1 x (get_lt hx) hS.2]; exact hx
          · intro x s' hx
            have hne : ch ≠ x := by
              rintro rfl; rw [hx] at hch; cases hch
            rw [get_set_ne _ hne, hfr1 x (get_lt hx)
              (fun hin => hsym x s' hx ((hmem _).2 (Or.inr (Or.inr (Or.inr (Or.inr hin))))))]
            exact hx
          · intro x hx
            exact ⟨fun e => hc1 (e ▸ hx), fun hx' => hdis hx hx'⟩
        · refine Rep.frame (S := fun x => x ≠ ch) ?_ ?_ hrep1 ?_
          · intro x c d hx hS
            rw [get_set_ne _ (Ne.symm hS)]; exact hx
          · intro x s' hx
            have hne : ch ≠ x := by
              rintro rfl; rw [hx] at hch_1; cases hch_1
            rw [get_set_ne _ hne]; exact hx
          · intro x hx e
            rw [BT.mem_cells_ins] at hx
            subst e
            rcases hx with hx | hx | hx | hx
            · exact hc2 hx
            all_goals omega
      · simp [hlen1]
      · intro x hx hnin
        rw [hmem] at hnin
        simp only [not_or] at hnin
        rw [get_set_ne _ (Ne.symm hnin.2.2.1), hfr1 x hx hnin.2.2.2.2]
    · obtain ⟨h1, hins, hrep1, hlen1, hfr1⟩ := btbl_insert_rep (v := v) hk r m hrr hrn (by omega)
      have ha_1 : h1[a]? = some (Cell.CONS kv ch) := by rw [hfr1 a halt ha3]; exact ha
      have hch_1 : h1[ch]? = some (Cell.CONS r.root l.root) := by
        rw [hfr1 ch hchlt hc1]; exact hch
      have hchlt1 : ch < h1.length := by omega
      refine ⟨h1.set ch (Cell.CONS (BT.ins h.length k s v r).root l.root), ?_, ?_, ?_, ?_⟩
      · simp only [btbl_insert, BT.root_node, ha1, if_false, caar, cadr, car_of ha, cdr_of ha,
          car_of hkv, car_of hch, str_of hk', str_of hk, Option.some_bind, hlt, hins,
          cdr_of ha_1, set_car, hch_1, BT.ins]
      · simp only [BT.ins, hlt, if_false]
        refine ⟨ha1, ha0, ?_, ?_, ?_, get_set_eq _ hchlt1, ?_, ?_⟩
        · rw [get_set_ne _ (Ne.symm ha2)]; exact ha_1
        · rw [get_set_ne _ (Ne.symm hk1), hfr1 kv hkvlt hk2]; exact hkv
        · have hne : ch ≠ k' := by
            rintro rfl; rw [hk'] at hch; cases hch
          rw [get_set_ne _ hne, hfr1 k' (get_lt hk')
            (fun hin => hsym k' key hk' ((hmem _).2 (Or.inr (Or.inr (Or.inr (Or.inl hin))))))]
          exact hk'
        · refine Rep.frame (S := fun x => x ≠ ch) ?_ ?_ hrep1 ?_
          · intro x c d hx hS
            rw [get_set_ne _ (Ne.symm hS)]; exact hx
          · intro x s' hx
            have hne : ch ≠ x := by
              rintro rfl; rw [hx] at hch_1; cases hch_1
            rw [get_set_ne _ hne]; exact hx
          · intro x hx e
            rw [BT.mem_cells_ins] at hx
            subst e
            rcases hx with hx | hx | hx | hx
            · exact hc1 hx
            all_goals omega
        · refine Rep.frame (S := fun x => x ≠ ch ∧ x ∉ r.cells) ?_ ?_ hrl ?_
          · intro x c d hx hS
            rw [get_set_ne _ (Ne.symm hS.1), hfr1 x (get_lt hx) hS.2]; exact hx
          · intro x s' hx
            have hne : ch ≠ x := by
              rintro rfl; rw [hx] at hch; cases hch
            rw [get_set_ne _ hne, hfr1 x (get_lt hx)
              (fun hin => hsym x s' hx ((hmem _).2 (Or.inr (Or.inr (Or.inr (Or.inl hin))))))]
            exact hx
          · intro x hx
            exact ⟨fun e => hc2 (e ▸ hx), fun hx' => hdis hx' hx⟩
      · simp [hlen1]
      · intro x hx hnin
        rw [hmem] at hnin
        simp only [not_or] at hnin
        rw [get_set_ne _ (Ne.symm hnin.2.2.1), hfr1 x hx hnin.2.2.2.1]

/-! ## More fuel gives the same result -/

theorem bind_mono {α β : Type} {x x' : Option α} {f g : α → Option β} {r : β}
    (h : x.bind f = some r) (hx : ∀ a, x = some a → x' = some a)
    (hfg : ∀ a, x = some a → f a = some r → g a = some r) : x'.bind g = some r := by
  cases x with
  | none => simp at h
  | some a =>
    rw [hx a rfl]
    exact hfg a rfl h

theorem bind_mono_right {α β : Type} {x : Option α} {f g : α → Option β} {r : β}
    (h : x.bind f = some r)
    (hfg : ∀ a, x = some a → f a = some r → g a = some r) : x.bind g = some r :=
  bind_mono h (fun _ e => e) hfg

theorem map_mono {α β : Type} {x x' : Option α} {f : α → β} {r : β}
    (h : x.map f = some r) (hx : ∀ a, x = some a → x' = some a) : x'.map f = some r := by
  cases x with
  | none => simp at h
  | some a => rw [hx a rfl]; exact h

theorem btbl_find_mono : ∀ (n m : Nat) (h : Heap) (t : Nat) (s : String) (r : Nat),
    btbl_find n h t s = some r → n ≤ m → btbl_find m h t s = some r
  | 0, _, _, _, _, _, hr, _ => by simp [btbl_find] at hr
  | n + 1, m, h, t, s, r, hr, hm => by
    obtain ⟨m', rfl⟩ : ∃ m', m = m' + 1 := ⟨m - 1, by omega⟩
    have ih := btbl_find_mono n m' h
    simp only [btbl_find] at hr ⊢
    split_ifs at hr ⊢
    · exact hr
    · refine bind_mono_right hr (fun k _ hr => ?_)
      refine bind_mono_right hr (fun ks _ hr => ?_)
      dsimp only at hr ⊢
      split_ifs at hr ⊢
      · exact hr
      · exact bind_mono_right hr (fun l _ hr => ih _ _ _ hr (by omega))
      · exact bind_mono_right hr (fun l _ hr => ih _ _ _ hr (by omega))

theorem btbl_insert_mono : ∀ (n m : Nat) (h : Heap) (t k v : Nat) (r : Nat × Heap),
    btbl_insert n h t k v = some r → n ≤ m → btbl_insert m h t k v = some r
  | 0, _, _, _, _, _, _, hr, _ => by simp [btbl_insert] at hr
  | n + 1, m, h, t, k, v, r, hr, hm => by
    obtain ⟨m', rfl⟩ : ∃ m', m = m' + 1 := ⟨m - 1, by omega⟩
    have ih := btbl_insert_mono n m' h
    simp only [btbl_insert] at hr ⊢
    split_ifs at hr ⊢
    · exact hr
    · refine bind_mono_right hr (fun tk _ hr => ?_)
      refine bind_mono_right hr (fun tks _ hr => ?_)
      refine bind_mono_right hr (fun ks _ hr => ?_)
      split_ifs at hr ⊢
      · refine bind_mono_right hr (fun l _ hr => ?_)
        exact bind_mono hr (fun a ha => ih _ _ _ _ ha (by omega)) (fun _ _ hr => hr)
      · refine bind_mono_right hr (fun l _ hr => ?_)
        exact bind_mono hr (fun a ha => ih _ _ _ _ ha (by omega)) (fun _ _ hr => hr)

theorem env_find_mono : ∀ (n m : Nat) (h : Heap) (p : Nat) (s : String) (r : Nat),
    env_find n h p s = some r → n ≤ m → env_find m h p s = some r
  | 0, _, _, _, _, _, hr, _ => by simp [env_find] at hr
  | n + 1, m, h, p, s, r, hr, hm => by
    obtain ⟨m', rfl⟩ : ∃ m', m = m' + 1 := ⟨m - 1, by omega⟩
    have ih := env_find_mono n m' h
    simp only [env_find] at hr ⊢
    split_ifs at hr ⊢
    · exact hr
    · refine bind_mono_right hr (fun f _ hr => ?_)
      refine bind_mono hr (fun a ha => btbl_find_mono _ _ _ _ _ _ ha (by omega)) (fun t _ hr => ?_)
      split_ifs at hr ⊢
      · exact hr
      · exact bind_mono_right hr (fun p' _ hr => ih _ _ _ hr (by omega))

theorem env_insert_mono (n m : Nat) (h : Heap) (e k v : Nat) (r : Heap)
    (hr : env_insert n h e k v = some r) (hm : n ≤ m) : env_insert m h e k v = some r := by
  simp only [env_insert] at hr ⊢
  refine bind_mono_right hr (fun f _ hr => ?_)
  exact bind_mono hr (fun a ha => btbl_insert_mono _ _ _ _ _ _ _ ha hm) (fun _ _ hr => hr)

theorem bind_params_mono : ∀ (n m : Nat) (h : Heap) (ps vs : Nat) (r : Nat × Heap),
    bind_params n h ps vs = some r → n ≤ m → bind_params m h ps vs = some r
  | 0, _, _, _, _, _, hr, _ => by simp [bind_params] at hr
  | n + 1, m, h, ps, vs, r, hr, hm => by
    obtain ⟨m', rfl⟩ : ∃ m', m = m' + 1 := ⟨m - 1, by omega⟩
    have ih := bind_params_mono n m' h
    simp only [bind_params] at hr ⊢
    refine bind_mono_right hr (fun v _ hr => ?_)
    split_ifs at hr ⊢
    · exact hr
    · refine bind_mono_right hr (fun p' _ hr => ?_)
      refine bind_mono_right hr (fun v' _ hr => ?_)
      refine bind_mono hr (fun a ha => ih _ _ _ ha (by omega)) (fun t _ hr => ?_)
      refine bind_mono_right hr (fun p _ hr => ?_)
      refine bind_mono_right hr (fun v1 _ hr => ?_)
      exact btbl_insert_mono _ _ _ _ _ _ _ hr (by omega)

theorem add_mono : ∀ (n m : Nat) (h : Heap) (l : Nat) (r : Rat),
    add_ n h l = some r → n ≤ m → add_ m h l = some r
  | 0, _, _, _, _, hr, _ => by simp [add_] at hr
  | n + 1, m, h, l, r, hr, hm => by
    obtain ⟨m', rfl⟩ : ∃ m', m = m' + 1 := ⟨m - 1, by omega⟩
    simp only [add_] at hr ⊢
    refine bind_mono_right hr (fun a _ hr => ?_)
    split_ifs at hr ⊢
    · exact hr
    · refine bind_mono_right hr (fun d _ hr => ?_)
      refine bind_mono_right hr (fun d' _ hr => ?_)
      exact map_mono hr (fun x hx => add_mono n m' h _ _ hx (by omega))

theorem sub_mono : ∀ (n m : Nat) (h : Heap) (l : Nat) (r : Rat),
    sub_ n h l = some r → n ≤ m → sub_ m h l = some r
  | 0, _, _, _, _, hr, _ => by simp [sub_] at hr
  | n + 1, m, h, l, r, hr, hm => by
    obtain ⟨m', rfl⟩ : ∃ m', m = m' + 1 := ⟨m - 1, by omega⟩
    simp only [sub_] at hr ⊢
    refine bind_mono_right hr (fun a _ hr => ?_)
    split_ifs at hr ⊢
    · exact hr
    · refine bind_mono_right hr (fun d _ hr => ?_)
      refine bind_mono_right hr (fun d' _ hr => ?_)
      exact map_mono hr (fun x hx => sub_mono n m' h _ _ hx (by omega))

theorem mul_mono : ∀ (n m : Nat) (h : Heap) (l : Nat) (r : Rat),
    mul_ n h l = some r → n ≤ m → mul_ m h l = some r
  | 0, _, _, _, _, hr, _ => by simp [mul_] at hr
  | n + 1, m, h, l, r, hr, hm => by
    obtain ⟨m', rfl⟩ : ∃ m', m = m' + 1 := ⟨m - 1, by omega⟩
    simp only [mul_] at hr ⊢
    refine bind_mono_right hr (fun a _ hr => ?_)
    split_ifs at hr ⊢
    · exact hr
    · refine bind_mono_right hr (fun d _ hr => ?_)
      refine bind_mono_right hr (fun d' _ hr => ?_)
      exact map_mono hr (fun x hx => mul_mono n m' h _ _ hx (by omega))

theorem div_mono : ∀ (n m : Nat) (h : Heap) (l : Nat) (r : Rat),
    div_ n h l = some r → n ≤ m → div_ m h l = some r
  | 0, _, _, _, _, hr, _ => by simp [div_] at hr
  | n + 1, m, h, l, r, hr, hm => by
    obtain ⟨m', rfl⟩ : ∃ m', m = m' + 1 := ⟨m - 1, by omega⟩
    simp only [div_] at hr ⊢
    refine bind_mono_right hr (fun a _ hr => ?_)
    split_ifs at hr ⊢
    · exact hr
    · refine bind_mono_right hr (fun d _ hr => ?_)
      refine bind_mono_right hr (fun d' _ hr => ?_)
      exact map_mono hr (fun x hx => div_mono n m' h _ _ hx (by omega))

theorem begin_loop_mono : ∀ (n m : Nat) (h : Heap) (p : Nat) (r : Nat),
    begin_loop n h p = some r → n ≤ m → begin_loop m h p = some r
  | 0, _, _, _, _, hr, _ => by simp [begin_loop] at hr
  | n + 1, m, h, p, r, hr, hm => by
    obtain ⟨m', rfl⟩ : ∃ m', m = m' + 1 := ⟨m - 1, by omega⟩
    simp only [begin_loop] at hr ⊢
    refine bind_mono_right hr (fun d _ hr => ?_)
    split_ifs at hr ⊢
    · exact begin_loop_mono n m' h _ _ hr (by omega)
    · exact hr

theorem pprint_mono : ∀ (n m : Nat) (h : Heap) (e : Nat) (r : Unit),
    pprint n h e = some r → n ≤ m → pprint m h e = some r
  | 0, _, _, _, _, hr, _ => by simp [pprint] at hr
  | n + 1, m, h, e, r, hr, hm => by
    obtain ⟨m', rfl⟩ : ∃ m', m = m' + 1 := ⟨m - 1, by omega⟩
    have ih := pprint_mono n m' h
    simp only [pprint] at hr ⊢
    split_ifs at hr ⊢
    · exact hr
    · split at hr <;> first
        | exact hr
        | (refine bind_mono hr (fun a ha => ih _ _ ha (by omega)) (fun _ _ hr => ?_)
           first
             | exact ih _ _ hr (by omega)
             | exact bind_mono_right hr (fun b _ hr => ih _ _ hr (by omega)))

theorem call_fn_mono (n m : Nat) (h : Heap) (f : Fn) (args : Nat) (r : Nat × Heap)
    (hr : call_fn n h f args = some r) (hm : n ≤ m) : call_fn m h f args = some r := by
  cases f <;> simp only [call_fn] at hr ⊢ <;> first
    | exact hr
    | exact map_mono hr (fun x hx => add_mono _ _ _ _ _ hx hm)
    | exact map_mono hr (fun x hx => sub_mono _ _ _ _ _ hx hm)
    | exact map_mono hr (fun x hx => mul_mono _ _ _ _ _ hx hm)
    | exact map_mono hr (fun x hx => div_mono _ _ _ _ _ hx hm)
    | exact map_mono hr (fun x hx => begin_loop_mono _ _ _ _ _ hx hm)
    | exact bind_mono_right hr (fun a _ hr => map_mono hr (fun x hx => pprint_mono _ _ _ _ _ hx hm))

theorem ite_mono {α : Type} {c : Prop} [Decidable c] {x y x' y' : Option α} {r : α}
    (h : (if c then x else y) = some r) (hx : c → x = some r → x' = some r)
    (hy : ¬c → y = some r → y' = some r) : (if c then x' else y') = some r := by
  by_cases hc : c
  · rw [if_pos hc] at h ⊢; exact hx hc h
  · rw [if_neg hc] at h ⊢; exact hy hc h

theorem list_of_values_mono_step {n : Nat} (ih : MonoAt n) (m : Nat) (h : Heap) (e env : Nat)
    (r : Nat × Heap) (hr : list_of_values (n + 1) h e env = some r) (hm : n ≤ m) :
    list_of_values (m + 1) h e env = some r := by
  obtain ⟨ihe, ihl, -, -⟩ := ih
  rw [list_of_values.eq_2] at hr ⊢
  refine bind_mono_right hr (fun a _ hr => ?_)
  refine ite_mono hr (fun _ hr => hr) (fun _ hr => ?_)
  refine bind_mono hr (fun x hx => ihe _ _ _ _ _ hx hm) (fun x _ hr => ?_)
  refine bind_mono_right hr (fun d _ hr => ?_)
  exact bind_mono hr (fun x hx => ihl _ _ _ _ _ hx hm) (fun _ _ hr => hr)

theorem eval_if_mono_step {n : Nat} (ih : MonoAt n) (m : Nat) (h : Heap) (e env : Nat)
    (r : Nat × Heap) (hr : eval_if (n + 1) h e env = some r) (hm : n ≤ m) :
    eval_if (m + 1) h e env = some r := by
  obtain ⟨ihe, -, -, -⟩ := ih
  rw [eval_if.eq_2] at hr ⊢
  refine bind_mono_right hr (fun t _ hr => ?_)
  refine bind_mono hr (fun x hx => ihe _ _ _ _ _ hx hm) (fun x _ hr => ?_)
  refine ite_mono hr (fun _ hr => ?_) (fun _ hr => ?_)
  · exact bind_mono_right hr (fun b _ hr => ihe _ _ _ _ _ hr hm)
  · exact bind_mono_right hr (fun b _ hr => ihe _ _ _ _ _ hr hm)

theorem apply_mono_step {n : Nat} (ih : MonoAt n) (m : Nat) (h : Heap) (p a : Nat)
    (r : Nat × Heap) (hr : apply (n + 1) h p a = some r) (hm : n ≤ m) :
    apply (m + 1) h p a = some r := by
  obtain ⟨ihe, -, -, -⟩ := ih
  rw [apply.eq_2] at hr ⊢
  refine ite_mono hr (fun _ hr => ?_) (fun _ hr => hr)
  generalize deref h p = d at hr ⊢
  cases d with
  | none => exact hr
  | some c =>
    cases c with
    | FUNCTION f => exact call_fn_mono _ _ _ _ _ _ hr hm
    | LAMBDA ps d =>
      dsimp only at hr ⊢
      refine bind_mono hr (fun x hx => bind_params_mono _ _ _ _ _ _ hx hm) (fun x _ hr => ?_)
      refine bind_mono_right hr (fun ce _ hr => ?_)
      refine bind_mono_right hr (fun b _ hr => ?_)
      exact ihe _ _ _ _ _ hr hm
    | _ => exact hr

theorem eval_mono_step {n : Nat} (ih : MonoAt n) (m : Nat) (h : Heap) (e env : Nat)
    (r : Nat × Heap) (hr : eval (n + 1) h e env = some r) (hm : n ≤ m) :
    eval (m + 1) h e env = some r := by
  obtain ⟨ihe, ihl, iha, ihi⟩ := ih
  rw [eval.eq_2] at hr ⊢
  refine ite_mono hr (fun _ hr => hr) (fun _ hr => ?_)
  generalize deref h e = d at hr ⊢
  cases d with
  | none => exact hr
  | some c =>
    cases c with
    | SYMBOL s => exact map_mono hr (fun x hx => env_find_mono _ _ _ _ _ _ hx hm)
    | CONS a d =>
      dsimp only at hr ⊢
      have hcall : ∀ r,
          (if a ≠ None then
            (eval n h a env).bind fun x =>
              if x.1 = None then some (None, x.2)
              else (cdr x.2 e).bind fun d =>
                (list_of_values n x.2 d env).bind fun y => apply n y.2 x.1 y.1
          else some (None, h)) = some r →
          (if a ≠ None then
            (eval m h a env).bind fun x =>
              if x.1 = None then some (None, x.2)
              else (cdr x.2 e).bind fun d =>
                (list_of_values m x.2 d env).bind fun y => apply m y.2 x.1 y.1
          else some (None, h)) = some r := by
        intro r hr
        refine ite_mono hr (fun _ hr => ?_) (fun _ hr => hr)
        refine bind_mono hr (fun x hx => ihe _ _ _ _ _ hx hm) (fun x _ hr => ?_)
        refine ite_mono hr (fun _ hr => hr) (fun _ hr => ?_)
        refine bind_mono_right hr (fun d _ hr => ?_)
        refine bind_mono hr (fun x hx => ihl _ _ _ _ _ hx hm) (fun y _ hr => ?_)
        exact iha _ _ _ _ _ hr hm
      refine bind_mono_right hr (fun sy _ hr => ?_)
      refine ite_mono hr (fun _ hr => ?_) (fun _ hr => hcall _ hr)
      refine bind_mono_right hr (fun s _ hr => ?_)
      refine ite_mono hr (fun _ hr => ?_) (fun _ hr => ?_)
      · refine bind_mono_right hr (fun k _ hr => ?_)
        refine bind_mono_right hr (fun e' _ hr => ?_)
        refine bind_mono hr (fun x hx => ihe _ _ _ _ _ hx hm) (fun x _ hr => ?_)
        exact bind_mono hr (fun x hx => env_insert_mono _ _ _ _ _ _ _ hx hm) (fun _ _ hr => hr)
      refine ite_mono hr (fun _ hr => ?_) (fun _ hr => ?_)
      · refine bind_mono_right hr (fun k _ hr => ?_)
        refine bind_mono_right hr (fun ks _ hr => ?_)
        refine bind_mono hr (fun x hx => env_find_mono _ _ _ _ _ _ hx hm) (fun var _ hr => ?_)
        refine bind_mono_right hr (fun e' _ hr => ?_)
        exact bind_mono hr (fun x hx => ihe _ _ _ _ _ hx hm) (fun _ _ hr => hr)
      refine ite_mono hr (fun _ hr => ihi _ _ _ _ _ hr hm) (fun _ hr => ?_)
      refine ite_mono hr (fun _ hr => hr) (fun _ hr => ?_)
      exact ite_mono hr (fun _ hr => hr) (fun _ hr => hcall _ hr)
    | _ => exact hr

theorem monoAt : ∀ n, MonoAt n
  | 0 => by
    refine ⟨?_, ?_, ?_, ?_⟩ <;> intro m h e env r hr
    · rw [eval.eq_1] at hr; cases hr
    · rw [list_of_values.eq_1] at hr; cases hr
    · rw [apply.eq_1] at hr; cases hr
    · rw [eval_if.eq_1] at hr; cases hr
  | n + 1 => by
    have ih := monoAt n
    refine ⟨?_, ?_, ?_, ?_⟩ <;> intro m h e env r hr hm <;>
      obtain ⟨m', rfl⟩ : ∃ m', m = m' + 1 := ⟨m - 1, by omega⟩
    · exact eval_mono_step ih _ _ _ _ _ hr (by omega)
    · exact list_of_values_mono_step ih _ _ _ _ _ hr (by omega)
    · exact apply_mono_step ih _ _ _ _ _ hr (by omega)
    · exact eval_if_mono_step ih _ _ _ _ _ hr (by omega)

theorem eval_mono {n m : Nat} {h : Heap} {e env : Nat} {r : Nat × Heap}
    (hr : eval n h e env = some r) (hm : n ≤ m) : eval m h e env = some r :=
  (monoAt n).1 _ _ _ _ _ hr hm

theorem Rep.append {h : Heap} (e : Heap) {t : BT} (hr : Rep h t) : Rep (h ++ e) t :=
  Rep.frame (S := fun _ => True) (fun _ _ _ hx _ => get_append hx) (fun _ _ hx => get_append hx)
    hr (fun _ _ => trivial)

theorem Rep.cells_lt {h : Heap} {t : BT} (hr : Rep h t) : ∀ x ∈ t.cells, x < h.length := by
  intro x hx
  obtain ⟨c, d, hcd⟩ := Rep.cells_cons hr x hx
  exact get_lt hcd

theorem BT.hit_mem_keys {s : String} : ∀ t : BT, t.hit s → s ∈ t.keys
  | BT.leaf, h => by simp [BT.hit] at h
  | BT.node a kv ch k key val r l, h => by
    simp only [BT.hit] at h
    simp only [BT.keys, List.mem_cons, List.mem_append]
    by_cases h0 : strcmp key s = 0
    · left; exact ((strcmp_eq_zero _ _).1 h0).symm
    · rw [if_neg h0] at h
      by_cases h1 : strcmp key s < 0
      · rw [if_pos h1] at h; exact Or.inr (Or.inr (BT.hit_mem_keys l h))
      · rw [if_neg h1] at h; exact Or.inr (Or.inl (BT.hit_mem_keys r h))

theorem BT.find_of_not_hit {s : String} : ∀ t : BT, ¬ t.hit s → t.find s = None
  | BT.leaf, _ => rfl
  | BT.node a kv ch k key val r l, h => by
    simp only [BT.hit] at h
    simp only [BT.find]
    by_cases h0 : strcmp key s = 0
    · rw [if_pos h0] at h; exact absurd trivial h
    · rw [if_neg h0] at h ⊢
      by_cases h1 : strcmp key s < 0
      · rw [if_pos h1] at h ⊢; exact BT.find_of_not_hit l h
      · rw [if_neg h1] at h ⊢; exact BT.find_of_not_hit r h

/-- Looking up the key just inserted when the descent met no node with that key. -/
theorem BT.find_ins_new (n k : Nat) (s : String) (v : Nat) : ∀ t : BT, ¬ t.hit s →
    (BT.ins n k s v t).find s = v
  | BT.leaf, _ => by
    have : strcmp s s = 0 := (strcmp_eq_zero s s).2 rfl
    simp [BT.ins, BT.find, this]
  | BT.node a kv ch k' key val r l, h => by
    simp only [BT.hit] at h
    by_cases h0 : strcmp key s = 0
    · rw [if_pos h0] at h; exact absurd trivial h
    · rw [if_neg h0] at h
      by_cases h1 : strcmp key s < 0
      · rw [if_pos h1] at h
        simp only [BT.ins, if_pos h1, BT.find, if_neg h0]
        exact BT.find_ins_new n k s v l h
      · rw [if_neg h1] at h
        simp only [BT.ins, if_neg h1, BT.find, if_neg h0, if_false]
        exact BT.find_ins_new n k s v r h

/-- A key met by the descent keeps its value when anything is inserted. -/
theorem BT.find_ins_hit (n k : Nat) (s' : String) (v : Nat) {s : String} : ∀ t : BT, t.hit s →
    (BT.ins n k s' v t).find s = t.find s
  | BT.leaf, h => by simp [BT.hit] at h
  | BT.node a kv ch k' key val r l, h => by
    simp only [BT.hit] at h
    by_cases h0 : strcmp key s = 0
    · by_cases h2 : strcmp key s' < 0 <;> simp [BT.ins, h2, BT.find, h0]
    · rw [if_neg h0] at h
      by_cases h1 : strcmp key s < 0
      · rw [if_pos h1] at h
        by_cases h2 : strcmp key s' < 0
        · simp only [BT.ins, if_pos h2, BT.find, if_neg h0, if_pos h1]
          exact BT.find_ins_hit n k s' v l h
        · simp only [BT.ins, if_neg h2, BT.find, if_neg h0, if_pos h1, if_false]
      · rw [if_neg h1] at h
        by_cases h2 : strcmp key s' < 0
        · simp only [BT.ins, if_pos h2, BT.find, if_neg h0, if_neg h1, if_false]
        · simp only [BT.ins, if_neg h2, BT.find, if_neg h0, if_neg h1, if_false]
          exact BT.find_ins_hit n k s' v r h

/-- Inserting another key does not change what a key is bound to. -/
theorem BT.find_ins_ne (n k : Nat) {s' s : String} (v : Nat) (hne : s' ≠ s) : ∀ t : BT,
    (BT.ins n k s' v t).find s = t.find s
  | BT.leaf => by
    have : strcmp s' s ≠ 0 := fun h => hne ((strcmp_eq_zero _ _).1 h)
    simp [BT.ins, BT.find, this]
  | BT.node a kv ch k' key val r l => by
    by_cases h2 : strcmp key s' < 0
    · simp only [BT.ins, if_pos h2, BT.find, BT.find_ins_ne n k v hne l]
    · simp only [BT.ins, if_neg h2, BT.find, BT.find_ins_ne n k v hne r, if_false]

theorem BT.hit_ins (n k : Nat) (s' : String) (v : Nat) (s : String) : ∀ t : BT,
    (BT.ins n k s' v t).hit s ↔ (s = s' ∨ t.hit s)
  | BT.leaf => by
    simp only [BT.ins, BT.hit, or_false]
    by_cases h0 : strcmp s' s = 0
    · have e := (strcmp_eq_zero _ _).1 h0
      subst e
      simp [h0]
    · have : s ≠ s' := fun h => h0 ((strcmp_eq_zero _ _).2 h.symm)
      simp [h0, this]
  | BT.node a kv ch k' key val r l => by
    have ihr := BT.hit_ins n k s' v s r
    have ihl := BT.hit_ins n k s' v s l
    by_cases h0 : strcmp key s = 0
    · by_cases h2 : strcmp key s' < 0 <;> simp [BT.ins, h2, BT.hit, h0]
    · by_cases h1 : strcmp key s < 0
      · by_cases h2 : strcmp key s' < 0
        · simp only [BT.ins, if_pos h2, BT.hit, if_neg h0, if_pos h1, ihl]
        · have : s ≠ s' := by rintro rfl; exact h2 h1
          simp only [BT.ins, if_neg h2, BT.hit, if_neg h0, if_pos h1, if_false, this, false_or]
      · by_cases h2 : strcmp key s' < 0
        · have : s ≠ s' := by rintro rfl; exact h1 h2
          simp only [BT.ins, if_pos h2, BT.hit, if_neg h0, if_neg h1, if_false, this, false_or]
        · simp only [BT.ins, if_neg h2, BT.hit, if_neg h0, if_neg h1, if_false, ihr]

theorem BT.depth_ins (n k : Nat) (s : String) (v : Nat) : ∀ t : BT,
    (BT.ins n k s v t).depth ≤ t.depth + 1
  | BT.leaf => by simp [BT.ins, BT.depth]
  | BT.node a kv ch k' key val r l => by
    have ihr := BT.depth_ins n k s v r
    have ihl := BT.depth_ins n k s v l
    by_cases h : strcmp key s < 0
    · simp only [BT.ins, if_pos h, BT.depth]; omega
    · simp only [BT.ins, if_neg h, BT.depth]; omega

theorem Built.rep {h : Heap} {t : Nat} {ks : List String} (hb : Built h t ks) :
    ∃ bt : BT, bt.root = t ∧ Rep h bt ∧ bt.cells.Nodup ∧ (∀ s, bt.hit s ↔ s ∈ ks) ∧
      bt.depth ≤ ks.length := by
  induction hb with
  | empty h => exact ⟨BT.leaf, rfl, trivial, by simp [BT.cells], by simp [BT.hit], by simp [BT.depth]⟩
  | alloc c _ ih =>
    obtain ⟨bt, h1, h2, h3, h4, h5⟩ := ih
    exact ⟨bt, h1, Rep.append _ h2, h3, h4, h5⟩
  | @insert h h' t t' k v ks s n _ hk hins ih =>
    obtain ⟨bt, h1, h2, h3, h4, h5⟩ := ih
    obtain ⟨h'', hins', hrep, _, _⟩ := btbl_insert_rep (v := v) hk bt (bt.depth + 1) h2 h3
      (Nat.lt_succ_self _)
    rw [h1] at hins'
    have e1 := btbl_insert_mono _ (max n (bt.depth + 1)) _ _ _ _ _ hins (le_max_left _ _)
    have e2 := btbl_insert_mono _ (max n (bt.depth + 1)) _ _ _ _ _ hins' (le_max_right _ _)
    rw [e1] at e2
    injection e2 with e2
    injection e2 with e3 e4
    subst e3 e4
    have hd := BT.depth_ins h.length k s v bt
    refine ⟨BT.ins h.length k s v bt, rfl, hrep, BT.nodup_ins _ _ _ _ _ h3 (Rep.cells_lt h2), ?_,
      by simp only [List.length_cons]; omega⟩
    intro x
    rw [BT.hit_ins, h4]
    simp

/-! ## Environments in the heap -/

theorem Rep.unique {h : Heap} : ∀ {t t' : BT}, Rep h t → Rep h t' → t.root = t'.root → t = t'
  | BT.leaf, BT.leaf, _, _, _ => rfl
  | BT.leaf, BT.node a kv ch k key val r l, _, hr', e => by
    simp only [BT.root_leaf, BT.root_node] at e
    exact absurd e.symm hr'.1
  | BT.node a kv ch k key val r l, BT.leaf, hr, _, e => by
    simp only [BT.root_leaf, BT.root_node] at e
    exact absurd e hr.1
  | BT.node a kv ch k key val r l, BT.node a' kv' ch' k' key' val' r' l', hr, hr', e => by
    simp only [BT.root_node] at e
    subst e
    obtain ⟨-, -, ha, hkv, hk, hch, hrr, hrl⟩ := hr
    obtain ⟨-, -, ha', hkv', hk', hch', hrr', hrl'⟩ := hr'
    rw [ha] at ha'
    injection ha' with ha'
    injection ha' with e1 e2
    subst e1 e2
    rw [hkv] at hkv'
    injection hkv' with hkv'
    injection hkv' with e1 e2
    subst e1 e2
    rw [hk] at hk'
    injection hk' with hk'
    injection hk' with e1
    subst e1
    rw [hch] at hch'
    injection hch' with hch'
    injection hch' with e1 e2
    rw [Rep.unique hrr hrr' e1, Rep.unique hrl hrl' e2]

theorem BT.root_ins_of_hit (n k : Nat) (s' : String) (v : Nat) {s : String} :
    ∀ t : BT, t.hit s → (BT.ins n k s' v t).root = t.root
  | BT.leaf, h => by simp [BT.hit] at h
  | BT.node a kv ch k' key val r l, _ => by
    by_cases h2 : strcmp key s' < 0 <;> simp [BT.ins, h2]

theorem EnvRep.frame_env {h h' : Heap} {S : Nat → Prop}
    (hc : ∀ (x c d : Nat), h[x]? = some (Cell.CONS c d) → S x → h'[x]? = some (Cell.CONS c d))
    (hs : ∀ (x : Nat) (s : String), h[x]? = some (Cell.SYMBOL s) →
      h'[x]? = some (Cell.SYMBOL s)) :
    ∀ {fs : List (Nat × BT)}, EnvRep h fs → (∀ x ∈ envCells fs, S x) → EnvRep h' fs
  | [], _, _ => trivial
  | (a, t) :: fs, hr, hS => by
    obtain ⟨ha1, ha, hrt, hrest⟩ := hr
    refine ⟨ha1, hc _ _ _ ha (hS _ (by simp [envCells])),
      Rep.frame hc hs hrt (fun x hx => hS _ (by simp [envCells, hx])),
      EnvRep.frame_env hc hs hrest (fun x hx => hS _ (by simp [envCells, hx]))⟩

theorem envNext_cons (a : Nat) (t : BT) (fs : List (Nat × BT)) :
    envNext ((a, t) :: fs) = a := rfl

theorem env_find_rep {h : Heap} (s : String) : ∀ (fs : List (Nat × BT)) (n : Nat),
    EnvRep h fs → envFuel fs < n → env_find n h (envNext fs) s = some (envLookup fs s)
  | [], n, _, hn => by
    obtain ⟨m, rfl⟩ : ∃ m, n = m + 1 := ⟨n - 1, by simp [envFuel] at hn; omega⟩
    simp [env_find, envNext, envLookup]
  | (a, t) :: fs, n, hr, hn => by
    obtain ⟨m, rfl⟩ : ∃ m, n = m + 1 := ⟨n - 1, by omega⟩
    obtain ⟨ha1, ha, hrt, hrest⟩ := hr
    simp only [envFuel] at hn
    have ih := env_find_rep s fs m hrest (by omega)
    simp only [env_find, envNext_cons, if_neg ha1, car_of ha, cdr_of ha, Option.some_bind,
      btbl_find_rep t m s hrt (by omega), envLookup, ih]
    by_cases hf : t.find s ≠ None
    · rw [if_pos hf, if_pos hf]
    · rw [if_neg hf, if_neg hf]

/-- A second insertion of a key that the descent already meets, in the innermost frame of an
environment: the environment is still represented, with the same tree pointer. -/
theorem env_insert_hit {h : Heap} {k : Nat} {s : String} (v1 : Nat)
    (hk : h[k]? = some (Cell.SYMBOL s)) {a : Nat} {bt : BT} {fs : List (Nat × BT)}
    (henv : EnvRep h ((a, bt) :: fs)) (hnd : (envCells ((a, bt) :: fs)).Nodup)
    (hhit : bt.hit s) (n : Nat) (hn : bt.depth < n) :
    ∃ h', env_insert n h a k v1 = some h' ∧
      EnvRep h' ((a, BT.ins h.length k s v1 bt) :: fs) := by
  obtain ⟨ha1, ha, hrt, hrest⟩ := henv
  simp only [envCells, List.nodup_cons, List.mem_append, List.nodup_append, not_or] at hnd
  obtain ⟨⟨hat, hafs⟩, hbtnd, hfsnd, hdis⟩ := hnd
  obtain ⟨h', hins, hrep', hlen, hfr⟩ := btbl_insert_rep (v := v1) hk bt n hrt hbtnd hn
  have hsym : ∀ (x : Nat) (s' : String), h[x]? = some (Cell.SYMBOL s') → x ∉ bt.cells := by
    intro x s' hx hin
    obtain ⟨c, d, hcd⟩ := Rep.cells_cons hrt x hin
    rw [hx] at hcd; cases hcd
  refine ⟨h', ?_, ha1, ?_, hrep', ?_⟩
  · simp only [env_insert, car_of ha, Option.some_bind, hins]
  · rw [BT.root_ins_of_hit _ _ _ _ bt hhit, hfr a (get_lt ha) hat]; exact ha
  · refine EnvRep.frame_env (S := fun x => x ∉ bt.cells) ?_ ?_ hrest ?_
    · intro x c d hx hS
      rw [hfr x (get_lt hx) hS]; exact hx
    · intro x s' hx
      rw [hfr x (get_lt hx) (hsym x s' hx)]; exact hx
    · intro x hx hx'
      exact hdis hx' hx

/-- One step of the loop of `env_find` on a chain cell `e = cons(f, P)`. -/
theorem env_find_cons_iff {h : Heap} {e f P : Nat} (s : String) (he : e ≠ None)
    (hc : h[e]? = some (Cell.CONS f P)) (r : Nat) :
    EnvFinds h e s r ↔
      ∃ t, TblFinds h f s t ∧ (if t ≠ None then r = t else EnvFinds h P s r) := by
  constructor
  · rintro ⟨n, hn⟩
    cases n with
    | zero => simp [env_find] at hn
    | succ m =>
      simp only [env_find, if_neg he, car_of hc, cdr_of hc, Option.some_bind] at hn
      cases ht : btbl_find m h f s with
      | none => rw [ht] at hn; cases hn
      | some t =>
        rw [ht] at hn
        simp only [Option.some_bind] at hn
        refine ⟨t, ⟨m, ht⟩, ?_⟩
        by_cases htn : t ≠ None
        · rw [if_pos htn] at hn ⊢
          injection hn with hn
          exact hn.symm
        · rw [if_neg htn] at hn ⊢
          exact ⟨m, hn⟩
  · rintro ⟨t, ⟨n1, h1⟩, ht⟩
    by_cases htn : t ≠ None
    · rw [if_pos htn] at ht
      subst ht
      refine ⟨n1 + 1, ?_⟩
      simp only [env_find, if_neg he, car_of hc, Option.some_bind, h1, if_pos htn]
    · rw [if_neg htn] at ht
      obtain ⟨n2, h2⟩ := ht
      refine ⟨max n1 n2 + 1, ?_⟩
      simp only [env_find, if_neg he, car_of hc, cdr_of hc, Option.some_bind,
        btbl_find_mono _ _ _ _ _ _ h1 (le_max_left n1 n2), if_neg htn,
        env_find_mono _ _ _ _ _ _ h2 (le_max_right n1 n2)]

/-! ## The global environment -/

theorem setup_loop_mono : ∀ (es : List (String × Fn)) (n m : Nat) (p : Nat) (h : Heap)
    (r : Nat × Heap), setup_loop n es p h = some r → n ≤ m → setup_loop m es p h = some r
  | [], _, _, _, _, _, hr, _ => by simpa [setup_loop] using hr
  | (name, f) :: es, n, m, p, h, r, hr, hm => by
    simp only [setup_loop] at hr ⊢
    exact bind_mono hr (fun x hx => btbl_insert_mono _ _ _ _ _ _ _ hx hm)
      (fun x _ hr => setup_loop_mono es n m _ _ r hr hm)

set_option maxRecDepth 100000 in
theorem setup_global_env_eq (n : Nat) (hn : 8 ≤ n) :
    setup_global_env n main_heap = some (global_env, global_heap) := by
  have h8 : setup_global_env 8 main_heap = some (global_env, global_heap) := by decide
  simp only [setup_global_env] at h8 ⊢
  exact map_mono h8 (fun x hx => setup_loop_mono _ _ _ _ _ _ hx hn)

theorem setup_loop_built : ∀ (es : List (String × Fn)) (n : Nat) (p : Nat) (h : Heap)
    (ks : List String) (p' : Nat) (h' : Heap), Built h p ks →
    setup_loop n es p h = some (p', h') → Built h' p' ((es.map Prod.fst).reverse ++ ks)
  | [], _, _, _, _, _, _, hb, hr => by
    simp only [setup_loop, Option.some.injEq, Prod.mk.injEq] at hr
    obtain ⟨rfl, rfl⟩ := hr
    simpa using hb
  | (name, f) :: es, n, p, h, ks, p', h', hb, hr => by
    simp only [setup_loop, make_str, make_fn, alloc] at hr
    cases hi : btbl_insert n (h ++ [Cell.SYMBOL name] ++ [Cell.FUNCTION f]) p h.length
        (h ++ [Cell.SYMBOL name]).length with
    | none => rw [hi] at hr; cases hr
    | some x =>
      obtain ⟨p1, h1⟩ := x
      rw [hi] at hr
      simp only [Option.some_bind] at hr
      have hk : (h ++ [Cell.SYMBOL name] ++ [Cell.FUNCTION f])[h.length]? =
          some (Cell.SYMBOL name) := by
        rw [List.append_assoc, List.getElem?_append_right (Nat.le_refl _)]; simp
      have hb1 : Built h1 p1 (name :: ks) :=
        Built.insert (Built.alloc _ (Built.alloc _ hb)) hk hi
      have := setup_loop_built es n p1 h1 (name :: ks) p' h' hb1 hr
      simpa using this

set_option maxRecDepth 100000 in
/-- The association tree of the global environment. -/
theorem global_tree : ∃ bt : BT, bt.root = 8 ∧ Rep global_heap bt ∧ bt.cells.Nodup ∧
    (∀ x ∈ bt.cells, x < 84) ∧ (∀ s, bt.hit s ↔ s ∈ builtins_tbl.map Prod.fst) ∧
    bt.depth ≤ 16 := by
  have hloop : setup_loop 8 builtins_tbl None main_heap = some (8, global_heap.dropLast) := by
    decide
  have hb := setup_loop_built _ _ _ _ _ _ _ (Built.empty main_heap) hloop
  obtain ⟨bt, h1, h2, h3, h4, h5⟩ := hb.rep
  have hlast : global_heap = global_heap.dropLast ++ [Cell.CONS 8 1] := by decide
  refine ⟨bt, h1, ?_, h3, ?_, ?_, ?_⟩
  · rw [hlast]; exact Rep.append _ h2
  · intro x hx
    have := Rep.cells_lt h2 x hx
    have hl : global_heap.dropLast.length = 84 := by decide
    omega
  · intro s
    rw [h4]
    simp
  · simpa [builtins_tbl] using h5

theorem BT.root_ins_of_node (n k : Nat) (s : String) (v : Nat) :
    ∀ t : BT, t.root ≠ None → (BT.ins n k s v t).root = t.root
  | BT.leaf, h => absurd rfl h
  | BT.node a kv ch k' key val r l, _ => by
    by_cases h2 : strcmp key s < 0 <;> simp [BT.ins, h2]

theorem deref_of {h : Heap} {x : Nat} {c : Cell} (hx : h[x]? = some c)
    (hc : c ≠ Cell.unmapped) : deref h x = some c := by
  unfold deref
  rw [hx]
  cases c <;> first | rfl | exact absurd rfl hc

/-! ## Evaluation of single forms -/

theorem eval_num {h : Heap} {x : Nat} {d : Rat} (env : Nat) (hx : h[x]? = some (Cell.NUM d))
    (n : Nat) : eval (n + 1) h x env = some (x, h) := by
  rw [eval.eq_2]
  by_cases h0 : x = NULL
  · rw [if_pos h0, h0]
  · rw [if_neg h0, deref_of hx (by simp)]

/-- Evaluation of a list whose head is the symbol `if` is `eval_if`. -/
theorem eval_if_form {h : Heap} {exp kw c1 : Nat} (env : Nat) (hexp0 : exp ≠ NULL)
    (hexp : h[exp]? = some (Cell.CONS kw c1)) (hkw : h[kw]? = some (Cell.SYMBOL "if"))
    (n : Nat) : eval (n + 1) h exp env = eval_if n h exp env := by
  have e1 : strcmp "if" "define" ≠ 0 := by decide
  have e2 : strcmp "if" "set!" ≠ 0 := by decide
  have e3 : strcmp "if" "if" = 0 := by decide
  rw [eval.eq_2, if_neg hexp0, deref_of hexp (by simp)]
  simp only [IS_SYMBOL, deref_of hkw (by simp : Cell.SYMBOL "if" ≠ Cell.unmapped),
    Option.map_some', Option.some_bind, if_true, str_of hkw, if_neg e1, if_neg e2, if_pos e3]

/-! ## Frames built by `bind_params` -/

/-- The frame built by `bind_params` for symbol parameters `ps` (cell and name) and values
`vs` that are not `None`. -/
theorem bind_params_rep {h : Heap} (hN : h[None]? = some (Cell.CONS None None)) :
    ∀ (ps : List (Nat × String)) (vs : List Nat) (params args : Nat),
    ListAt h params (ps.map Prod.fst) → (∀ p ∈ ps, h[p.1]? = some (Cell.SYMBOL p.2)) →
    (ps.map Prod.snd).Nodup → ListAt h args vs → (∀ v ∈ vs, v ≠ None) →
    ps.length = vs.length →
    ∃ (bt : BT) (h' : Heap),
      (∀ n, ps.length + 1 ≤ n → bind_params n h params args = some (bt.root, h')) ∧
      Rep h' bt ∧ bt.cells.Nodup ∧ (∀ x ∈ bt.cells, h.length ≤ x) ∧
      (∀ x, x < h.length → h'[x]? = h[x]?) ∧ h.length ≤ h'.length ∧
      bt.depth ≤ ps.length ∧ (∀ s, bt.hit s → s ∈ ps.map Prod.snd) ∧
      ∀ (i : Nat) (p : Nat × String) (v : Nat), ps[i]? = some p → vs[i]? = some v →
        bt.find p.2 = v
  | [], vs, params, args, _, _, _, hvs, _, hlen => by
    have hvs0 : vs = [] := by
      cases vs with
      | nil => rfl
      | cons _ _ => simp at hlen
    subst hvs0
    have ha : args = None := hvs
    subst ha
    refine ⟨BT.leaf, h, ?_, trivial, by simp [BT.cells], by simp [BT.cells], fun _ _ => rfl,
      Nat.le_refl _, by simp [BT.depth], by simp [BT.hit], by simp⟩
    intro n hn
    obtain ⟨m, rfl⟩ : ∃ m, n = m + 1 := ⟨n - 1, by simp at hn; omega⟩
    simp [bind_params, car_of hN]
  | (p, s) :: ps, vs, params, args, hps, hsym, hnd, hvs, hne, hlen => by
    cases vs with
    | nil => simp at hlen
    | cons v vs =>
      obtain ⟨pd, hpc, hps'⟩ := hps
      obtain ⟨vd, hvc, hvs'⟩ := hvs
      have hvne : v ≠ None := hne v (by simp)
      have hpsym : h[p]? = some (Cell.SYMBOL s) := hsym (p, s) (by simp)
      simp only [List.map_cons, List.nodup_cons] at hnd
      obtain ⟨hsn, hnd'⟩ := hnd
      obtain ⟨bt1, h1, hbp, hrep1, hnd1, hcl1, hfr1, hlen1, hdep1, hhit1, hfind1⟩ :=
        bind_params_rep hN ps vs pd vd hps' (fun q hq => hsym q (by simp [hq])) hnd' hvs'
          (fun w hw => hne w (by simp [hw])) (by simpa using hlen)
      have hp1 : h1[p]? = some (Cell.SYMBOL s) := by rw [hfr1 p (get_lt hpsym)]; exact hpsym
      have hpc1 : h1[params]? = some (Cell.CONS p pd) := by rw [hfr1 _ (get_lt hpc)]; exact hpc
      have hvc1 : h1[args]? = some (Cell.CONS v vd) := by rw [hfr1 _ (get_lt hvc)]; exact hvc
      obtain ⟨h2, hins, hrep2, hlen2, hfr2⟩ :=
        btbl_insert_rep (v := v) hp1 bt1 (bt1.depth + 1) hrep1 hnd1 (Nat.lt_succ_self _)
      have hd := BT.depth_ins h1.length p s v bt1
      refine ⟨BT.ins h1.length p s v bt1, h2, ?_, hrep2,
        BT.nodup_ins _ _ _ _ _ hnd1 (Rep.cells_lt hrep1), ?_, ?_, by omega,
        by simp only [List.length_cons]; omega, ?_, ?_⟩
      · intro n hn
        obtain ⟨m, rfl⟩ : ∃ m, n = m + 1 := ⟨n - 1, by simp at hn; omega⟩
        simp only [List.length_cons] at hn
        simp only [bind_params, car_of hvc, Option.some_bind, if_neg hvne, cdr_of hpc,
          cdr_of hvc, hbp m (by omega), car_of hpc1, car_of hvc1]
        exact btbl_insert_mono _ _ _ _ _ _ _ hins (by omega)
      · intro x hx
        rw [BT.mem_cells_ins] at hx
        rcases hx with hx | hx | hx | hx
        · exact hcl1 x hx
        all_goals omega
      · intro x hx
        rw [hfr2 x (by omega) (fun hin => by have := hcl1 x hin; omega), hfr1 x hx]
      · intro s' hs'
        rw [BT.hit_ins] at hs'
        rcases hs' with rfl | hs'
        · simp
        · simp only [List.map_cons, List.mem_cons]
          exact Or.inr (hhit1 s' hs')
      · intro i q w hq hw
        cases i with
        | zero =>
          simp only [List.getElem?_cons_zero, Option.some.injEq] at hq hw
          subst hq hw
          exact BT.find_ins_new _ _ _ _ _ (fun hh => hsn (hhit1 _ hh))
        | succ j =>
          simp only [List.getElem?_cons_succ] at hq hw
          have hqs : s ≠ q.2 := by
            intro e
            apply hsn
            rw [e]
            exact List.mem_map.2 ⟨q, List.getElem?_mem hq, rfl⟩
          rw [BT.find_ins_ne _ _ _ hqs]
          exact hfind1 j q w hq hw

theorem OkP.mono {L n m p : Nat} (h : OkP L n p) (hnm : n ≤ m) : OkP L m p := by
  rcases h with h | ⟨h1, h2, h3⟩
  · exact Or.inl h
  · exact Or.inr ⟨h1, by omega, h3⟩

theorem Fresh3.set {L p r l : Nat} {h : Heap} (hF : Fresh3 L h) (hp1 : L ≤ p)
    (hp3 : (p - L) % 3 = 1) (hr : OkP L h.length r) (hl : OkP L h.length l) :
    Fresh3 L (h.set p (Cell.CONS r l)) := by
  obtain ⟨hN, hL, hmod, hcells⟩ := hF
  refine ⟨hN, by simpa using hL, by simpa using hmod, ?_⟩
  intro x hx1 hx2
  simp only [List.length_set] at hx2 ⊢
  obtain ⟨c1, c2⟩ := hcells x hx1 hx2
  by_cases hxe : x = p
  · subst hxe
    exact ⟨fun hm => by omega, fun _ => ⟨r, l, get_set_eq _ hx2, hr, hl⟩⟩
  · rw [get_set_ne _ (Ne.symm hxe)]
    exact ⟨c1, c2⟩

theorem Fresh3.triple {L : Nat} {h : Heap} (hF : Fresh3 L h) (k v : Nat) :
    Fresh3 L (h ++ [Cell.CONS k v] ++ [Cell.CONS None None] ++
      [Cell.CONS h.length (h.length + 1)]) := by
  obtain ⟨hN, hL, hmod, hcells⟩ := hF
  refine ⟨hN, by simp; omega, by simp; omega, ?_⟩
  intro x hx1 hx2
  simp only [List.length_append, List.length_singleton] at hx2 ⊢
  by_cases hxl : x < h.length
  · obtain ⟨c1, c2⟩ := hcells x hx1 hxl
    have hge : ∀ c, h[x]? = some c →
        (h ++ [Cell.CONS k v] ++ [Cell.CONS None None] ++
          [Cell.CONS h.length (h.length + 1)])[x]? = some c := by
      intro c hc
      rw [List.append_assoc, List.append_assoc]
      exact get_append hc
    refine ⟨fun hm => ?_, fun hm => ?_⟩
    · obtain ⟨kv, hkv⟩ := c1 hm
      exact ⟨kv, hge _ hkv⟩
    · obtain ⟨r, l, hrl, hr', hl'⟩ := c2 hm
      exact ⟨r, l, hge _ hrl, hr'.mono (by omega), hl'.mono (by omega)⟩
  · have hx3 : x = h.length ∨ x = h.length + 1 ∨ x = h.length + 2 := by omega
    rcases hx3 with rfl | rfl | rfl
    · exact ⟨fun hm => by omega, fun hm => by omega⟩
    · refine ⟨fun hm => by omega, fun _ => ⟨None, None, ?_, Or.inl rfl, Or.inl rfl⟩⟩
      rw [List.append_assoc, List.getElem?_append_right (by simp)]
      simp
    · refine ⟨fun _ => ⟨h.length, ?_⟩, fun hm => by omega⟩
      rw [List.getElem?_append_right (by simp)]
      simp

/-- Whatever its arguments, `btbl_insert` on a tree allocated from `L` on leaves the cells
below `L` as they are. -/
theorem btbl_insert_fresh {L : Nat} (k v : Nat) : ∀ (n : Nat) (h : Heap) (tbl t' : Nat)
    (h' : Heap), Fresh3 L h → OkP L h.length tbl → btbl_insert n h tbl k v = some (t', h') →
    Fresh3 L h' ∧ OkP L h'.length t' ∧ (∀ x, x < L → h'[x]? = h[x]?) ∧ h.length ≤ h'.length
  | 0, _, _, _, _, _, _, hr => by simp [btbl_insert] at hr
  | n + 1, h, tbl, t', h', hF, hok, hr => by
    have hF0 := hF
    obtain ⟨hN, hL, hmod, hcells⟩ := hF
    by_cases ht : tbl = None
    · simp only [btbl_insert, if_pos ht, cons, alloc, Option.some.injEq, Prod.mk.injEq,
        List.length_append, List.length_singleton] at hr
      obtain ⟨rfl, rfl⟩ := hr
      have hlen3 : (h ++ [Cell.CONS k v] ++ [Cell.CONS None None] ++
          [Cell.CONS h.length (h.length + 1)]).length = h.length + 3 := by simp
      refine ⟨hF0.triple k v, Or.inr ⟨?_, ?_, ?_⟩, ?_, ?_⟩
      · omega
      · rw [hlen3]; omega
      · omega
      · intro x hx
        rw [List.append_assoc, List.append_assoc, List.getElem?_append_left (by omega)]
      · rw [hlen3]; omega
    · rcases hok with hok | ⟨hok1, hok2, hok3⟩
      · exact absurd hok ht
      obtain ⟨kv, hkv⟩ := (hcells tbl hok1 hok2).1 hok3
      obtain ⟨r, l, hrl, hokr, hokl⟩ := (hcells (tbl - 1) (by omega) (by omega)).2 (by omega)
      have hcddr : cddr h tbl = some l := by simp [cddr, cdr_of hkv, cdr_of hrl]
      have hcadr : cadr h tbl = some r := by simp [cadr, cdr_of hkv, car_of hrl]
      -- what is known once the recursive call has returned
      have step : ∀ (c c' : Nat) (h1 : Heap), OkP L h.length c →
          btbl_insert n h c k v = some (c', h1) →
          ∃ r1 l1, cdr h1 tbl = some (tbl - 1) ∧ h1[tbl - 1]? = some (Cell.CONS r1 l1) ∧
            (∀ h2, h2 = h1.set (tbl - 1) (Cell.CONS r1 c') ∨
                h2 = h1.set (tbl - 1) (Cell.CONS c' l1) →
              Fresh3 L h2 ∧ OkP L h2.length tbl ∧ (∀ x, x < L → h2[x]? = h[x]?) ∧
                h.length ≤ h2.length) := by
        intro c c' h1 hokc hins
        obtain ⟨hF1, hokc', hfr, hlen⟩ := btbl_insert_fresh k v n h c c' h1 hF0 hokc hins
        obtain ⟨kv1, hkv1⟩ := (hF1.2.2.2 tbl hok1 (by omega)).1 hok3
        obtain ⟨r1, l1, hrl1, hokr1, hokl1⟩ :=
          (hF1.2.2.2 (tbl - 1) (by omega) (by omega)).2 (by omega)
        refine ⟨r1, l1, cdr_of hkv1, hrl1, ?_⟩
        intro h2 hh2
        have hlen2 : h2.length = h1.length := by
          rcases hh2 with rfl | rfl <;> simp
        refine ⟨?_, Or.inr ⟨hok1, by omega, hok3⟩, ?_, by omega⟩
        · rcases hh2 with rfl | rfl
          · exact hF1.set (by omega) (by omega) hokr1 hokc'
          · exact hF1.set (by omega) (by omega) hokc' hokl1
        · intro x hx
          have hsame : h2[x]? = h1[x]? := by
            rcases hh2 with rfl | rfl <;> exact get_set_ne _ (by omega)
          rw [hsame, hfr x hx]
      simp only [btbl_insert, if_neg ht, Option.bind_eq_some] at hr
      obtain ⟨tk, -, tks, -, ks, -, hr⟩ := hr
      by_cases hlt : strcmp tks ks < 0
      · rw [if_pos hlt, hcddr] at hr
        simp only [Option.some_bind, Option.bind_eq_some] at hr
        obtain ⟨⟨c', h1⟩, hins, d, hd, h2, hset, hres⟩ := hr
        obtain ⟨r1, l1, hcdr1, hrl1, hfin⟩ := step l c' h1 (hokl) hins
        rw [hcdr1] at hd
        injection hd with hd
        subst hd
        simp only [set_cdr, hrl1, Option.some.injEq] at hset
        simp only [Option.some.injEq, Prod.mk.injEq] at hres
        obtain ⟨rfl, rfl⟩ := hres
        exact hfin _ (Or.inl hset.symm)
      · rw [if_neg hlt, hcadr] at hr
        simp only [Option.some_bind, Option.bind_eq_some] at hr
        obtain ⟨⟨c', h1⟩, hins, d, hd, h2, hset, hres⟩ := hr
        obtain ⟨r1, l1, hcdr1, hrl1, hfin⟩ := step r c' h1 (hokr) hins
        rw [hcdr1] at hd
        injection hd with hd
        subst hd
        simp only [set_car, hrl1, Option.some.injEq] at hset
        simp only [Option.some.injEq, Prod.mk.injEq] at hres
        obtain ⟨rfl, rfl⟩ := hres
        exact hfin _ (Or.inr hset.symm)

/-- Whatever its arguments, `bind_params` leaves the cells that existed before the call as
they are. -/
theorem bind_params_frame : ∀ (n : Nat) (h : Heap) (ps vs fr : Nat) (h' : Heap),
    None < h.length → bind_params n h ps vs = some (fr, h') →
    Fresh3 h.length h' ∧ OkP h.length h'.length fr ∧ (∀ x, x < h.length → h'[x]? = h[x]?)
  | 0, _, _, _, _, _, _, hr => by simp [bind_params] at hr
  | n + 1, h, ps, vs, fr, h', hN, hr => by
    simp only [bind_params, Option.bind_eq_some] at hr
    obtain ⟨v, -, hr⟩ := hr
    by_cases hv : v = None
    · rw [if_pos hv] at hr
      simp only [Option.some.injEq, Prod.mk.injEq] at hr
      obtain ⟨rfl, rfl⟩ := hr
      exact ⟨⟨hN, Nat.le_refl _, by simp, fun x h1 h2 => by omega⟩, Or.inl rfl, fun _ _ => rfl⟩
    · rw [if_neg hv] at hr
      simp only [Option.bind_eq_some] at hr
      obtain ⟨pd, -, vd, -, ⟨t, h1⟩, hrec, p, -, v1, -, hins⟩ := hr
      obtain ⟨hF1, hok1, hfr1⟩ := bind_params_frame n h pd vd t h1 hN hrec
      obtain ⟨hF2, hok2, hfr2, -⟩ := btbl_insert_fresh p v1 n h1 t fr h' hF1 hok1 hins
      exact ⟨hF2, hok2, fun x hx => by rw [hfr2 x hx, hfr1 x hx]⟩

/-- Evaluation of `(lambda ps b)`: a `LAMBDA` cell `(ps . (b . env))` with the environment of
the evaluation. -/
theorem eval_lambda_form {h : Heap} {exp kw c1 ps c2 b c3 x y : Nat} (env : Nat)
    (hexp0 : exp ≠ NULL) (hexp : h[exp]? = some (Cell.CONS kw c1))
    (hkw : h[kw]? = some (Cell.SYMBOL "lambda")) (hc1 : h[c1]? = some (Cell.CONS ps c2))
    (hps : h[ps]? = some (Cell.CONS x y)) (hc2 : h[c2]? = some (Cell.CONS b c3)) (n : Nat) :
    eval (n + 1) h exp env =
      some (h.length + 1, h ++ [Cell.CONS b env] ++ [Cell.LAMBDA ps h.length]) := by
  have e1 : strcmp "lambda" "define" ≠ 0 := by decide
  have e2 : strcmp "lambda" "set!" ≠ 0 := by decide
  have e3 : strcmp "lambda" "if" ≠ 0 := by decide
  have e4 : strcmp "lambda" "quote" ≠ 0 := by decide
  have e5 : strcmp "lambda" "lambda" = 0 := by decide
  rw [eval.eq_2, if_neg hexp0, deref_of hexp (by simp)]
  simp only [IS_SYMBOL, IS_CONS, deref_of hkw (by simp : Cell.SYMBOL "lambda" ≠ Cell.unmapped),
    deref_of hps (by simp : Cell.CONS x y ≠ Cell.unmapped),
    Option.map_some', Option.some_bind, if_true, str_of hkw, if_neg e1, if_neg e2, if_neg e3,
    if_neg e4, if_pos e5, cadr, caddr, cddr, cdr_of hexp, car_of hc1, cdr_of hc1, car_of hc2,
    Bool.not_true, Bool.false_eq_true, if_false, cons, alloc, List.length_append,
    List.length_singleton]

/-- Application of a closure `(ps . (b . E1))`. -/
theorem apply_closure {h : Heap} {f ps d b E1 : Nat} (hN : None < h.length) (hf0 : f ≠ None)
    (hf : h[f]? = some (Cell.LAMBDA ps d)) (hd : h[d]? = some (Cell.CONS b E1))
    (as n : Nat) :
    apply (n + 1) h f as = (bind_params n h ps as).bind fun r =>
      eval n (PUSH_ENV r.2 E1 r.1).2 b (PUSH_ENV r.2 E1 r.1).1 := by
  rw [apply.eq_2, if_pos hf0, deref_of hf (by simp)]
  dsimp only
  cases hbp : bind_params n h ps as with
  | none => rfl
  | some r =>
    obtain ⟨fr, h3⟩ := r
    obtain ⟨-, -, hfr⟩ := bind_params_frame n h ps as fr h3 hN hbp
    have hf3 : h3[f]? = some (Cell.LAMBDA ps d) := by rw [hfr f (get_lt hf)]; exact hf
    have hd3 : h3[d]? = some (Cell.CONS b E1) := by rw [hfr d (get_lt hd)]; exact hd
    have hcdr : cdr h3 f = some d := by simp [cdr, hf3]
    have hcdr' : cdr (h3 ++ [Cell.CONS fr E1]) f = some d := by
      simp [cdr, get_append hf3]
    simp only [Option.some_bind, cddr, hcdr, cdr_of hd3, PUSH_ENV, cons, alloc, cadr, hcdr',
      car_of (get_append hd3)]

/-- Evaluation of a list whose head selects no special form: the call of the value of the
head on the values of the other elements. -/
theorem eval_call_form {h : Heap} {exp fe args : Nat} {c : Cell} (env : Nat) (hexp0 : exp ≠ NULL)
    (hexp : h[exp]? = some (Cell.CONS fe args)) (hfe : h[fe]? = some c)
    (hc : c ≠ Cell.unmapped) (hkw : ∀ s, c = Cell.SYMBOL s → s ∉ keywords) (hfeN : fe ≠ None)
    (n : Nat) :
    eval (n + 1) h exp env = (eval n h fe env).bind fun r =>
      if r.1 = None then some (None, r.2)
      else (cdr r.2 exp).bind fun d =>
        (list_of_values n r.2 d env).bind fun a => apply n a.2 r.1 a.1 := by
  rw [eval.eq_2, if_neg hexp0, deref_of hexp (by simp)]
  simp only [IS_SYMBOL, deref_of hfe hc, Option.map_some', Option.some_bind, ne_eq, hfeN,
    not_false_eq_true, if_true]
  cases c with
  | SYMBOL s =>
    have hs := hkw s rfl
    simp only [keywords, List.mem_cons, List.mem_singleton, List.not_mem_nil, or_false,
      not_or] at hs
    obtain ⟨s1, s2, s3, s4, s5⟩ := hs
    have k1 : strcmp s "define" ≠ 0 := fun e => s1 ((strcmp_eq_zero _ _).1 e)
    have k2 : strcmp s "set!" ≠ 0 := fun e => s2 ((strcmp_eq_zero _ _).1 e)
    have k3 : strcmp s "if" ≠ 0 := fun e => s3 ((strcmp_eq_zero _ _).1 e)
    have k4 : strcmp s "quote" ≠ 0 := fun e => s4 ((strcmp_eq_zero _ _).1 e)
    have k5 : strcmp s "lambda" ≠ 0 := fun e => s5 ((strcmp_eq_zero _ _).1 e)
    simp only [if_true, str_of hfe, Option.some_bind, if_neg k1, if_neg k2, if_neg k3,
      if_neg k4, if_neg k5]
  | _ => simp

set_option maxRecDepth 1000000 in
theorem global_bt_ok : GlobalOK global_heap global_bt ∧ (∀ x ∈ global_bt.cells, x < 84) ∧
    (∀ s, global_bt.hit s ↔ s ∈ builtins_tbl.map Prod.fst) ∧ global_bt.depth ≤ 16 := by
  obtain ⟨bt, hroot, hrep, hnd, hcl, hhit, hdep⟩ := global_tree
  have hrep' : Rep global_heap global_bt := by decide
  have e : global_bt = bt := Rep.unique hrep' hrep (by rw [hroot]; decide)
  refine ⟨⟨hrep', by decide, by decide, by decide, by decide, by decide, by decide, by decide⟩,
    by decide, ?_, by decide⟩
  rw [e]; exact hhit

/-! ## Evaluation in the global environment -/

theorem GlobalOK.append_cells {h : Heap} {bt : BT} (hg : GlobalOK h bt) (e : Heap) :
    GlobalOK (h ++ e) bt := by
  obtain ⟨h1, h2, h3, h4, h5, h6, h7, h8⟩ := hg
  exact ⟨h1.append e, h2, h3, get_append h4, get_append h5, get_append h6, h7, h8⟩

theorem GlobalOK.not_cell {h : Heap} {bt : BT} (hg : GlobalOK h bt) {x : Nat} {c : Cell}
    (hx : h[x]? = some c) (hc : ∀ a d, c ≠ Cell.CONS a d) : x ∉ bt.cells := by
  intro hin
  obtain ⟨a, d, had⟩ := Rep.cells_cons hg.1 x hin
  rw [hx] at had
  injection had with had
  exact hc a d had

/-- `btbl_insert` into the tree of the global environment. -/
theorem GlobalOK.insert {h : Heap} {bt : BT} (hg : GlobalOK h bt) {k : Nat} {s : String}
    (v : Nat) (hk : h[k]? = some (Cell.SYMBOL s)) (m : Nat) (hm : bt.depth < m) :
    ∃ h', btbl_insert m h 8 k v = some (8, h') ∧ GlobalOK h' (BT.ins h.length k s v bt) ∧
      (∀ x, x < h.length → x ∉ bt.cells → h'[x]? = h[x]?) ∧ h'.length = h.length + 3 := by
  obtain ⟨hrep, hnd, hroot, h0, h1, henv, hN, hE⟩ := hg
  obtain ⟨h', hins, hrep', hlen, hfr⟩ := btbl_insert_rep (v := v) hk bt m hrep hnd hm
  have hne : bt.root ≠ None := by rw [hroot]; decide
  have hr' : (BT.ins h.length k s v bt).root = 8 := by
    rw [BT.root_ins_of_node _ _ _ _ _ hne, hroot]
  rw [hroot] at hins
  rw [hr'] at hins
  have hlt := get_lt henv
  have hltN := get_lt h1
  have hg0 : GlobalOK h bt := ⟨hrep, hnd, hroot, h0, h1, henv, hN, hE⟩
  refine ⟨h', hins, ⟨hrep', BT.nodup_ins _ _ _ _ _ hnd (Rep.cells_lt hrep), hr', ?_, ?_, ?_, ?_,
    ?_⟩, hfr, hlen⟩
  · rw [hfr _ (get_lt h0) (hg0.not_cell h0 (by simp))]; exact h0
  · rw [hfr _ hltN hN]; exact h1
  · rw [hfr _ hlt hE]; exact henv
  · rw [BT.mem_cells_ins]
    rintro (hx | hx | hx | hx)
    · exact hN hx
    all_goals omega
  · rw [BT.mem_cells_ins]
    rintro (hx | hx | hx | hx)
    · exact hE hx
    all_goals omega

/-- Overwriting a `NUM` cell. -/
theorem GlobalOK.store {h : Heap} {bt : BT} (hg : GlobalOK h bt) {x : Nat} {d : Rat}
    (hx : h[x]? = some (Cell.NUM d)) (c : Cell) : GlobalOK (h.set x c) bt := by
  have keep : ∀ (y : Nat) (c' : Cell), h[y]? = some c' → (∀ d', c' ≠ Cell.NUM d') →
      (h.set x c)[y]? = some c' := by
    intro y c' hy hc'
    have : x ≠ y := by
      rintro rfl
      rw [hx] at hy
      injection hy with hy
      exact hc' d hy.symm
    rw [get_set_ne _ this]; exact hy
  obtain ⟨hrep, hnd, hroot, h0, h1, henv, hN, hE⟩ := hg
  refine ⟨Rep.frame (S := fun _ => True) (fun y a b hy _ => keep y _ hy (by simp))
    (fun y s hy => keep y _ hy (by simp)) hrep (fun _ _ => trivial), hnd, hroot,
    keep _ _ h0 (by simp), keep _ _ h1 (by simp), keep _ _ henv (by simp), hN, hE⟩

/-- Evaluation of a symbol in the global environment. -/
theorem eval_symbol_global {h : Heap} {bt : BT} (hg : GlobalOK h bt) {x : Nat} {s : String}
    (hx : h[x]? = some (Cell.SYMBOL s)) (n : Nat) (hn : bt.depth + 4 ≤ n) :
    eval n h x global_env = some (bt.find s, h) := by
  obtain ⟨m, rfl⟩ : ∃ m, n = m + 1 := ⟨n - 1, by omega⟩
  obtain ⟨hrep, hnd, hroot, h0, h1, henv, hN, hE⟩ := hg
  have hx0 : x ≠ NULL := by
    rintro rfl; rw [h0] at hx; cases hx
  have hfs : EnvRep h [(global_env, bt)] := ⟨by decide, by rw [hroot]; exact henv, hrep, trivial⟩
  have hfind := env_find_rep s _ m hfs (by simp only [envFuel]; omega)
  rw [envNext_cons] at hfind
  rw [eval.eq_2, if_neg hx0, deref_of hx (by simp)]
  simp only [hfind, Option.map_some', envLookup]
  by_cases hf : bt.find s ≠ None
  · rw [if_pos hf]
  · rw [if_neg hf]
    rw [not_not.1 hf]

theorem env_find_global {h : Heap} {bt : BT} (hg : GlobalOK h bt) (s : String) (m : Nat)
    (hm : bt.depth + 3 ≤ m) : env_find m h global_env s = some (bt.find s) := by
  obtain ⟨hrep, hnd, hroot, h0, h1, henv, hN, hE⟩ := hg
  have hfs : EnvRep h [(global_env, bt)] := ⟨by decide, by rw [hroot]; exact henv, hrep, trivial⟩
  have hfind := env_find_rep s _ m hfs (by simp only [envFuel]; omega)
  rw [envNext_cons] at hfind
  rw [hfind]
  simp only [envLookup]
  by_cases hf : bt.find s ≠ None
  · rw [if_pos hf]
  · rw [if_neg hf, not_not.1 hf]

/-- Evaluation of `(define k e)` in the global environment, given the evaluation of `e`. -/
theorem eval_define_global {h h1 : Heap} {bt : BT} {exp kw c1 k c2 e c3 v : Nat} {s : String}
    (hg : GlobalOK h bt) (hexp : h[exp]? = some (Cell.CONS kw c1))
    (hkw : h[kw]? = some (Cell.SYMBOL "define")) (hc1 : h[c1]? = some (Cell.CONS k c2))
    (hc2 : h[c2]? = some (Cell.CONS e c3)) {m : Nat}
    (hev : eval m h e global_env = some (v, h1)) (hg1 : GlobalOK h1 bt)
    (hk1 : h1[k]? = some (Cell.SYMBOL s)) (hexp1 : h1[exp]? = some (Cell.CONS kw c1))
    (hc11 : h1[c1]? = some (Cell.CONS k c2)) (hne : exp ∉ bt.cells) (hnc : c1 ∉ bt.cells)
    (hm : bt.depth < m) :
    ∃ h2, eval (m + 1) h exp global_env = some (k, h2) ∧
      GlobalOK h2 (BT.ins h1.length k s v bt) ∧
      (∀ x, x < h1.length → x ∉ bt.cells → h2[x]? = h1[x]?) ∧ h2.length = h1.length + 3 := by
  have hexp0 : exp ≠ NULL := by
    rintro rfl; rw [hg.2.2.2.1] at hexp; cases hexp
  have hsame : strcmp "define" "define" = 0 := by decide
  obtain ⟨h2, hins, hg2, hfr, hlen⟩ := hg1.insert v hk1 m hm
  have henv1 := hg1.2.2.2.2.2.1
  have hexp2 : h2[exp]? = some (Cell.CONS kw c1) := by
    rw [hfr exp (get_lt hexp1) hne]; exact hexp1
  have hc12 : h2[c1]? = some (Cell.CONS k c2) := by
    rw [hfr c1 (get_lt hc11) hnc]; exact hc11
  refine ⟨h2, ?_, hg2, hfr, hlen⟩
  rw [eval.eq_2, if_neg hexp0, deref_of hexp (by simp)]
  simp only [IS_SYMBOL, deref_of hkw (by simp : Cell.SYMBOL "define" ≠ Cell.unmapped),
    Option.map_some', Option.some_bind, if_true, str_of hkw, hsame, cadr, caddr, cddr,
    cdr_of hexp, car_of hc1, cdr_of hc1, car_of hc2, hev, env_insert,
    car_of henv1, hins, cdr_of hexp2, car_of hc12]

/-- Evaluation of `(set! k e)` in the global environment, given the evaluation of `e`, when
the variable is bound to a `NUM` cell. -/
theorem eval_set_global {h h1 : Heap} {bt : BT} {exp kw c1 k c2 e c3 v : Nat} {s : String}
    {c : Cell} {d0 : Rat}
    (hg : GlobalOK h bt) (hexp : h[exp]? = some (Cell.CONS kw c1))
    (hkw : h[kw]? = some (Cell.SYMBOL "set!")) (hc1 : h[c1]? = some (Cell.CONS k c2))
    (hk : h[k]? = some (Cell.SYMBOL s)) (hc2 : h[c2]? = some (Cell.CONS e c3)) {m : Nat}
    (hev : eval m h e global_env = some (v, h1)) (hv : h1[v]? = some c)
    (hc : c ≠ Cell.unmapped) (hvar : h1[bt.find s]? = some (Cell.NUM d0))
    (hm : bt.depth + 3 ≤ m) :
    eval (m + 1) h exp global_env = some (bt.find s, h1.set (bt.find s) c) := by
  have hexp0 : exp ≠ NULL := by
    rintro rfl; rw [hg.2.2.2.1] at hexp; cases hexp
  have e1 : strcmp "set!" "define" ≠ 0 := by decide
  have e2 : strcmp "set!" "set!" = 0 := by decide
  rw [eval.eq_2, if_neg hexp0, deref_of hexp (by simp)]
  simp only [IS_SYMBOL, deref_of hkw (by simp : Cell.SYMBOL "set!" ≠ Cell.unmapped),
    Option.map_some', Option.some_bind, if_true, str_of hkw, if_neg e1, if_pos e2, cadr, caddr,
    cddr, cdr_of hexp, car_of hc1, cdr_of hc1, car_of hc2, str_of hk,
    env_find_global hg s m hm, hev, deref_of hv hc, store,
    deref_of hvar (by simp : Cell.NUM d0 ≠ Cell.unmapped)]

/-- A cell in the part of the heap appended last. -/
theorem get_extra {h : Heap} {L : Nat} (hL : h.length = L) (e : Heap) (i : Nat) {c : Cell}
    (hc : e[i]? = some c) : (h ++ e)[L + i]? = some c := by
  rw [List.getElem?_append_right (by omega), ← hL]
  simpa using hc

/-- Evaluation of a symbol in a represented environment chain. -/
theorem eval_symbol_env {h : Heap} {fs : List (Nat × BT)} (hfs : EnvRep h fs)
    (h0 : h[NULL]? = some Cell.unmapped) {x : Nat} {s : String}
    (hx : h[x]? = some (Cell.SYMBOL s)) (n : Nat) (hn : envFuel fs + 2 ≤ n) :
    eval n h x (envNext fs) = some (envLookup fs s, h) := by
  obtain ⟨m, rfl⟩ : ∃ m, n = m + 1 := ⟨n - 1, by omega⟩
  have hx0 : x ≠ NULL := by
    rintro rfl; rw [h0] at hx; cases hx
  have hfind := env_find_rep s fs m hfs (by omega)
  rw [eval.eq_2, if_neg hx0, deref_of hx (by simp)]
  simp only [hfind, Option.map_some']

/-- A call `(f)` in the global environment of a closure without parameters whose body is a
symbol: one frame cell is allocated and the body is looked up through the empty frame. -/
theorem eval_thunk_call_global {h : Heap} {bt : BT} (hg : GlobalOK h bt)
    {exp fe d b : Nat} {s t : String} (hexp : h[exp]? = some (Cell.CONS fe None))
    (hfe : h[fe]? = some (Cell.SYMBOL s)) (hs : s ∉ keywords) (hf0 : bt.find s ≠ None)
    (hf : h[bt.find s]? = some (Cell.LAMBDA None d))
    (hd : h[d]? = some (Cell.CONS b global_env)) (hb : h[b]? = some (Cell.SYMBOL t))
    (n : Nat) (hn : bt.depth + 7 ≤ n) :
    eval n h exp global_env = some (bt.find t, h ++ [Cell.CONS None global_env]) := by
  obtain ⟨m, rfl⟩ : ∃ m, n = m + 1 := ⟨n - 1, by omega⟩
  obtain ⟨m, rfl⟩ : ∃ k, m = k + 1 := ⟨m - 1, by omega⟩
  obtain ⟨m, rfl⟩ : ∃ k, m = k + 1 := ⟨m - 1, by omega⟩
  have hg' := hg
  obtain ⟨hrep, hnd, hroot, h0, h1, henv, hN, hE⟩ := hg
  have hexp0 : exp ≠ NULL := by
    rintro rfl; rw [h0] at hexp; cases hexp
  have hfeN : fe ≠ None := by
    rintro rfl; rw [h1] at hfe; cases hfe
  have hNlt : None < h.length := get_lt h1
  have hlen : h.length ≠ None := by
    intro e; rw [e] at hNlt; exact absurd hNlt (lt_irrefl _)
  rw [eval_call_form global_env hexp0 hexp hfe (by simp)
    (by intro s' e; cases e; exact hs) hfeN,
    eval_symbol_global hg' hfe (m + 2) (by omega)]
  simp only [Option.some_bind, if_neg hf0, cdr_of hexp]
  rw [list_of_values.eq_2]
  simp only [car_of h1, Option.some_bind, if_true]
  rw [apply_closure hNlt hf0 hf hd]
  rw [bind_params]
  simp only [car_of h1, Option.some_bind, if_true, PUSH_ENV, cons, alloc]
  have hfs : EnvRep (h ++ [Cell.CONS None global_env])
      [(h.length, BT.leaf), (global_env, bt)] := by
    refine ⟨hlen, ?_, ?_, by decide, ?_, Rep.append _ hrep, trivial⟩
    · rw [BT.root_leaf, envNext_cons]; simp
    · simp [Rep]
    · rw [hroot]; exact get_append henv
  have hfu : envFuel [(h.length, BT.leaf), (global_env, bt)] = bt.depth + 3 := by
    simp only [envFuel, BT.depth, Nat.zero_add, Nat.max_zero]
    rw [Nat.max_eq_right (by omega)]
  have hev := eval_symbol_env (s := t) hfs (get_append h0) (get_append hb) (m + 1)
    (by rw [hfu]; omega)
  rw [envNext_cons] at hev
  rw [hev]
  simp [envLookup, BT.find]
  by_cases hf : bt.find t = None
  · simp [hf]
  · simp [hf]

/-- With enough fuel `eval` has one result. -/
theorem Evals.unique_result {h : Heap} {e env r r' : Nat} {h1 h1' : Heap}
    (a : Evals h e env r h1) (b : Evals h e env r' h1') : r = r' ∧ h1 = h1' := by
  obtain ⟨n, hn⟩ := a
  obtain ⟨m, hm⟩ := b
  have h1 := eval_mono hn (le_max_left n m)
  have h2 := eval_mono hm (le_max_right n m)
  rw [h1] at h2
  injection h2 with h2
  injection h2 with h3 h4
  exact ⟨h3, h4⟩

/-- The evaluation of `(if T A B)`: the test, then the branch chosen by comparing the value
of the test with the pointer `False`. -/
theorem evals_if_iff {h : Heap} {exp env kw c1 T c2 : Nat} (hexp0 : exp ≠ NULL)
    (hexp : h[exp]? = some (Cell.CONS kw c1)) (hkw : h[kw]? = some (Cell.SYMBOL "if"))
    (hc1 : h[c1]? = some (Cell.CONS T c2)) (res : Nat) (h' : Heap) :
    Evals h exp env res h' ↔
      ∃ r h1, Evals h T env r h1 ∧
        ∃ e, (if r = False_ then cadddr h1 exp else caddr h1 exp) = some e ∧
          Evals h1 e env res h' := by
  have hT : cadr h exp = some T := by simp [cadr, cdr_of hexp, car_of hc1]
  constructor
  · rintro ⟨n, hn⟩
    cases n with
    | zero => rw [eval.eq_1] at hn; cases hn
    | succ m =>
      rw [eval_if_form env hexp0 hexp hkw] at hn
      cases m with
      | zero => rw [eval_if.eq_1] at hn; cases hn
      | succ k =>
        rw [eval_if.eq_2, hT, Option.some_bind] at hn
        cases hev : eval k h T env with
        | none => rw [hev] at hn; cases hn
        | some x =>
          obtain ⟨r, h1⟩ := x
          rw [hev, Option.some_bind] at hn
          refine ⟨r, h1, ⟨k, hev⟩, ?_⟩
          by_cases hr : r = False_
          · simp only [if_pos hr] at hn ⊢
            cases hb : cadddr h1 exp with
            | none => rw [hb] at hn; cases hn
            | some e =>
              rw [hb, Option.some_bind] at hn
              exact ⟨e, rfl, k, hn⟩
          · simp only [if_neg hr] at hn ⊢
            cases hb : caddr h1 exp with
            | none => rw [hb] at hn; cases hn
            | some e =>
              rw [hb, Option.some_bind] at hn
              exact ⟨e, rfl, k, hn⟩
  · rintro ⟨r, h1, ⟨n1, hn1⟩, e, he, ⟨n2, hn2⟩⟩
    refine ⟨max n1 n2 + 2, ?_⟩
    rw [eval_if_form env hexp0 hexp hkw, eval_if.eq_2, hT, Option.some_bind,
      eval_mono hn1 (le_max_left n1 n2), Option.some_bind]
    by_cases hr : r = False_
    · simp only [if_pos hr] at he ⊢
      rw [he, Option.some_bind]
      exact eval_mono hn2 (le_max_right n1 n2)
    · simp only [if_neg hr] at he ⊢
      rw [he, Option.some_bind]
      exact eval_mono hn2 (le_max_right n1 n2)

/-- Functions `div_` and `mul_` are the same function. -/
theorem div_eq_mul : ∀ (n : Nat) (h : Heap) (l : Nat), div_ n h l = mul_ n h l
  | 0, _, _ => rfl
  | n + 1, h, l => by
    rw [div_, mul_]
    simp only [div_eq_mul n]

/-- Function `mul_` on a proper list of `NUM` cells returns the product of the numbers. -/
theorem mul_list {h : Heap} (hN : h[None]? = some (Cell.CONS None None)) :
    ∀ (xs : List (Nat × Rat)) (l n : Nat), ListAt h l (xs.map Prod.fst) →
      (∀ p ∈ xs, h[p.1]? = some (Cell.NUM p.2)) → xs.length < n →
      mul_ n h l = some (xs.map Prod.snd).prod
  | [], l, n, hl, _, hn => by
    obtain ⟨m, rfl⟩ : ∃ m, n = m + 1 := ⟨n - 1, by simp at hn; omega⟩
    simp only [List.map_nil, ListAt] at hl
    subst hl
    simp [mul_, car_of hN]
  | (x, d) :: xs, l, n, hl, hx, hn => by
    obtain ⟨m, rfl⟩ : ∃ m, n = m + 1 := ⟨n - 1, by omega⟩
    simp only [List.map_cons, ListAt] at hl
    obtain ⟨t, hl, hrest⟩ := hl
    have hxd : h[x]? = some (Cell.NUM d) := hx (x, d) (by simp)
    have hxN : x ≠ None := by
      rintro rfl; rw [hN] at hxd; cases hxd
    have ih := mul_list hN xs t m hrest (fun p hp => hx p (by simp [hp]))
      (by simp only [List.length_cons] at hn; omega)
    simp [mul_, car_of hl, cdr_of hl, hxN, num, hxd, ih]

/-! ## Tokenizer lemmas -/

theorem skip_line_mono : ∀ (m n : Nat) (inp : List Char) (r : Option Char × List Char),
    skip_line m inp = some r → m ≤ n → skip_line n inp = some r
  | 0, _, _, _, h, _ => by rw [skip_line] at h; cases h
  | m + 1, n, inp, r, h, hmn => by
    obtain ⟨k, rfl⟩ : ∃ k, n = k + 1 := ⟨n - 1, by omega⟩
    rw [skip_line] at h ⊢
    by_cases hc : (getc inp).1 ≠ some '\n'
    · rw [if_pos hc] at h ⊢
      exact skip_line_mono m k _ r h (by omega)
    · rw [if_neg hc] at h ⊢
      exact h

theorem skip_space_mono : ∀ (m n : Nat) (ch : Option Char) (inp : List Char)
    (r : Option Char × List Char),
    skip_space m ch inp = some r → m ≤ n → skip_space n ch inp = some r
  | 0, _, _, _, _, h, _ => by rw [skip_space] at h; cases h
  | m + 1, n, ch, inp, r, h, hmn => by
    obtain ⟨k, rfl⟩ : ∃ k, n = k + 1 := ⟨n - 1, by omega⟩
    rw [skip_space] at h ⊢
    by_cases hs : isspace ch = true
    · rw [if_pos hs] at h ⊢
      by_cases hc : (getc inp).1 = some ';'
      · rw [if_pos hc] at h ⊢
        cases hl : skip_line m (getc inp).2 with
        | none => rw [hl] at h; cases h
        | some x =>
          rw [hl, Option.some_bind] at h
          rw [skip_line_mono m k _ x hl (by omega), Option.some_bind]
          exact skip_space_mono m k _ _ r h (by omega)
      · rw [if_neg hc] at h ⊢
        exact skip_space_mono m k _ _ r h (by omega)
    · rw [if_neg hs] at h ⊢
      exact h

theorem num_loop_mono : ∀ (m n : Nat) (ch : Option Char) (inp tok : List Char)
    (r : List Char × Option Char × List Char),
    num_loop m ch inp tok = some r → m ≤ n → num_loop n ch inp tok = some r
  | 0, _, _, _, _, _, h, _ => by rw [num_loop] at h; cases h
  | m + 1, n, ch, inp, tok, r, h, hmn => by
    obtain ⟨k, rfl⟩ : ∃ k, n = k + 1 := ⟨n - 1, by omega⟩
    cases ch with
    | none => rw [num_loop] at h ⊢; exact h
    | some c =>
      rw [num_loop] at h ⊢
      by_cases hd : isdigit (some c) = true ∨ c = '.'
      · rw [if_pos hd] at h ⊢
        by_cases hl : tok.length < 256
        · rw [if_pos hl] at h ⊢
          exact num_loop_mono m k _ _ _ r h (by omega)
        · rw [if_neg hl] at h; cases h
      · rw [if_neg hd] at h ⊢
        exact h

theorem sym_loop_mono : ∀ (m n : Nat) (ch : Option Char) (inp tok : List Char)
    (r : List Char × Option Char × List Char),
    sym_loop m ch inp tok = some r → m ≤ n → sym_loop n ch inp tok = some r
  | 0, _, _, _, _, _, h, _ => by rw [sym_loop] at h; cases h
  | m + 1, n, ch, inp, tok, r, h, hmn => by
    obtain ⟨k, rfl⟩ : ∃ k, n = k + 1 := ⟨n - 1, by omega⟩
    rw [sym_loop] at h ⊢
    by_cases hd : ¬ isspace ch = true ∧ ch ≠ some ')' ∧ ch ≠ some '('
    · rw [if_pos hd] at h ⊢
      by_cases hl : tok.length < 256
      · rw [if_pos hl] at h ⊢
        exact sym_loop_mono m k _ _ _ r h (by omega)
      · rw [if_neg hl] at h; cases h
    · rw [if_neg hd] at h ⊢
      exact h

theorem gettok_mono {m n : Nat} {inp : List Char} {r : Tok × List Char}
    (h : gettok m inp = some r) (hmn : m ≤ n) : gettok n inp = some r := by
  rw [gettok] at h ⊢
  cases hs : skip_space m (getc inp).1 (getc inp).2 with
  | none => rw [hs] at h; cases h
  | some x =>
    rw [hs, Option.some_bind] at h
    rw [skip_space_mono m n _ _ x hs hmn, Option.some_bind]
    cases hx : x.1 with
    | none => rw [hx] at h; exact h
    | some c =>
      rw [hx] at h
      dsimp only at h ⊢
      by_cases hp : c = '(' ∨ c = ')'
      · rw [if_pos hp] at h ⊢; exact h
      · rw [if_neg hp] at h ⊢
        by_cases hd : isdigit (some c) = true
        · rw [if_pos hd] at h ⊢
          cases hn : num_loop m (some c) x.2 [] with
          | none => rw [hn] at h; cases h
          | some t =>
            rw [hn, Option.some_bind] at h
            rw [num_loop_mono m n _ _ _ t hn hmn, Option.some_bind]
            exact h
        · rw [if_neg hd] at h ⊢
          cases hn : sym_loop m (some c) x.2 [] with
          | none => rw [hn] at h; cases h
          | some t =>
            rw [hn, Option.some_bind] at h
            rw [sym_loop_mono m n _ _ _ t hn hmn, Option.some_bind]
            exact h

theorem reads_append (m : Nat) : ∀ (a b : List Tok) (inp : List Char),
    reads m inp (a ++ b) = (reads m inp a).bind fun i => reads m i b
  | [], b, inp => by simp [reads]
  | t :: a, b, inp => by
    simp only [List.cons_append, reads]
    cases hg : gettok m inp with
    | none => simp
    | some g =>
      simp only [Option.some_bind]
      by_cases ht : g.1 = t
      · rw [if_pos ht, if_pos ht]; exact reads_append m a b g.2
      · rw [if_neg ht, if_neg ht]; simp

theorem getc_cons (x : Char) (L : List Char) (hx : x.toNat ≠ 255) :
    getc (x :: L) = (some x, L) := by
  simp [getc, hx]

theorem ungetc_getc (inp : List Char) (h : ∀ x ∈ inp, x.toNat ≠ 255) :
    ungetc (getc inp).1 (getc inp).2 = inp := by
  cases inp with
  | nil => rfl
  | cons x L => rw [getc_cons x L (h x (by simp))]; rfl

theorem ascii_ne_255 {x : Char} (h : ascii x = true) : x.toNat ≠ 255 := by
  simp only [ascii, Bool.and_eq_true, decide_eq_true_eq] at h
  omega

theorem isspace_ne_255 {x : Char} (h : isspace (some x) = true) : x.toNat ≠ 255 := by
  simp only [isspace, Bool.or_eq_true, Bool.and_eq_true, decide_eq_true_eq] at h
  rcases h with rfl | h
  · decide
  · omega

/-! ## Parser lemmas -/

theorem reads_cons {m : Nat} {inp inp' : List Char} {t : Tok} {ts : List Tok}
    (h : reads m inp (t :: ts) = some inp') :
    ∃ i1, gettok m inp = some (t, i1) ∧ reads m i1 ts = some inp' := by
  rw [reads] at h
  cases hg : gettok m inp with
  | none => rw [hg] at h; cases h
  | some g =>
    rw [hg, Option.some_bind] at h
    by_cases ht : g.1 = t
    · rw [if_pos ht] at h
      exact ⟨g.2, by rw [← ht], h⟩
    · rw [if_neg ht] at h; cases h

theorem reads_append_some {m : Nat} {inp inp' : List Char} {a b : List Tok}
    (h : reads m inp (a ++ b) = some inp') :
    ∃ i1, reads m inp a = some i1 ∧ reads m i1 b = some inp' := by
  rw [reads_append] at h
  cases hr : reads m inp a with
  | none => rw [hr] at h; cases h
  | some i1 => rw [hr, Option.some_bind] at h; exact ⟨i1, rfl, h⟩

theorem SRep.mono_bounds {h : Heap} {lo hi lo' hi' : Nat} (hlo : lo' ≤ lo) (hhi : hi ≤ hi') :
    ∀ {e : SExp} {p : Nat}, SRep h lo hi p e → SRep h lo' hi' p e
  | SExp.num _, _, ⟨h1, h2, h3⟩ => ⟨by omega, by omega, h3⟩
  | SExp.sym _, _, ⟨h1, h2, h3⟩ => ⟨by omega, by omega, h3⟩
  | SExp.nil, _, hp => hp
  | SExp.cons _ _, _, ⟨h1, h2, x, y, h3, ha, hd⟩ =>
    ⟨by omega, by omega, x, y, h3, SRep.mono_bounds hlo hhi ha, SRep.mono_bounds hlo hhi hd⟩

theorem SRep.frame_exp {h h' : Heap} {lo hi : Nat}
    (hf : ∀ x, lo ≤ x → x < hi → h'[x]? = h[x]?) :
    ∀ {e : SExp} {p : Nat}, SRep h lo hi p e → SRep h' lo hi p e
  | SExp.num _, _, ⟨h1, h2, h3⟩ => ⟨h1, h2, by rw [hf _ h1 h2]; exact h3⟩
  | SExp.sym _, _, ⟨h1, h2, h3⟩ => ⟨h1, h2, by rw [hf _ h1 h2]; exact h3⟩
  | SExp.nil, _, hp => hp
  | SExp.cons _ _, _, ⟨h1, h2, x, y, h3, ha, hd⟩ =>
    ⟨h1, h2, x, y, by rw [hf _ h1 h2]; exact h3, SRep.frame_exp hf ha, SRep.frame_exp hf hd⟩

theorem SExp.toks_pos : ∀ e : SExp, 1 ≤ e.toks.length
  | SExp.num _ => by simp [SExp.toks]
  | SExp.sym _ => by simp [SExp.toks]
  | SExp.nil => by simp [SExp.toks]
  | SExp.cons _ _ => by simp [SExp.toks]

/-- The parser on the tokens of a well-formed expression, and its loop on the tokens of the
elements of a list followed by the closing parenthesis. -/
theorem parse_toks (m : Nat) : ∀ e : SExp,
    (e.WF → ∀ (h : Heap) (inp inp' : List Char) (n : Nat), None < h.length →
      reads m inp e.toks = some inp' → m + e.toks.length ≤ n →
      ∃ p h', parse n h inp = some (p, h', inp') ∧ p ≠ NULL ∧
        SRep h' h.length h'.length p e ∧ h.length ≤ h'.length ∧
        ∀ x, x < h.length → h'[x]? = h[x]?) ∧
    (e.WF → e.IsList → ∀ (h : Heap) (inp inp' : List Char) (n head tail a0 : Nat),
      None < tail → tail < h.length → h[tail]? = some (Cell.CONS a0 None) →
      reads m inp (e.elems ++ [Tok.SYMBOL ")"]) = some inp' → m + e.elems.length + 2 ≤ n →
      ∃ y h', parse_loop n h inp head tail = some (head, h', inp') ∧
        h'[tail]? = some (Cell.CONS a0 y) ∧ SRep h' h.length h'.length y e ∧
        h.length ≤ h'.length ∧ ∀ x, x < h.length → x ≠ tail → h'[x]? = h[x]?) := by
  have hN1 : None = 1 := rfl
  have hZ : NULL = 0 := rfl
  have hLP : ("(" : String).data.head? = some '(' := rfl
  have hRP1 : ¬ (")" : String).data.head? = some '(' := by decide
  have hRP2 : (")" : String).data.head? = some ')' := rfl
  -- a closing parenthesis ends the list
  have close : ∀ (h : Heap) (inp inp' : List Char) (n : Nat),
      reads m inp [Tok.SYMBOL ")"] = some inp' → m + 1 ≤ n →
      parse n h inp = some (NULL, h, inp') := by
    intro h inp inp' n hr hn
    obtain ⟨k, rfl⟩ : ∃ k, n = k + 1 := ⟨n - 1, by omega⟩
    obtain ⟨i1, hg, hr1⟩ := reads_cons hr
    rw [reads] at hr1
    injection hr1 with hr1
    subst hr1
    rw [parse.eq_2, gettok_mono hg (by omega), Option.some_bind]
    simp only [if_neg hRP1, if_pos hRP2]
  intro e
  induction e with
  | num t =>
    refine ⟨?_, fun _ hl => absurd hl (by simp [SExp.IsList])⟩
    intro _ h inp inp' n hN hr hn
    obtain ⟨k, rfl⟩ : ∃ k, n = k + 1 := ⟨n - 1, by simp [SExp.toks] at hn; omega⟩
    simp only [SExp.toks, List.length_singleton] at hr hn
    obtain ⟨i1, hg, hr1⟩ := reads_cons hr
    rw [reads] at hr1
    injection hr1 with hr1
    subst hr1
    refine ⟨h.length, h ++ [Cell.NUM (atof t.data)], ?_, by omega, ?_, by simp, ?_⟩
    · rw [parse.eq_2, gettok_mono hg (by omega), Option.some_bind]
      simp only [make_num, alloc]
    · exact ⟨le_refl _, by simp, by simp⟩
    · intro x hx
      rw [List.getElem?_append_left hx]
  | sym s =>
    refine ⟨?_, fun _ hl => absurd hl (by simp [SExp.IsList])⟩
    intro hwf h inp inp' n hN hr hn
    obtain ⟨k, rfl⟩ : ∃ k, n = k + 1 := ⟨n - 1, by simp [SExp.toks] at hn; omega⟩
    simp only [SExp.toks, List.length_singleton] at hr hn
    obtain ⟨i1, hg, hr1⟩ := reads_cons hr
    rw [reads] at hr1
    injection hr1 with hr1
    subst hr1
    refine ⟨h.length, h ++ [Cell.SYMBOL s], ?_, by omega, ?_, by simp, ?_⟩
    · rw [parse.eq_2, gettok_mono hg (by omega), Option.some_bind]
      simp only [if_neg hwf.1, if_neg hwf.2, make_str, alloc]
    · exact ⟨le_refl _, by simp, by simp⟩
    · intro x hx
      rw [List.getElem?_append_left hx]
  | nil =>
    constructor
    · intro _ h inp inp' n hN hr hn
      obtain ⟨k, rfl⟩ : ∃ k, n = k + 1 := ⟨n - 1, by simp [SExp.toks] at hn; omega⟩
      simp only [SExp.toks, List.length_cons, List.length_singleton] at hr hn
      obtain ⟨i1, hg, hr1⟩ := reads_cons hr
      refine ⟨None, h, ?_, by omega, rfl, le_refl _, fun _ _ => rfl⟩
      rw [parse.eq_2, gettok_mono hg (by omega), Option.some_bind]
      simp only [if_pos hLP, close h i1 inp' k hr1 (by omega), Option.some_bind, if_true]
    · intro _ _ h inp inp' n head tail a0 hNt htl htail hr hn
      obtain ⟨k, rfl⟩ : ∃ k, n = k + 1 := ⟨n - 1, by omega⟩
      simp only [SExp.elems, List.nil_append, List.length_nil] at hr hn
      refine ⟨None, h, ?_, htail, rfl, le_refl _, fun _ _ _ => rfl⟩
      rw [parse_loop.eq_2, close h inp inp' k hr (by omega), Option.some_bind]
      simp only [if_true]
  | cons a d iha ihd =>
    -- one element followed by the other elements, in the loop
    have step : a.WF → d.WF → d.IsList →
        ∀ (h : Heap) (inp inp' : List Char) (k : Nat), None < h.length →
        reads m inp (a.toks ++ (d.elems ++ [Tok.SYMBOL ")"])) = some inp' →
        m + a.toks.length + d.elems.length + 1 ≤ k →
        ∃ t h1 i1, parse k h inp = some (t, h1, i1) ∧ t ≠ NULL ∧ h.length ≤ h1.length ∧
          (∀ x, x < h.length → h1[x]? = h[x]?) ∧ SRep h1 h.length h1.length t a ∧
          ∀ (head a0 : Nat) (h2 : Heap), h2.length = h1.length + 1 →
            h2[h1.length]? = some (Cell.CONS a0 None) →
            ∃ y h', parse_loop k h2 i1 head h1.length = some (head, h', inp') ∧
              h'[h1.length]? = some (Cell.CONS a0 y) ∧
              SRep h' h2.length h'.length y d ∧ h2.length ≤ h'.length ∧
              ∀ x, x < h2.length → x ≠ h1.length → h'[x]? = h2[x]? := by
      intro hwa hwd hld h inp inp' k hN hr hk
      obtain ⟨i1, hra, hrd⟩ := reads_append_some hr
      obtain ⟨t, h1, hp, ht0, hrep, hle, hfr⟩ := iha.1 hwa h inp i1 k hN hra (by omega)
      refine ⟨t, h1, i1, hp, ht0, hle, hfr, hrep, ?_⟩
      intro head a0 h2 hl2 hc
      have := SExp.toks_pos a
      obtain ⟨y, h', hq, hty, hrepd, hle', hfr'⟩ := ihd.2 hwd hld h2 i1 inp' k head h1.length a0
        (by omega) (by omega) hc hrd (by omega)
      exact ⟨y, h', hq, hty, hrepd, hle', hfr'⟩
    constructor
    · intro hwf h inp inp' n hN hr hn
      obtain ⟨hwa, hwd, hld⟩ := hwf
      obtain ⟨k, rfl⟩ : ∃ k, n = k + 1 := ⟨n - 1, by simp [SExp.toks] at hn; omega⟩
      simp only [SExp.toks, List.length_cons, List.length_append, List.length_singleton] at hr hn
      obtain ⟨i0, hg, hr1⟩ := reads_cons hr
      rw [List.append_assoc] at hr1
      obtain ⟨t, h1, i1, hp, ht0, hle, hfr, hrep, hloop⟩ :=
        step hwa hwd hld h i0 inp' k hN hr1 (by omega)
      obtain ⟨y, h', hq, hty, hrepd, hle', hfr'⟩ := hloop h1.length t (h1 ++ [Cell.CONS t None])
        (by simp) (by simp)
      have hl2 : (h1 ++ [Cell.CONS t None]).length = h1.length + 1 := by simp
      rw [hl2] at hrepd hle' hfr'
      refine ⟨h1.length, h', ?_, by omega, ?_, by omega, ?_⟩
      · rw [parse.eq_2, gettok_mono hg (by omega), Option.some_bind]
        simp only [if_pos hLP, hp, Option.some_bind, if_neg ht0, cons, alloc]
        exact hq
      · refine ⟨hle, by omega, t, y, hty, ?_, SRep.mono_bounds (by omega) (le_refl _) hrepd⟩
        refine SRep.mono_bounds (le_refl _) (by omega) (SRep.frame_exp ?_ hrep)
        intro x hx1 hx2
        rw [hfr' x (by omega) (by omega), List.getElem?_append_left hx2]
      · intro x hx
        rw [hfr' x (by omega) (by omega), List.getElem?_append_left (by omega), hfr x hx]
    · intro hwf _ h inp inp' n head tail a0 hNt htl htail hr hn
      obtain ⟨hwa, hwd, hld⟩ := hwf
      obtain ⟨k, rfl⟩ : ∃ k, n = k + 1 := ⟨n - 1, by omega⟩
      simp only [SExp.elems, List.length_append] at hr hn
      rw [List.append_assoc] at hr
      obtain ⟨t, h1, i1, hp, ht0, hle, hfr, hrep, hloop⟩ :=
        step hwa hwd hld h inp inp' k (by omega) hr (by omega)
      have htail1 : h1[tail]? = some (Cell.CONS a0 None) := by rw [hfr tail htl]; exact htail
      have htail2 : (h1 ++ [Cell.CONS t None])[tail]? = some (Cell.CONS a0 None) :=
        get_append htail1
      obtain ⟨y, h', hq, hty, hrepd, hle', hfr'⟩ := hloop head t
        ((h1 ++ [Cell.CONS t None]).set tail (Cell.CONS a0 h1.length))
        (by simp) (by rw [get_set_ne _ (by omega)]; simp)
      have hl2 : ((h1 ++ [Cell.CONS t None]).set tail (Cell.CONS a0 h1.length)).length =
          h1.length + 1 := by simp
      rw [hl2] at hrepd hle' hfr'
      refine ⟨h1.length, h', ?_, ?_, ?_, by omega, ?_⟩
      · rw [parse_loop.eq_2, hp, Option.some_bind]
        simp only [if_neg ht0, cons, alloc, set_cdr, htail2, Option.some_bind]
        exact hq
      · rw [hfr' tail (by omega) (by omega)]
        exact get_set_eq _ (by rw [List.length_append]; simp; omega)
      · refine ⟨hle, by omega, t, y, hty, ?_, SRep.mono_bounds (by omega) (le_refl _) hrepd⟩
        refine SRep.mono_bounds (le_refl _) (by omega) (SRep.frame_exp ?_ hrep)
        intro x hx1 hx2
        rw [hfr' x (by omega) (by omega), get_set_ne _ (by omega),
          List.getElem?_append_left hx2]
      · intro x hx hxt
        rw [hfr' x (by omega) (by omega), get_set_ne _ (Ne.symm hxt),
          List.getElem?_append_left (by omega), hfr x hx]

theorem SExp.elems_ofList : ∀ es : List SExp, (SExp.ofList es).elems = SExp.toksList es
  | [] => rfl
  | e :: es => by simp [SExp.ofList, SExp.elems, SExp.toksList, SExp.elems_ofList es]

theorem SExp.toks_ofList : ∀ es : List SExp,
    (SExp.ofList es).toks = Tok.SYMBOL "(" :: (SExp.toksList es ++ [Tok.SYMBOL ")"])
  | [] => rfl
  | e :: es => by
    simp [SExp.ofList, SExp.toks, SExp.toksList, SExp.elems_ofList es]

theorem SExp.isList_ofList : ∀ es : List SExp, (SExp.ofList es).IsList
  | [] => trivial
  | _ :: es => SExp.isList_ofList es

theorem SExp.wf_ofList : ∀ es : List SExp, (∀ e ∈ es, e.WF) → (SExp.ofList es).WF
  | [], _ => trivial
  | e :: es, h => ⟨h e (by simp), SExp.wf_ofList es (fun x hx => h x (by simp [hx])),
      SExp.isList_ofList es⟩

theorem SRep.ofList {h : Heap} {lo hi : Nat} : ∀ (es : List SExp) (p : Nat),
    SRep h lo hi p (SExp.ofList es) →
    ∃ vs, ListAt h p vs ∧ List.Forall₂ (fun v e => SRep h lo hi v e) vs es
  | [], p, hp => ⟨[], hp, List.Forall₂.nil⟩
  | e :: es, p, ⟨_, _, x, y, hc, ha, hd⟩ => by
    obtain ⟨vs, hl, hf⟩ := SRep.ofList es y hd
    exact ⟨x :: vs, ⟨y, hc, hl⟩, List.Forall₂.cons ha hf⟩

/-- A closing parenthesis makes `parse` return `NULL`. -/
theorem parse_close {m : Nat} (h : Heap) {inp inp' : List Char} {n : Nat}
    (hr : reads m inp [Tok.SYMBOL ")"] = some inp') (hn : m + 1 ≤ n) :
    parse n h inp = some (NULL, h, inp') := by
  have hRP1 : ¬ (")" : String).data.head? = some '(' := by decide
  have hRP2 : (")" : String).data.head? = some ')' := rfl
  obtain ⟨k, rfl⟩ : ∃ k, n = k + 1 := ⟨n - 1, by omega⟩
  obtain ⟨i1, hg, hr1⟩ := reads_cons hr
  rw [reads] at hr1
  injection hr1 with hr1
  subst hr1
  rw [parse.eq_2, gettok_mono hg (by omega), Option.some_bind]
  simp only [if_neg hRP1, if_pos hRP2]

/-- The empty list `()` is parsed to `None` and nothing is allocated. -/
theorem parse_nil {m : Nat} (h : Heap) {inp inp' : List Char} {n : Nat}
    (hr : reads m inp [Tok.SYMBOL "(", Tok.SYMBOL ")"] = some inp') (hn : m + 2 ≤ n) :
    parse n h inp = some (None, h, inp') := by
  have hLP : ("(" : String).data.head? = some '(' := rfl
  obtain ⟨k, rfl⟩ : ∃ k, n = k + 1 := ⟨n - 1, by omega⟩
  obtain ⟨i1, hg, hr1⟩ := reads_cons hr
  rw [parse.eq_2, gettok_mono hg (by omega), Option.some_bind]
  simp only [if_pos hLP, parse_close h hr1 (by omega : m + 1 ≤ k), Option.some_bind, if_true]

theorem symch_iff (x : Char) :
    symch x = true ↔ ¬ isspace (some x) = true ∧ some x ≠ some ')' ∧ some x ≠ some '(' := by
  simp [symch, and_assoc]

theorem numch_iff (x : Char) : numch x = true ↔ isdigit (some x) = true ∨ x = '.' := by
  simp [numch]

theorem reads_mono {m n : Nat} (hmn : m ≤ n) : ∀ (ts : List Tok) (inp r : List Char),
    reads m inp ts = some r → reads n inp ts = some r
  | [], _, _, h => h
  | t :: ts, inp, r, h => by
    obtain ⟨i1, hg, hr⟩ := reads_cons h
    rw [reads, gettok_mono hg hmn, Option.some_bind, if_pos rfl]
    exact reads_mono hmn ts i1 r hr

/-- White space that no comment follows is skipped. -/
theorem skip_space_run (c : Char) (tl : List Char) (hc : isspace (some c) = false)
    (hc255 : c.toNat ≠ 255) :
    ∀ (ws : List Char) (n : Nat), (∀ w ∈ ws, isspace (some w) = true) → (ws = [] ∨ c ≠ ';') →
      ws.length + 1 ≤ n →
      skip_space n (getc (ws ++ c :: tl)).1 (getc (ws ++ c :: tl)).2 = some (some c, tl)
  | [], n, _, _, hn => by
    obtain ⟨k, rfl⟩ : ∃ k, n = k + 1 := ⟨n - 1, by omega⟩
    rw [List.nil_append, getc_cons c tl hc255, skip_space, if_neg (by rw [hc]; decide)]
  | w :: ws, n, hws, hsemi, hn => by
    obtain ⟨k, rfl⟩ : ∃ k, n = k + 1 := ⟨n - 1, by omega⟩
    have hw : isspace (some w) = true := hws w (by simp)
    have hc' : c ≠ ';' := by
      rcases hsemi with h | h
      · cases h
      · exact h
    have ih := skip_space_run c tl hc hc255 ws k (fun x hx => hws x (by simp [hx]))
      (Or.inr hc') (by simp only [List.length_cons] at hn; omega)
    have hne : (getc (ws ++ c :: tl)).1 ≠ some ';' := by
      cases ws with
      | nil =>
        rw [List.nil_append, getc_cons c tl hc255]
        intro h
        injection h with h
        exact hc' h
      | cons x xs =>
        have hx : isspace (some x) = true := hws x (by simp)
        rw [List.cons_append, getc_cons x _ (isspace_ne_255 hx)]
        intro h
        injection h with h
        rw [h] at hx
        exact absurd hx (by decide)
    rw [List.cons_append, getc_cons w _ (isspace_ne_255 hw), skip_space, if_pos hw, if_neg hne]
    exact ih

/-- The loop of the `NUM` branch reads the longest run of digits and dots. -/
theorem num_loop_run : ∀ (L tok : List Char) (n : Nat), (∀ x ∈ L, x.toNat ≠ 255) →
    tok.length + (L.takeWhile numch).length < 257 → L.length + 1 ≤ n →
    num_loop n (getc L).1 (getc L).2 tok =
      some (tok ++ L.takeWhile numch, (getc (L.dropWhile numch)).1,
        (getc (L.dropWhile numch)).2)
  | [], tok, n, _, _, hn => by
    obtain ⟨k, rfl⟩ : ∃ k, n = k + 1 := ⟨n - 1, by omega⟩
    simp [getc, num_loop]
  | x :: L, tok, n, hL, hl, hn => by
    obtain ⟨k, rfl⟩ : ∃ k, n = k + 1 := ⟨n - 1, by omega⟩
    simp only [List.length_cons] at hn
    have hx255 : x.toNat ≠ 255 := hL x (by simp)
    have hL' : ∀ y ∈ L, y.toNat ≠ 255 := fun y hy => hL y (by simp [hy])
    rw [getc_cons x L hx255, num_loop]
    by_cases hx : numch x = true
    · have hx' := (numch_iff x).1 hx
      rw [List.takeWhile_cons, if_pos hx, List.length_cons] at hl
      have hl' : (tok ++ [x]).length + (L.takeWhile numch).length < 257 := by
        rw [List.length_append, List.length_singleton]; omega
      rw [if_pos hx', if_pos (by omega), num_loop_run L (tok ++ [x]) k hL' hl' (by omega),
        List.takeWhile_cons, if_pos hx, List.dropWhile_cons, if_pos hx, List.append_assoc,
        List.singleton_append]
    · have hx' : ¬ (isdigit (some x) = true ∨ x = '.') := fun h => hx ((numch_iff x).2 h)
      rw [if_neg hx', List.takeWhile_cons, if_neg hx, List.dropWhile_cons, if_neg hx,
        List.append_nil, getc_cons x L hx255]

/-- The loop of the symbol branch reads the longest run of characters that are neither
white space nor parentheses, when a character follows the run. -/
theorem sym_loop_run : ∀ (L tok : List Char) (n : Nat), (∀ x ∈ L, x.toNat ≠ 255) →
    tok.length + (L.takeWhile symch).length < 257 → L.length + 1 ≤ n →
    L.dropWhile symch ≠ [] →
    sym_loop n (getc L).1 (getc L).2 tok =
      some (tok ++ L.takeWhile symch, (getc (L.dropWhile symch)).1,
        (getc (L.dropWhile symch)).2)
  | [], tok, n, _, _, hn, hd => by simp at hd
  | x :: L, tok, n, hL, hl, hn, hd => by
    obtain ⟨k, rfl⟩ : ∃ k, n = k + 1 := ⟨n - 1, by omega⟩
    simp only [List.length_cons] at hn
    have hx255 : x.toNat ≠ 255 := hL x (by simp)
    have hL' : ∀ y ∈ L, y.toNat ≠ 255 := fun y hy => hL y (by simp [hy])
    rw [getc_cons x L hx255, sym_loop]
    by_cases hx : symch x = true
    · have hx' := (symch_iff x).1 hx
      rw [List.takeWhile_cons, if_pos hx, List.length_cons] at hl
      rw [List.dropWhile_cons, if_pos hx] at hd
      have hl' : (tok ++ [x]).length + (L.takeWhile symch).length < 257 := by
        rw [List.length_append, List.length_singleton]; omega
      rw [if_pos hx', if_pos (by omega), Option.getD_some,
        sym_loop_run L (tok ++ [x]) k hL' hl' (by omega) hd,
        List.takeWhile_cons, if_pos hx, List.dropWhile_cons, if_pos hx, List.append_assoc,
        List.singleton_append]
    · have hx' : ¬ (¬ isspace (some x) = true ∧ some x ≠ some ')' ∧ some x ≠ some '(') :=
        fun h => hx ((symch_iff x).2 h)
      rw [if_neg hx', List.takeWhile_cons, if_neg hx, List.dropWhile_cons, if_neg hx,
        List.append_nil, getc_cons x L hx255]

/-- What `getc` reads is `EOF` or a character of the stream, and it leaves characters of
the stream. -/
theorem getc_mem (inp : List Char) :
    (∀ c, (getc inp).1 = some c → c ∈ inp) ∧ ∀ x ∈ (getc inp).2, x ∈ inp := by
  cases inp with
  | nil => simp [getc]
  | cons y ys =>
    constructor
    · intro c hc
      simp only [getc] at hc
      by_cases hy : y.toNat = 255
      · rw [if_pos hy] at hc; cases hc
      · rw [if_neg hy] at hc
        injection hc with hc
        simp [hc]
    · intro x hx
      simp only [getc] at hx
      simp [hx]

/-- At the end of the input the loop of the symbol branch has no result. -/
theorem sym_loop_eof : ∀ (n : Nat) (ch : Option Char) (inp tok : List Char),
    (∀ c, ch = some c → symch c = true) → (∀ x ∈ inp, symch x = true) →
    sym_loop n ch inp tok = none
  | 0, _, _, _, _, _ => by rw [sym_loop]
  | n + 1, ch, inp, tok, hch, hinp => by
    rw [sym_loop]
    have hcond : ¬ isspace ch = true ∧ ch ≠ some ')' ∧ ch ≠ some '(' := by
      cases ch with
      | none => simp [isspace]
      | some c => exact (symch_iff c).1 (hch c rfl)
    rw [if_pos hcond]
    by_cases hl : tok.length < 256
    · rw [if_pos hl]
      exact sym_loop_eof n _ _ _ (fun c hc => hinp c ((getc_mem inp).1 c hc))
        (fun x hx => hinp x ((getc_mem inp).2 x hx))
    · rw [if_neg hl]

/-- Without a newline in the input the loop over a comment has no result. -/
theorem skip_line_eof : ∀ (n : Nat) (inp : List Char), (∀ x ∈ inp, x ≠ '\n') →
    skip_line n inp = none
  | 0, _, _ => by rw [skip_line]
  | n + 1, inp, hinp => by
    rw [skip_line]
    have hne : (getc inp).1 ≠ some '\n' := by
      intro h
      exact hinp _ ((getc_mem inp).1 _ h) rfl
    rw [if_pos hne]
    exact skip_line_eof n _ (fun x hx => hinp x ((getc_mem inp).2 x hx))

/-- A run without the zero character is the string in `token`. -/
theorem cstr_eq (tok : List Char) (h : ∀ x ∈ tok, x.toNat ≠ 0) : cstr tok = String.mk tok := by
  rw [cstr]
  congr 1
  rw [List.takeWhile_eq_self_iff]
  intro x hx
  simpa using h x hx

set_option maxRecDepth 1000000 in
/-- The bytes `255` and `0` in the input: as a `char` the byte `255` is `EOF`, so as first
character it gives `DONE`, and after the run of a number `ungetc` does not push it back; a
zero character inside a run ends the string in `token`. -/
theorem gettok_bytes_255_0 :
    gettok 3 [Char.ofNat 255, 'x', ' '] = some (Tok.DONE, ['x', ' ']) ∧
    gettok 3 ['1', Char.ofNat 255, 'x', ' '] = some (Tok.NUM "1", ['x', ' ']) ∧
    gettok 5 ['a', Char.ofNat 0, 'b', ' '] = some (Tok.SYMBOL "a", [' ']) := by
  refine ⟨by decide, by decide, by decide⟩

/-! ## The claims -/

/-- C2. In the initial global environment built by `setup_global_env`, for every symbol name
`s` that is not one of the 16 builtin names and every number `d`: whatever cells were allocated
after the environment was built (`extra`, holding the parsed expression `(define s d)` at `exp`),
with enough fuel evaluating the expression returns its symbol cell `k`, and afterwards (other
cells `extra2` having been allocated) evaluating any symbol cell with the name `s` returns a
`NUM` cell holding `d` and does not change the heap. -/
theorem define_then_lookup (s : String) (d : Rat) (hs : s ∉ builtins_tbl.map Prod.fst)
    (extra : Heap) (exp kw c1 k c2 v c3 : Nat)
    (hexp : (global_heap ++ extra)[exp]? = some (Cell.CONS kw c1))
    (hkw : (global_heap ++ extra)[kw]? = some (Cell.SYMBOL "define"))
    (hc1 : (global_heap ++ extra)[c1]? = some (Cell.CONS k c2))
    (hk : (global_heap ++ extra)[k]? = some (Cell.SYMBOL s))
    (hc2 : (global_heap ++ extra)[c2]? = some (Cell.CONS v c3))
    (hv : (global_heap ++ extra)[v]? = some (Cell.NUM d))
    (hexp_new : global_heap.length ≤ exp) (hc1_new : global_heap.length ≤ c1) :
    (∀ n, 8 ≤ n → setup_global_env n main_heap = some (global_env, global_heap)) ∧
    ∀ n, 24 ≤ n → ∃ h', eval n (global_heap ++ extra) exp global_env = some (k, h') ∧
      h'[k]? = some (Cell.SYMBOL s) ∧
      ∀ (extra2 : Heap) (x : Nat), (h' ++ extra2)[x]? = some (Cell.SYMBOL s) →
        ∃ r, eval n (h' ++ extra2) x global_env = some (r, h' ++ extra2) ∧
          (h' ++ extra2)[r]? = some (Cell.NUM d) := by
  refine ⟨setup_global_env_eq, fun n hn => ?_⟩
  obtain ⟨bt, hroot, hrep0, hnd, hcl, hhit, hdep⟩ := global_tree
  obtain ⟨m, rfl⟩ : ∃ m, n = m + 1 := ⟨n - 1, by omega⟩
  generalize hh : global_heap ++ extra = h at *
  have hrep : Rep h bt := hh ▸ Rep.append extra hrep0
  have hlen : global_heap.length = 85 := by decide
  have h0 : h[NULL]? = some Cell.unmapped := hh ▸ get_append (by decide)
  have h1 : h[None]? = some (Cell.CONS 1 1) := hh ▸ get_append (by decide)
  have henv : h[84]? = some (Cell.CONS 8 1) := hh ▸ get_append (by decide)
  have hexp0 : exp ≠ NULL := by
    rintro rfl; rw [h0] at hexp; cases hexp
  have hv0 : v ≠ NULL := by
    rintro rfl; rw [h0] at hv; cases hv
  have hvN : v ≠ None := by
    rintro rfl; rw [h1] at hv; cases hv
  have hsame : strcmp "define" "define" = 0 := (strcmp_eq_zero _ _).2 rfl
  have hevv : eval m h v 84 = some (v, h) := by
    obtain ⟨m', rfl⟩ : ∃ m', m = m' + 1 := ⟨m - 1, by omega⟩
    rw [eval.eq_2, if_neg hv0, deref_of hv (by simp)]
  obtain ⟨h', hins, hrep', hlen', hfr⟩ := btbl_insert_rep (v := v) hk bt m hrep hnd (by omega)
  rw [hroot] at hins
  have hnot : ∀ x, x < h.length → (∀ c e, h[x]? ≠ some (Cell.CONS c e)) → h'[x]? = h[x]? := by
    intro x hx hne
    refine hfr x hx (fun hin => ?_)
    obtain ⟨c, e, hce⟩ := Rep.cells_cons hrep x hin
    exact hne c e hce
  have hge : ∀ x, x < h.length → 84 ≤ x → h'[x]? = h[x]? := by
    intro x hx hx'
    refine hfr x hx (fun hin => ?_)
    have := hcl x hin
    omega
  have hexp' : h'[exp]? = some (Cell.CONS kw c1) := by
    rw [hge exp (get_lt hexp) (by omega)]; exact hexp
  have hc1' : h'[c1]? = some (Cell.CONS k c2) := by
    rw [hge c1 (get_lt hc1) (by omega)]; exact hc1
  have hk' : h'[k]? = some (Cell.SYMBOL s) := by
    rw [hnot k (get_lt hk) (fun c e hce => by rw [hk] at hce; cases hce)]; exact hk
  have hv' : h'[v]? = some (Cell.NUM d) := by
    rw [hnot v (get_lt hv) (fun c e hce => by rw [hv] at hce; cases hce)]; exact hv
  have h0' : h'[NULL]? = some Cell.unmapped := by
    rw [hnot NULL (get_lt h0) (fun c e hce => by rw [h0] at hce; cases hce)]; exact h0
  have henv' : h'[84]? = some (Cell.CONS 8 1) := by
    rw [hge 84 (get_lt henv) (Nat.le_refl _)]; exact henv
  refine ⟨h', ?_, hk', fun extra2 x hx => ?_⟩
  · rw [eval.eq_2, if_neg hexp0, deref_of hexp (by simp)]
    simp only [IS_SYMBOL, deref_of hkw (by simp : Cell.SYMBOL "define" ≠ Cell.unmapped),
      Option.map_some', Option.some_bind, if_true, str_of hkw, hsame, cadr, caddr, cddr,
      cdr_of hexp, car_of hc1, cdr_of hc1, car_of hc2, hevv, env_insert, global_env,
      car_of henv, hins, cdr_of hexp', car_of hc1']
  · have hx0 : x ≠ NULL := by
      rintro rfl
      rw [get_append h0'] at hx; cases hx
    have hne : bt.root ≠ None := by rw [hroot]; decide
    have hfs : EnvRep (h' ++ extra2) [(84, BT.ins h.length k s v bt)] := by
      refine ⟨by decide, ?_, Rep.append _ hrep', trivial⟩
      rw [BT.root_ins_of_node _ _ _ _ _ hne, hroot]
      exact get_append henv'
    have hd := BT.depth_ins h.length k s v bt
    have hfind := env_find_rep s _ m hfs (by simp only [envFuel]; omega)
    rw [envNext_cons] at hfind
    have hval : envLookup [(84, BT.ins h.length k s v bt)] s = v := by
      have : (BT.ins h.length k s v bt).find s = v :=
        BT.find_ins_new _ _ _ _ _ (fun hh' => hs ((hhit s).1 hh'))
      simp only [envLookup, this, if_pos hvN]
    refine ⟨v, ?_, get_append hv'⟩
    rw [eval.eq_2, if_neg hx0, deref_of hx (by simp)]
    simp only [global_env, hfind, hval, Option.map_some']

/-- Instance of C2: `(define x 5)` laid out by the parser right behind the global
environment, then `x`. -/
theorem define_then_lookup_witness :
    ∃ h', eval 24 (global_heap ++ [Cell.SYMBOL "define", Cell.CONS 85 88, Cell.SYMBOL "x",
        Cell.CONS 87 90, Cell.NUM 5, Cell.CONS 89 1]) 86 global_env = some (87, h') ∧
      ∃ r, eval 24 (h' ++ []) 87 global_env = some (r, h' ++ []) ∧
        (h' ++ [])[r]? = some (Cell.NUM 5) := by
  obtain ⟨h', h1, h2, h3⟩ := (define_then_lookup "x" 5 (by decide)
    [Cell.SYMBOL "define", Cell.CONS 85 88, Cell.SYMBOL "x", Cell.CONS 87 90, Cell.NUM 5,
      Cell.CONS 89 1] 86 85 88 87 90 89 1 (by decide) (by decide) (by decide) (by decide)
    (by decide) (by decide) (by decide) (by decide)).2 24 (Nat.le_refl _)
  exact ⟨h', h1, h3 [] 87 (get_append h2)⟩

set_option maxRecDepth 1000000 in
/-- C5, as stated, fails in its last clause: a binding in an inner frame to the empty sentinel
does not shadow.  The inner frame `8` has one node, which binds `x` to `None`; the outer chain
`12` binds `x` to the cell `5`, a number; in the chain `13 = PUSH_ENV(12, 8)` `btbl_find` returns the
value `None` of the inner binding, `env_find` takes it for not found and returns the cell `5`
of the outer frame.  The same on a program: after `(define x 5)` the call
`((lambda (y) (begin (define x (quote ())) x)) 1)` returns the cell `89` of `5`. -/
theorem inner_None_binding_not_shadowing :
    caar (main_heap ++ [Cell.SYMBOL "x", Cell.NUM 5, Cell.CONS 4 1, Cell.CONS 1 1,
      Cell.CONS 6 7, Cell.CONS 4 5, Cell.CONS 1 1, Cell.CONS 9 10, Cell.CONS 11 None]) 8 =
      some 4 ∧
    cdar (main_heap ++ [Cell.SYMBOL "x", Cell.NUM 5, Cell.CONS 4 1, Cell.CONS 1 1,
      Cell.CONS 6 7, Cell.CONS 4 5, Cell.CONS 1 1, Cell.CONS 9 10, Cell.CONS 11 None]) 8 =
      some None ∧
    env_find 5 (main_heap ++ [Cell.SYMBOL "x", Cell.NUM 5, Cell.CONS 4 1, Cell.CONS 1 1,
      Cell.CONS 6 7, Cell.CONS 4 5, Cell.CONS 1 1, Cell.CONS 9 10, Cell.CONS 11 None]) 12 "x" =
      some 5 ∧
    PUSH_ENV (main_heap ++ [Cell.SYMBOL "x", Cell.NUM 5, Cell.CONS 4 1, Cell.CONS 1 1,
      Cell.CONS 6 7, Cell.CONS 4 5, Cell.CONS 1 1, Cell.CONS 9 10, Cell.CONS 11 None]) 12 8 =
      (13, main_heap ++ [Cell.SYMBOL "x", Cell.NUM 5, Cell.CONS 4 1, Cell.CONS 1 1,
      Cell.CONS 6 7, Cell.CONS 4 5, Cell.CONS 1 1, Cell.CONS 9 10, Cell.CONS 11 None,
      Cell.CONS 8 12]) ∧
    btbl_find 5 (main_heap ++ [Cell.SYMBOL "x", Cell.NUM 5, Cell.CONS 4 1, Cell.CONS 1 1,
      Cell.CONS 6 7, Cell.CONS 4 5, Cell.CONS 1 1, Cell.CONS 9 10, Cell.CONS 11 None,
      Cell.CONS 8 12]) 8 "x" = some None ∧
    env_find 5 (main_heap ++ [Cell.SYMBOL "x", Cell.NUM 5, Cell.CONS 4 1, Cell.CONS 1 1,
      Cell.CONS 6 7, Cell.CONS 4 5, Cell.CONS 1 1, Cell.CONS 9 10, Cell.CONS 11 None,
      Cell.CONS 8 12]) 13 "x" = some 5 ∧
    (eval 30 ((global_heap ++ [Cell.SYMBOL "define", Cell.CONS 85 88, Cell.SYMBOL "x",
      Cell.CONS 87 90, Cell.NUM 5, Cell.CONS 89 1, Cell.CONS 87 89, Cell.CONS 1 1,
      Cell.CONS 91 92]).set 27 (Cell.CONS 93 1) ++ [Cell.SYMBOL "lambda", Cell.CONS 94 98,
      Cell.SYMBOL "y", Cell.CONS 96 1, Cell.CONS 97 112, Cell.SYMBOL "begin", Cell.CONS 99 109,
      Cell.SYMBOL "define", Cell.CONS 101 104, Cell.SYMBOL "x", Cell.CONS 103 108,
      Cell.SYMBOL "quote", Cell.CONS 105 107, Cell.CONS 1 1, Cell.CONS 106 1, Cell.CONS 102 111,
      Cell.SYMBOL "x", Cell.CONS 110 1, Cell.CONS 100 1, Cell.CONS 95 115, Cell.NUM 1,
      Cell.CONS 114 1]) 113 global_env).map Prod.fst = some 89 := by
  refine ⟨by decide, by decide, by decide, by decide, by decide, by decide, by decide⟩

/-- C5, amended. Environment lookup scans innermost to outermost.  On the empty chain
`env_find` returns the not-found sentinel; on the chain `PUSH_ENV(P, f)` it returns `r` exactly
when `btbl_find(f, k)` returns some `t` and either `t` is not the not-found sentinel and
`r = t`, or `t` is the sentinel and `env_find(P, k)` returns `r`; hence a binding in the inner
frame `f` to a value other than the sentinel is the result whatever the outer frames hold.
(`None` is an allocated cell, so that the pushed cell is not `None`.) -/
theorem env_find_scan (h : Heap) (P f : Nat) (s : String) (hN : None < h.length) :
    (∀ r, EnvFinds h None s r ↔ r = None) ∧
    (∀ r, EnvFinds (PUSH_ENV h P f).2 (PUSH_ENV h P f).1 s r ↔
      ∃ t, TblFinds (PUSH_ENV h P f).2 f s t ∧
        (if t ≠ None then r = t else EnvFinds (PUSH_ENV h P f).2 P s r)) ∧
    (∀ v, TblFinds (PUSH_ENV h P f).2 f s v → v ≠ None →
      EnvFinds (PUSH_ENV h P f).2 (PUSH_ENV h P f).1 s v) := by
  have he : (PUSH_ENV h P f).1 ≠ None := by
    simp only [PUSH_ENV, cons, alloc]; omega
  have hc : (PUSH_ENV h P f).2[(PUSH_ENV h P f).1]? = some (Cell.CONS f P) := by
    simp [PUSH_ENV, cons, alloc]
  refine ⟨fun r => ⟨?_, ?_⟩, fun r => env_find_cons_iff s he hc r, fun v hv hvn => ?_⟩
  · rintro ⟨n, hn⟩
    cases n with
    | zero => simp [env_find] at hn
    | succ m =>
      simp only [env_find, if_true] at hn
      injection hn with hn
      exact hn.symm
  · rintro rfl
    exact ⟨1, by simp [env_find]⟩
  · exact (env_find_cons_iff s he hc v).2 ⟨v, hv, by rw [if_pos hvn]⟩

set_option maxRecDepth 1000000 in
/-- Instance of the amended C5: the chain `11` binds `b` to `True`; in the chain obtained by
pushing the frame `7`, which binds `b` to `False`, the lookup of `b` returns `False`. -/
theorem env_find_scan_witness :
    EnvFinds (main_heap ++ [Cell.SYMBOL "b", Cell.CONS 4 3, Cell.CONS 1 1, Cell.CONS 5 6,
      Cell.CONS 4 2, Cell.CONS 1 1, Cell.CONS 8 9, Cell.CONS 10 None]) 11 "b" True_ ∧
    EnvFinds (main_heap ++ [Cell.SYMBOL "b", Cell.CONS 4 3, Cell.CONS 1 1, Cell.CONS 5 6,
      Cell.CONS 4 2, Cell.CONS 1 1, Cell.CONS 8 9, Cell.CONS 10 None, Cell.CONS 7 11]) 12 "b"
      False_ :=
  ⟨⟨3, by decide⟩,
   (env_find_scan (main_heap ++ [Cell.SYMBOL "b", Cell.CONS 4 3, Cell.CONS 1 1, Cell.CONS 5 6,
      Cell.CONS 4 2, Cell.CONS 1 1, Cell.CONS 8 9, Cell.CONS 10 None])
      11 7 "b" (by decide)).2.2 False_ ⟨2, by decide⟩ (by decide)⟩

/-- C6. Find after insert: for a tree `t` obtained from the empty sentinel by calls of
`btbl_insert` (`Built h t ks`, `ks` the keys inserted so far), a `SYMBOL` cell `k` whose string
`s` is the key of no node of `t`, and any value pointer `v` (the empty sentinel included), with
enough fuel `btbl_insert(t, k, v)` returns a tree in which `btbl_find` for `s` returns `v`. -/
theorem btbl_find_after_insert {h : Heap} {t : Nat} {ks : List String} {k : Nat} {s : String}
    (v : Nat) (hb : Built h t ks) (hk : h[k]? = some (Cell.SYMBOL s)) (hs : s ∉ ks) :
    ∃ N, ∀ n, N ≤ n → ∃ t' h', btbl_insert n h t k v = some (t', h') ∧
      btbl_find n h' t' s = some v := by
  obtain ⟨bt, hroot, hrep, hnd, hhit, -⟩ := hb.rep
  refine ⟨bt.depth + 2, fun n hn => ?_⟩
  obtain ⟨h', hins, hrep', -, -⟩ := btbl_insert_rep (v := v) hk bt n hrep hnd (by omega)
  refine ⟨_, h', hroot ▸ hins, ?_⟩
  have hd := BT.depth_ins h.length k s v bt
  rw [btbl_find_rep _ n s hrep' (by omega),
    BT.find_ins_new _ _ _ _ _ (fun hh => hs ((hhit s).1 hh))]

/-- Instance of C6: in the heap of `main` extended by the symbols `b` and `a`, the tree holding
`b` receives the new key `a` bound to `True`. -/
theorem btbl_find_after_insert_witness :
    ∃ N, ∀ n, N ≤ n → ∃ t' h',
      btbl_insert n (main_heap ++ [Cell.SYMBOL "b", Cell.SYMBOL "a", Cell.CONS 4 3,
        Cell.CONS 1 1, Cell.CONS 6 7]) 8 5 True_ = some (t', h') ∧
      btbl_find n h' t' "a" = some True_ :=
  btbl_find_after_insert True_
    (Built.insert (n := 1) (k := 4) (v := 3) (s := "b")
      (Built.empty (main_heap ++ [Cell.SYMBOL "b", Cell.SYMBOL "a"])) (by decide) (by decide))
    (by decide) (by decide)

/-- C7. Re-inserting an existing key does not replace it: for a tree `t` built by inserts that
already holds the key `s` (`s ∈ ks`), with enough fuel `btbl_find` for `s` returns the same value
`v0` before and after `btbl_insert(t, k, v1)` with a key cell `k` of string `s`.  Hence in any
environment whose innermost frame is `t` (chain cell `a`, parent frames `fs`, all cells
distinct), `env_find` for `s` returns the same value before and after `env_insert`, that is,
after a second `define` of the name in that frame. -/
theorem btbl_reinsert_keeps_first {h : Heap} {t : Nat} {ks : List String} {k : Nat} {s : String}
    (v1 : Nat) (hb : Built h t ks) (hk : h[k]? = some (Cell.SYMBOL s)) (hs : s ∈ ks) :
    (∃ N v0, ∀ n, N ≤ n → btbl_find n h t s = some v0 ∧
      ∃ t' h', btbl_insert n h t k v1 = some (t', h') ∧ btbl_find n h' t' s = some v0) ∧
    (∀ (a : Nat) (bt : BT) (fs : List (Nat × BT)), bt.root = t → EnvRep h ((a, bt) :: fs) →
      (envCells ((a, bt) :: fs)).Nodup →
      ∃ N r, ∀ n, N ≤ n → env_find n h a s = some r ∧
        ∃ h', env_insert n h a k v1 = some h' ∧ env_find n h' a s = some r) := by
  obtain ⟨bt, hroot, hrep, hnd, hhit, -⟩ := hb.rep
  have hd := BT.depth_ins h.length k s v1 bt
  constructor
  · refine ⟨bt.depth + 2, bt.find s, fun n hn => ?_⟩
    obtain ⟨h', hins, hrep', -, -⟩ := btbl_insert_rep (v := v1) hk bt n hrep hnd (by omega)
    refine ⟨hroot ▸ btbl_find_rep bt n s hrep (by omega), _, h', hroot ▸ hins, ?_⟩
    rw [btbl_find_rep _ n s hrep' (by omega), BT.find_ins_hit _ _ _ _ _ ((hhit s).2 hs)]
  · intro a bt' fs hroot' henv hnd'
    have e : bt' = bt := Rep.unique henv.2.2.1 hrep (hroot'.trans hroot.symm)
    subst e
    refine ⟨envFuel ((a, bt') :: fs) + 2, envLookup ((a, bt') :: fs) s, fun n hn => ?_⟩
    have hfuel : envFuel ((a, bt') :: fs) = max (bt'.depth + 1) (envFuel fs) + 1 := rfl
    obtain ⟨h', hins, henv'⟩ := env_insert_hit v1 hk henv hnd' ((hhit s).2 hs) n (by omega)
    refine ⟨?_, h', hins, ?_⟩
    · exact env_find_rep s ((a, bt') :: fs) n henv (by omega)
    · have := env_find_rep s ((a, BT.ins h.length k s v1 bt') :: fs) n henv'
        (by simp only [envFuel]; omega)
      rw [envNext_cons] at this
      rw [this]
      simp only [envLookup, BT.find_ins_hit _ _ _ _ _ ((hhit s).2 hs)]

set_option maxRecDepth 1000000 in
/-- C8 (the code departs from the claim). The environment pushed when a closure without
parameters is applied has the empty tree `None` as innermost frame.  On the heap of the global
environment followed by the cells `85 = SYMBOL y`, `86 = NUM 5` and the chain cell
`87 = PUSH_ENV(global_env, None)`, `env_insert(87, y, 86)` builds the node for `y` but drops the
tree returned by `btbl_insert`: the frame of `87` is still `None` and `env_find(87, y)` returns
the not-found sentinel, not the value `86`.  The same on a whole program: evaluating
`((lambda () (begin (define y 5) y)))` returns `None`. -/
theorem env_insert_empty_frame_lost :
    (PUSH_ENV (global_heap ++ [Cell.SYMBOL "y", Cell.NUM 5]) global_env None =
      (87, global_heap ++ [Cell.SYMBOL "y", Cell.NUM 5, Cell.CONS None global_env])) ∧
    btbl_find 12 (global_heap ++ [Cell.SYMBOL "y", Cell.NUM 5, Cell.CONS None global_env])
      None "y" = some None ∧
    env_insert 12 (global_heap ++ [Cell.SYMBOL "y", Cell.NUM 5, Cell.CONS None global_env])
      87 85 86 =
      some (global_heap ++ [Cell.SYMBOL "y", Cell.NUM 5, Cell.CONS None global_env,
        Cell.CONS 85 86, Cell.CONS None None, Cell.CONS 88 89]) ∧
    env_find 12 (global_heap ++ [Cell.SYMBOL "y", Cell.NUM 5, Cell.CONS None global_env,
        Cell.CONS 85 86, Cell.CONS None None, Cell.CONS 88 89]) 87 "y" = some None ∧
    86 ≠ None ∧
    (eval 20 (global_heap ++ [Cell.SYMBOL "lambda", Cell.CONS 85 87, Cell.CONS 1 99,
        Cell.SYMBOL "begin", Cell.CONS 88 96, Cell.SYMBOL "define", Cell.CONS 90 93,
        Cell.SYMBOL "y", Cell.CONS 92 95, Cell.NUM 5, Cell.CONS 94 1, Cell.CONS 91 98,
        Cell.SYMBOL "y", Cell.CONS 97 1, Cell.CONS 89 1, Cell.CONS 86 1]) 100 global_env).map
      Prod.fst = some None := by
  refine ⟨by decide, by decide, by decide, by decide, by decide, by decide⟩

set_option maxRecDepth 1000000 in
/-- C9 (the code departs from the claim). In the initial global environment `y` is unbound
(`env_find` returns `None`) and the number `5` evaluates without side effect, yet evaluating
`(set! y 5)` (laid out by the parser at `86`) stores through the pointer returned by
`env_find`, which is `None` itself: the result is `None`, and afterwards the cell of the empty
sentinel is the number `5`, no longer the pair whose head and tail are itself. -/
theorem set_unbound_overwrites_None :
    env_find 12 (global_heap ++ [Cell.SYMBOL "set!", Cell.CONS 85 88, Cell.SYMBOL "y",
      Cell.CONS 87 90, Cell.NUM 5, Cell.CONS 89 1]) global_env "y" = some None ∧
    eval 12 (global_heap ++ [Cell.SYMBOL "set!", Cell.CONS 85 88, Cell.SYMBOL "y",
      Cell.CONS 87 90, Cell.NUM 5, Cell.CONS 89 1]) 89 global_env =
      some (89, global_heap ++ [Cell.SYMBOL "set!", Cell.CONS 85 88, Cell.SYMBOL "y",
        Cell.CONS 87 90, Cell.NUM 5, Cell.CONS 89 1]) ∧
    eval 12 (global_heap ++ [Cell.SYMBOL "set!", Cell.CONS 85 88, Cell.SYMBOL "y",
      Cell.CONS 87 90, Cell.NUM 5, Cell.CONS 89 1]) 86 global_env =
      some (None, (global_heap ++ [Cell.SYMBOL "set!", Cell.CONS 85 88, Cell.SYMBOL "y",
        Cell.CONS 87 90, Cell.NUM 5, Cell.CONS 89 1]).set None (Cell.NUM 5)) ∧
    ((global_heap ++ [Cell.SYMBOL "set!", Cell.CONS 85 88, Cell.SYMBOL "y",
        Cell.CONS 87 90, Cell.NUM 5, Cell.CONS 89 1]).set None (Cell.NUM 5))[None]? =
      some (Cell.NUM 5) ∧
    global_heap[None]? = some (Cell.CONS None None) := by
  refine ⟨by decide, by decide, by decide, by decide, by decide⟩

set_option maxRecDepth 1000000 in
/-- C10 (the code departs from the claim). `bind_params` takes an argument whose value is the
empty sentinel for the end of the argument list.  When `((lambda (p q) q) (quote ()) 5)` is
evaluated in the initial global environment, `apply` calls `bind_params` with the parameters
`88 = (p q)` and the values `104 = (None 99)`, `99` being the cell of `5`: the frame returned
is the empty tree, in which `q` is not found, and the program returns `None`.  A builtin is
handed the same list of values by position: `(cons (quote ()) 5)` returns the new pair `95` of
`None` and the cell `91` of `5`, and `(begin (quote ()) 5)` returns the cell `91` of `5`. -/
theorem bind_params_stops_at_None :
    ListAt (global_heap ++ [Cell.SYMBOL "lambda", Cell.CONS 85 91, Cell.SYMBOL "p",
      Cell.CONS 87 90, Cell.SYMBOL "q", Cell.CONS 89 1, Cell.CONS 88 93, Cell.SYMBOL "q",
      Cell.CONS 92 1, Cell.CONS 86 98, Cell.SYMBOL "quote", Cell.CONS 95 97, Cell.CONS 1 1,
      Cell.CONS 96 100, Cell.NUM 5, Cell.CONS 99 1, Cell.CONS 92 84, Cell.LAMBDA 88 101,
      Cell.CONS 99 1, Cell.CONS 1 103]) 104 [None, 99] ∧
    (99 : Nat) ≠ None ∧
    (∀ n, bind_params (n + 1) (global_heap ++ [Cell.SYMBOL "lambda", Cell.CONS 85 91,
      Cell.SYMBOL "p", Cell.CONS 87 90, Cell.SYMBOL "q", Cell.CONS 89 1, Cell.CONS 88 93,
      Cell.SYMBOL "q", Cell.CONS 92 1, Cell.CONS 86 98, Cell.SYMBOL "quote", Cell.CONS 95 97,
      Cell.CONS 1 1, Cell.CONS 96 100, Cell.NUM 5, Cell.CONS 99 1, Cell.CONS 92 84,
      Cell.LAMBDA 88 101, Cell.CONS 99 1, Cell.CONS 1 103]) 88 104 =
      some (None, global_heap ++ [Cell.SYMBOL "lambda", Cell.CONS 85 91,
      Cell.SYMBOL "p", Cell.CONS 87 90, Cell.SYMBOL "q", Cell.CONS 89 1, Cell.CONS 88 93,
      Cell.SYMBOL "q", Cell.CONS 92 1, Cell.CONS 86 98, Cell.SYMBOL "quote", Cell.CONS 95 97,
      Cell.CONS 1 1, Cell.CONS 96 100, Cell.NUM 5, Cell.CONS 99 1, Cell.CONS 92 84,
      Cell.LAMBDA 88 101, Cell.CONS 99 1, Cell.CONS 1 103])) ∧
    (∀ (n : Nat) (h : Heap), btbl_find (n + 1) h None "q" = some None) ∧
    (eval 20 (global_heap ++ [Cell.SYMBOL "lambda", Cell.CONS 85 91, Cell.SYMBOL "p",
      Cell.CONS 87 90, Cell.SYMBOL "q", Cell.CONS 89 1, Cell.CONS 88 93, Cell.SYMBOL "q",
      Cell.CONS 92 1, Cell.CONS 86 98, Cell.SYMBOL "quote", Cell.CONS 95 97, Cell.CONS 1 1,
      Cell.CONS 96 100, Cell.NUM 5, Cell.CONS 99 1]) 94 global_env).map Prod.fst =
      some None ∧
    eval 20 (global_heap ++ [Cell.SYMBOL "cons", Cell.CONS 85 90, Cell.SYMBOL "quote",
      Cell.CONS 87 89, Cell.CONS 1 1, Cell.CONS 88 92, Cell.NUM 5, Cell.CONS 91 1]) 86
      global_env =
      some (95, global_heap ++ [Cell.SYMBOL "cons", Cell.CONS 85 90, Cell.SYMBOL "quote",
      Cell.CONS 87 89, Cell.CONS 1 1, Cell.CONS 88 92, Cell.NUM 5, Cell.CONS 91 1,
      Cell.CONS 91 1, Cell.CONS 1 93, Cell.CONS 1 91]) ∧
    (eval 20 (global_heap ++ [Cell.SYMBOL "begin", Cell.CONS 85 90, Cell.SYMBOL "quote",
      Cell.CONS 87 89, Cell.CONS 1 1, Cell.CONS 88 92, Cell.NUM 5, Cell.CONS 91 1]) 86
      global_env).map Prod.fst = some 91 := by
  refine ⟨⟨103, by decide, 1, by decide, rfl⟩, by decide, fun n => ?_, fun n h => ?_, by decide,
    by decide, by decide⟩
  · simp only [bind_params]
    rw [show car _ 104 = some None from by decide]
    simp
  · simp [btbl_find]

/-- Binding by position when no argument value is the empty sentinel: for parameter cells
`ps` that are `SYMBOL`s with pairwise distinct names and as many values `vs`, none of them
`None`, both held as proper lists (and `None` being the pair of itself), with enough fuel
`bind_params` returns a frame in which `btbl_find` for the name of the `i`-th parameter returns
the `i`-th value. -/
theorem bind_params_by_position (h : Heap) (params args : Nat) (ps : List (Nat × String))
    (vs : List Nat) (hN : h[None]? = some (Cell.CONS None None))
    (hps : ListAt h params (ps.map Prod.fst))
    (hsym : ∀ p ∈ ps, h[p.1]? = some (Cell.SYMBOL p.2)) (hnd : (ps.map Prod.snd).Nodup)
    (hvs : ListAt h args vs) (hne : ∀ v ∈ vs, v ≠ None) (hlen : ps.length = vs.length) :
    ∃ N, ∀ n, N ≤ n → ∃ fr h', bind_params n h params args = some (fr, h') ∧
      ∀ (i : Nat) (p : Nat × String) (v : Nat), ps[i]? = some p → vs[i]? = some v →
        btbl_find n h' fr p.2 = some v := by
  obtain ⟨bt, h', hbp, hrep, -, -, -, -, hdep, -, hfind⟩ :=
    bind_params_rep hN ps vs params args hps hsym hnd hvs hne hlen
  refine ⟨ps.length + 1, fun n hn => ⟨bt.root, h', hbp n hn, fun i p v hp hv => ?_⟩⟩
  rw [btbl_find_rep bt n p.2 hrep (by omega), hfind i p v hp hv]

set_option maxRecDepth 1000000 in
/-- The parameters `(p q)` bound by position to the values `True` and `5`. -/
theorem bind_params_by_position_witness :
    ∃ N, ∀ n, N ≤ n → ∃ fr h', bind_params n (global_heap ++ [Cell.SYMBOL "p", Cell.CONS 85 88,
        Cell.SYMBOL "q", Cell.CONS 87 1, Cell.NUM 5, Cell.CONS 89 1, Cell.CONS 2 90])
        86 91 = some (fr, h') ∧
      ∀ (i : Nat) (p : Nat × String) (v : Nat), [(85, "p"), (87, "q")][i]? = some p →
        [True_, 89][i]? = some v → btbl_find n h' fr p.2 = some v :=
  bind_params_by_position (global_heap ++ [Cell.SYMBOL "p", Cell.CONS 85 88,
      Cell.SYMBOL "q", Cell.CONS 87 1, Cell.NUM 5, Cell.CONS 89 1, Cell.CONS 2 90]) 86 91
    [(85, "p"), (87, "q")] [True_, 89] (by decide) ⟨88, by decide, 1, by decide, rfl⟩
    (by decide) (by decide) ⟨90, by decide, 1, by decide, rfl⟩ (by decide) rfl

/-- C1. Lexical scoping. Evaluating `(lambda ps b)` in `E1` gives a closure cell
`(ps . (b . E1))`.  For such a closure `f` in the heap `h` and every argument list `as`:
`apply` returns the value of `b` in `PUSH_ENV(E1, bind_params(ps, as))`; so does the evaluation
of a call expression in any environment `E2` whose head evaluates to `f` and whose operands
evaluate to `as` (`E2` is only used for the head and the operands); and when `b` is a variable
`s` that the frame of the parameters does not bind, the result is what `env_find` returns for
`s` in `E1`, whatever any other environment binds `s` to. -/
theorem closure_lexical_scope (h : Heap) (f ps d b E1 : Nat) (hN : None < h.length)
    (hf0 : f ≠ None) (hf : h[f]? = some (Cell.LAMBDA ps d))
    (hd : h[d]? = some (Cell.CONS b E1)) :
    (∀ (h0 : Heap) (exp kw c1 c2 c3 x y n : Nat), exp ≠ NULL →
      h0[exp]? = some (Cell.CONS kw c1) → h0[kw]? = some (Cell.SYMBOL "lambda") →
      h0[c1]? = some (Cell.CONS ps c2) → h0[ps]? = some (Cell.CONS x y) →
      h0[c2]? = some (Cell.CONS b c3) →
      eval (n + 1) h0 exp E1 =
        some (h0.length + 1, h0 ++ [Cell.CONS b E1] ++ [Cell.LAMBDA ps h0.length])) ∧
    (∀ as n, apply (n + 1) h f as = (bind_params n h ps as).bind fun r =>
      eval n (PUSH_ENV r.2 E1 r.1).2 b (PUSH_ENV r.2 E1 r.1).1) ∧
    (∀ (E2 exp fe args as : Nat) (c : Cell) (h0 h1 : Heap) (n : Nat), exp ≠ NULL →
      h0[exp]? = some (Cell.CONS fe args) → h0[fe]? = some c → c ≠ Cell.unmapped →
      (∀ s, c = Cell.SYMBOL s → s ∉ keywords) → fe ≠ None →
      eval (n + 1) h0 fe E2 = some (f, h1) → h1[exp]? = some (Cell.CONS fe args) →
      list_of_values (n + 1) h1 args E2 = some (as, h) →
      eval (n + 2) h0 exp E2 = (bind_params n h ps as).bind fun r =>
        eval n (PUSH_ENV r.2 E1 r.1).2 b (PUSH_ENV r.2 E1 r.1).1) ∧
    (∀ (s : String) (as fr : Nat) (h3 : Heap) (n : Nat), h[b]? = some (Cell.SYMBOL s) →
      b ≠ NULL → bind_params (n + 2) h ps as = some (fr, h3) →
      btbl_find n (PUSH_ENV h3 E1 fr).2 fr s = some None →
      apply (n + 3) h f as = (env_find n (PUSH_ENV h3 E1 fr).2 E1 s).map fun r =>
        (r, (PUSH_ENV h3 E1 fr).2)) := by
  refine ⟨?_, apply_closure hN hf0 hf hd, ?_, ?_⟩
  · intro h0 exp kw c1 c2 c3 x y n he0 he hkw hc1 hps hc2
    exact eval_lambda_form E1 he0 he hkw hc1 hps hc2 n
  · intro E2 exp fe args as c h0 h1 n he0 he hfe hc hkw hfeN hev he1 hlov
    rw [eval_call_form E2 he0 he hfe hc hkw hfeN, hev]
    simp only [Option.some_bind, if_neg hf0, cdr_of he1, hlov]
    exact apply_closure hN hf0 hf hd as n
  · intro s as fr h3 n hb hb0 hbp hfind
    obtain ⟨⟨-, hL, -, -⟩, -, hfr⟩ := bind_params_frame _ h ps as fr h3 hN hbp
    rw [apply_closure hN hf0 hf hd, hbp]
    simp only [Option.some_bind]
    have hb3 : (PUSH_ENV h3 E1 fr).2[b]? = some (Cell.SYMBOL s) := by
      simp only [PUSH_ENV, cons, alloc]
      exact get_append (by rw [hfr b (get_lt hb)]; exact hb)
    have hne : (PUSH_ENV h3 E1 fr).1 ≠ None := by
      simp only [PUSH_ENV, cons, alloc]; omega
    have hcell : (PUSH_ENV h3 E1 fr).2[(PUSH_ENV h3 E1 fr).1]? = some (Cell.CONS fr E1) := by
      simp [PUSH_ENV, cons, alloc]
    rw [eval.eq_2, if_neg hb0, deref_of hb3 (by simp)]
    simp only [env_find, if_neg hne, car_of hcell, cdr_of hcell, Option.some_bind, hfind,
      ne_eq, not_true_eq_false, if_false]

set_option maxRecDepth 1000000 in
/-- Instance of C1: in `scope_heap` the closure `f = (lambda () x)` was made in the global
environment, where `x` is `1`; applied to no argument it returns what `env_find` gives for `x`
in the global environment.  Called from the body of `g`, whose frame binds `x` to `2`, it still
returns the cell of `1`: the evaluation of `(g 2)` returns the cell `89`, which holds `1`. -/
theorem closure_lexical_scope_witness :
    apply 13 scope_heap 105 None =
      (env_find 10 (PUSH_ENV scope_heap global_env None).2 global_env "x").map
        (fun r => (r, (PUSH_ENV scope_heap global_env None).2)) ∧
    env_find 10 (PUSH_ENV scope_heap global_env None).2 global_env "x" = some 89 ∧
    (eval 20 scope_heap 128 global_env).map Prod.fst = some 89 ∧
    ((eval 20 scope_heap 128 global_env).bind fun r => r.2[89]?) = some (Cell.NUM 1) :=
  ⟨(closure_lexical_scope scope_heap 105 None 104 101 global_env (by decide) (by decide)
      (by decide) (by decide)).2.2.2 "x" None None scope_heap 10 (by decide) (by decide)
      (by decide) (by decide),
    by decide, by decide, by decide⟩

/-- Instance of C7: the frame holding `b ↦ False` (node `8`), innermost frame of the
environment `9`, receives `b` a second time, now bound to `True`. -/
theorem btbl_reinsert_keeps_first_witness :
    (∃ N v0, ∀ n, N ≤ n →
      btbl_find n (main_heap ++ [Cell.SYMBOL "b", Cell.SYMBOL "b", Cell.CONS 4 3,
        Cell.CONS 1 1, Cell.CONS 6 7] ++ [Cell.CONS 8 1]) 8 "b" = some v0 ∧
      ∃ t' h', btbl_insert n (main_heap ++ [Cell.SYMBOL "b", Cell.SYMBOL "b", Cell.CONS 4 3,
        Cell.CONS 1 1, Cell.CONS 6 7] ++ [Cell.CONS 8 1]) 8 5 True_ = some (t', h') ∧
        btbl_find n h' t' "b" = some v0) ∧
    (∃ N r, ∀ n, N ≤ n →
      env_find n (main_heap ++ [Cell.SYMBOL "b", Cell.SYMBOL "b", Cell.CONS 4 3,
        Cell.CONS 1 1, Cell.CONS 6 7] ++ [Cell.CONS 8 1]) 9 "b" = some r ∧
      ∃ h', env_insert n (main_heap ++ [Cell.SYMBOL "b", Cell.SYMBOL "b", Cell.CONS 4 3,
        Cell.CONS 1 1, Cell.CONS 6 7] ++ [Cell.CONS 8 1]) 9 5 True_ = some h' ∧
        env_find n h' 9 "b" = some r) := by
  have hb : Built (main_heap ++ [Cell.SYMBOL "b", Cell.SYMBOL "b", Cell.CONS 4 3,
      Cell.CONS 1 1, Cell.CONS 6 7] ++ [Cell.CONS 8 1]) 8 ["b"] :=
    Built.alloc _ (Built.insert (n := 1) (k := 4) (v := 3) (s := "b")
      (Built.empty (main_heap ++ [Cell.SYMBOL "b", Cell.SYMBOL "b"])) (by decide) (by decide))
  have hthm := btbl_reinsert_keeps_first True_ hb (k := 5) (s := "b") (by decide) (by decide)
  exact ⟨hthm.1, hthm.2 9 (BT.node 8 6 7 4 "b" 3 BT.leaf BT.leaf) [] rfl
    ⟨by decide, by decide,
      ⟨by decide, by decide, by decide, by decide, by decide, by decide, trivial, trivial⟩,
      trivial⟩ (by decide)⟩

set_option maxRecDepth 1000000 in
/-- C3. `set!` is visible through a closure: for all numbers `a` and `b`, starting from the
initial global environment, the expressions `(define x a)`, `(define f (lambda () x))`,
`(set! x b)`, `(f)` and `x` are read and evaluated one after the other (each laid out by the
parser at the end of the heap left by the previous evaluation); every evaluation returns, and
`(f)` and `x` both return a `NUM` cell holding `b`. -/
theorem set_visible_through_closure (a b : Rat) :
    ∃ h1 h2 h3 h4 h5 r3 r4 r5,
      Evals (global_heap ++ [Cell.SYMBOL "define", Cell.CONS 85 88, Cell.SYMBOL "x",
        Cell.CONS 87 90, Cell.NUM a, Cell.CONS 89 1]) 86 global_env 87 h1 ∧
      Evals (h1 ++ [Cell.SYMBOL "define", Cell.CONS 94 97, Cell.SYMBOL "f", Cell.CONS 96 103,
        Cell.SYMBOL "lambda", Cell.CONS 98 100, Cell.CONS 1 102, Cell.SYMBOL "x",
        Cell.CONS 101 1, Cell.CONS 99 1]) 95 global_env 96 h2 ∧
      Evals (h2 ++ [Cell.SYMBOL "set!", Cell.CONS 109 112, Cell.SYMBOL "x", Cell.CONS 111 114,
        Cell.NUM b, Cell.CONS 113 1]) 110 global_env r3 h3 ∧
      Evals (h3 ++ [Cell.SYMBOL "f", Cell.CONS 115 1]) 116 global_env r4 h4 ∧
      h4[r4]? = some (Cell.NUM b) ∧
      Evals (h4 ++ [Cell.SYMBOL "x"]) 118 global_env r5 h5 ∧
      h5[r5]? = some (Cell.NUM b) := by
  obtain ⟨hg0, hcl, hhit, hdep⟩ := global_bt_ok
  have hL0 : global_heap.length = 85 := by decide
  -- (define x a)
  have hgA := hg0.append_cells [Cell.SYMBOL "define", Cell.CONS 85 88, Cell.SYMBOL "x",
    Cell.CONS 87 90, Cell.NUM a, Cell.CONS 89 1]
  have cA := fun i c hc => get_extra hL0 [Cell.SYMBOL "define", Cell.CONS 85 88,
    Cell.SYMBOL "x", Cell.CONS 87 90, Cell.NUM a, Cell.CONS 89 1] i (c := c) hc
  have hLA : (global_heap ++ [Cell.SYMBOL "define", Cell.CONS 85 88, Cell.SYMBOL "x",
    Cell.CONS 87 90, Cell.NUM a, Cell.CONS 89 1]).length = 91 := by
    rw [List.length_append, hL0]; rfl
  have n86 : (86 : Nat) ∉ global_bt.cells := fun hx => absurd (hcl _ hx) (by omega)
  have n88 : (88 : Nat) ∉ global_bt.cells := fun hx => absurd (hcl _ hx) (by omega)
  have n89 : (89 : Nat) ∉ global_bt.cells := fun hx => absurd (hcl _ hx) (by omega)
  obtain ⟨h1, e1, hg1, hf1, hL1⟩ := eval_define_global hgA (cA 1 _ rfl) (cA 0 _ rfl)
    (cA 3 _ rfl) (cA 5 _ rfl) (eval_num global_env (cA 4 _ rfl) 16) hgA (cA 2 _ rfl)
    (cA 1 _ rfl) (cA 3 _ rfl) n86 n88 (by omega)
  rw [hLA] at hg1 hf1 hL1
  simp only [Nat.reduceAdd] at e1 hg1 hL1
  have h1_89 : h1[89]? = some (Cell.NUM a) := by
    rw [hf1 89 (by omega) n89]; exact cA 4 _ rfl
  have hd1 : (BT.ins 91 87 "x" 89 global_bt).depth ≤ 17 :=
    le_trans (BT.depth_ins _ _ _ _ _) (by omega)
  have hx0 : ¬ global_bt.hit "x" := by rw [hhit]; decide
  have hfx1 : (BT.ins 91 87 "x" 89 global_bt).find "x" = 89 := BT.find_ins_new _ _ _ _ _ hx0
  have hcl1 : ∀ y ∈ (BT.ins 91 87 "x" 89 global_bt).cells, y < 84 ∨ (91 ≤ y ∧ y < 94) := by
    intro y hy
    rcases (BT.mem_cells_ins _ _ _ _ _ _).1 hy with hy | hy | hy | hy
    · exact Or.inl (hcl _ hy)
    · omega
    · omega
    · omega
  -- (define f (lambda () x))
  have hgB := hg1.append_cells [Cell.SYMBOL "define", Cell.CONS 94 97, Cell.SYMBOL "f",
    Cell.CONS 96 103, Cell.SYMBOL "lambda", Cell.CONS 98 100, Cell.CONS 1 102, Cell.SYMBOL "x",
    Cell.CONS 101 1, Cell.CONS 99 1]
  have cB := fun i c hc => get_extra hL1 [Cell.SYMBOL "define", Cell.CONS 94 97,
    Cell.SYMBOL "f", Cell.CONS 96 103, Cell.SYMBOL "lambda", Cell.CONS 98 100, Cell.CONS 1 102,
    Cell.SYMBOL "x", Cell.CONS 101 1, Cell.CONS 99 1] i (c := c) hc
  have hLB : (h1 ++ [Cell.SYMBOL "define", Cell.CONS 94 97, Cell.SYMBOL "f",
    Cell.CONS 96 103, Cell.SYMBOL "lambda", Cell.CONS 98 100, Cell.CONS 1 102, Cell.SYMBOL "x",
    Cell.CONS 101 1, Cell.CONS 99 1]).length = 104 := by
    rw [List.length_append, hL1]; rfl
  have hlam := eval_lambda_form global_env (by decide : (99 : Nat) ≠ NULL) (cB 5 _ rfl)
    (cB 4 _ rfl) (cB 6 _ rfl) (hgB.2.2.2.2.1) (cB 8 _ rfl) 17
  rw [hLB, List.append_assoc] at hlam
  simp only [Nat.reduceAdd] at hlam
  have hgB2 := hgB.append_cells ([Cell.CONS 101 global_env] ++ [Cell.LAMBDA 1 104])
  have hLB2 : (h1 ++ [Cell.SYMBOL "define", Cell.CONS 94 97, Cell.SYMBOL "f",
    Cell.CONS 96 103, Cell.SYMBOL "lambda", Cell.CONS 98 100, Cell.CONS 1 102, Cell.SYMBOL "x",
    Cell.CONS 101 1, Cell.CONS 99 1] ++ ([Cell.CONS 101 global_env] ++
    [Cell.LAMBDA 1 104])).length = 106 := by
    rw [List.length_append, hLB]; rfl
  have cB2 := fun i c hc => get_extra hLB ([Cell.CONS 101 global_env] ++ [Cell.LAMBDA 1 104])
    i (c := c) hc
  have m95 : (95 : Nat) ∉ (BT.ins 91 87 "x" 89 global_bt).cells := fun hx => by
    have := hcl1 _ hx; omega
  have m97 : (97 : Nat) ∉ (BT.ins 91 87 "x" 89 global_bt).cells := fun hx => by
    have := hcl1 _ hx; omega
  have m89 : (89 : Nat) ∉ (BT.ins 91 87 "x" 89 global_bt).cells := fun hx => by
    have := hcl1 _ hx; omega
  have m101 : (101 : Nat) ∉ (BT.ins 91 87 "x" 89 global_bt).cells := fun hx => by
    have := hcl1 _ hx; omega
  have m104 : (104 : Nat) ∉ (BT.ins 91 87 "x" 89 global_bt).cells := fun hx => by
    have := hcl1 _ hx; omega
  have m105 : (105 : Nat) ∉ (BT.ins 91 87 "x" 89 global_bt).cells := fun hx => by
    have := hcl1 _ hx; omega
  obtain ⟨h2, e2, hg2, hf2, hL2⟩ := eval_define_global hgB (cB 1 _ rfl) (cB 0 _ rfl)
    (cB 3 _ rfl) (cB 9 _ rfl) hlam hgB2 (get_append (cB 2 _ rfl))
    (get_append (cB 1 _ rfl)) (get_append (cB 3 _ rfl)) m95 m97 (by omega)
  rw [hLB2] at hg2 hf2 hL2
  simp only [Nat.reduceAdd] at e2 hg2 hL2
  have h2_89 : h2[89]? = some (Cell.NUM a) := by
    rw [hf2 89 (by omega) m89]; exact get_append (get_append h1_89)
  have h2_101 : h2[101]? = some (Cell.SYMBOL "x") := by
    rw [hf2 101 (by omega) m101]; exact get_append (cB 7 _ rfl)
  have h2_104 : h2[104]? = some (Cell.CONS 101 global_env) := by
    rw [hf2 104 (by omega) m104]; exact cB2 0 _ rfl
  have h2_105 : h2[105]? = some (Cell.LAMBDA None 104) := by
    rw [hf2 105 (by omega) m105]; exact cB2 1 _ rfl
  have hd2 : (BT.ins 106 96 "f" 105 (BT.ins 91 87 "x" 89 global_bt)).depth ≤ 18 :=
    le_trans (BT.depth_ins _ _ _ _ _) (by omega)
  have hfx2 : (BT.ins 106 96 "f" 105 (BT.ins 91 87 "x" 89 global_bt)).find "x" = 89 := by
    rw [BT.find_ins_ne _ _ _ (by decide)]; exact hfx1
  have hf0 : ¬ (BT.ins 91 87 "x" 89 global_bt).hit "f" := by
    rw [BT.hit_ins]
    have : ¬ global_bt.hit "f" := by rw [hhit]; decide
    simp [this]
  have hff2 : (BT.ins 106 96 "f" 105 (BT.ins 91 87 "x" 89 global_bt)).find "f" = 105 :=
    BT.find_ins_new _ _ _ _ _ hf0
  -- (set! x b)
  have hgC := hg2.append_cells [Cell.SYMBOL "set!", Cell.CONS 109 112, Cell.SYMBOL "x",
    Cell.CONS 111 114, Cell.NUM b, Cell.CONS 113 1]
  have cC := fun i c hc => get_extra hL2 [Cell.SYMBOL "set!", Cell.CONS 109 112,
    Cell.SYMBOL "x", Cell.CONS 111 114, Cell.NUM b, Cell.CONS 113 1] i (c := c) hc
  have hC89 : (h2 ++ [Cell.SYMBOL "set!", Cell.CONS 109 112, Cell.SYMBOL "x",
      Cell.CONS 111 114, Cell.NUM b, Cell.CONS 113 1])[(BT.ins 106 96 "f" 105
      (BT.ins 91 87 "x" 89 global_bt)).find "x"]? = some (Cell.NUM a) := by
    rw [hfx2]; exact get_append h2_89
  have e3 := eval_set_global hgC (cC 1 _ rfl) (cC 0 _ rfl) (cC 3 _ rfl) (cC 2 _ rfl)
    (cC 5 _ rfl) (eval_num global_env (cC 4 _ rfl) 21) (cC 4 _ rfl) (by simp) hC89
    (by omega)
  rw [hfx2] at e3 hC89
  simp only [Nat.reduceAdd] at e3
  have hg3 := hgC.store hC89 (Cell.NUM b)
  have hL3 : ((h2 ++ [Cell.SYMBOL "set!", Cell.CONS 109 112, Cell.SYMBOL "x",
      Cell.CONS 111 114, Cell.NUM b, Cell.CONS 113 1]).set 89 (Cell.NUM b)).length = 115 := by
    rw [List.length_set, List.length_append, hL2]; rfl
  have h3_89 := get_set_eq (Cell.NUM b) (get_lt hC89)
  -- (f)
  have hgD := hg3.append_cells [Cell.SYMBOL "f", Cell.CONS 115 1]
  have cD := fun i c hc => get_extra hL3 [Cell.SYMBOL "f", Cell.CONS 115 1] i (c := c) hc
  have hD : ∀ x c, x ≠ 89 → h2[x]? = some c →
      ((h2 ++ [Cell.SYMBOL "set!", Cell.CONS 109 112, Cell.SYMBOL "x",
      Cell.CONS 111 114, Cell.NUM b, Cell.CONS 113 1]).set 89 (Cell.NUM b) ++
      [Cell.SYMBOL "f", Cell.CONS 115 1])[x]? = some c := by
    intro x c hx hc
    refine get_append ?_
    rw [get_set_ne _ (Ne.symm hx)]
    exact get_append hc
  have e4 := eval_thunk_call_global hgD (cD 1 _ rfl) (cD 0 _ rfl) (by decide)
    (by rw [hff2]; decide) (by rw [hff2]; exact hD _ _ (by omega) h2_105)
    (hD _ _ (by omega) h2_104) (hD _ _ (by omega) h2_101) 25 (by omega)
  rw [hfx2] at e4
  simp only [Nat.reduceAdd] at e4
  have hgE := (hgD.append_cells [Cell.CONS None global_env]).append_cells [Cell.SYMBOL "x"]
  have hLE : ((h2 ++ [Cell.SYMBOL "set!", Cell.CONS 109 112, Cell.SYMBOL "x",
      Cell.CONS 111 114, Cell.NUM b, Cell.CONS 113 1]).set 89 (Cell.NUM b) ++
      [Cell.SYMBOL "f", Cell.CONS 115 1] ++ [Cell.CONS None global_env]).length = 118 := by
    rw [List.length_append, List.length_append, hL3]; rfl
  have e5 := eval_symbol_global hgE (get_extra hLE [Cell.SYMBOL "x"] 0 rfl) 22 (by omega)
  rw [hfx2] at e5
  exact ⟨h1, h2, _, _, _, 89, 89, 89, ⟨_, e1⟩, ⟨_, e2⟩, ⟨_, e3⟩, ⟨_, e4⟩,
    get_append (get_append h3_89), ⟨_, e5⟩, get_append (get_append (get_append h3_89))⟩

/-- C11. Pair builtins: the functions bound to `cons`, `car`, `cdr`, `pair?` and `null?` are
`_cons`, `_car`, `_cdr`, `pairq` and `nullq`.  For an argument list `(a b)` at `args`, `_cons`
returns a new cell `p`; on every heap that holds this cell and a list `(p ...)` at `l`, `_car`
returns `a`, `_cdr` returns `b` and `pairq` returns `True`, the heap being left as it is.
On a list `(v ...)` `nullq` returns `True` when `v` is `None` and `False` otherwise. -/
theorem pair_builtins (n : Nat) (h : Heap) (args a t b t' : Nat)
    (hargs : h[args]? = some (Cell.CONS a t)) (ht : h[t]? = some (Cell.CONS b t')) :
    (builtins_tbl.lookup "cons" = some Fn._cons ∧ builtins_tbl.lookup "car" = some Fn._car ∧
      builtins_tbl.lookup "cdr" = some Fn._cdr ∧ builtins_tbl.lookup "pair?" = some Fn.pairq ∧
      builtins_tbl.lookup "null?" = some Fn.nullq) ∧
    (∃ p h1, call_fn n h Fn._cons args = some (p, h1) ∧
      ∀ (h2 : Heap) (l t2 : Nat), h2[l]? = some (Cell.CONS p t2) → h2[p]? = h1[p]? →
        call_fn n h2 Fn._car l = some (a, h2) ∧ call_fn n h2 Fn._cdr l = some (b, h2) ∧
        call_fn n h2 Fn.pairq l = some (True_, h2)) ∧
    (∀ (h2 : Heap) (l v t2 : Nat), h2[l]? = some (Cell.CONS v t2) →
      call_fn n h2 Fn.nullq l = some (if v = None then True_ else False_, h2)) := by
  refine ⟨by decide, ⟨h.length, h ++ [Cell.CONS a b], ?_, ?_⟩, ?_⟩
  · simp [call_fn, cadr, car_of hargs, cdr_of hargs, car_of ht, cons, alloc]
  · intro h2 l t2 hl hp
    have hp' : h2[h.length]? = some (Cell.CONS a b) := by
      rw [hp]; simp
    simp [call_fn, caar, cdar, car_of hl, car_of hp', cdr_of hp', IS_CONS,
      deref_of hp' (by simp)]
  · intro h2 l v t2 hl
    simp [call_fn, car_of hl]

set_option maxRecDepth 1000000 in
/-- Instance of C11: the argument list `(1 2)`, and `(car (cons 1 2))` read in the initial global
environment evaluates to the cell of `1`. -/
theorem pair_builtins_witness :
    (call_fn 0 (main_heap ++ [Cell.NUM 1, Cell.NUM 2, Cell.CONS 5 1, Cell.CONS 4 6,
        Cell.CONS 4 5, Cell.CONS 8 1]) Fn._car 9 =
      some (4, main_heap ++ [Cell.NUM 1, Cell.NUM 2, Cell.CONS 5 1, Cell.CONS 4 6,
        Cell.CONS 4 5, Cell.CONS 8 1])) ∧
    Evals (global_heap ++ [Cell.SYMBOL "car", Cell.CONS 85 93, Cell.SYMBOL "cons",
        Cell.CONS 87 90, Cell.NUM 1, Cell.CONS 89 92, Cell.NUM 2, Cell.CONS 91 1,
        Cell.CONS 88 1]) 86 global_env 89
      (global_heap ++ [Cell.SYMBOL "car", Cell.CONS 85 93, Cell.SYMBOL "cons",
        Cell.CONS 87 90, Cell.NUM 1, Cell.CONS 89 92, Cell.NUM 2, Cell.CONS 91 1,
        Cell.CONS 88 1, Cell.CONS 91 1, Cell.CONS 89 94, Cell.CONS 89 91, Cell.CONS 96 1]) := by
  obtain ⟨-, ⟨p, h1, hc, hall⟩, -⟩ := pair_builtins 0 (main_heap ++ [Cell.NUM 1, Cell.NUM 2,
    Cell.CONS 5 1, Cell.CONS 4 6]) 7 4 6 5 1 (by decide) (by decide)
  have hp : (p, h1) = (8, main_heap ++ [Cell.NUM 1, Cell.NUM 2, Cell.CONS 5 1, Cell.CONS 4 6,
      Cell.CONS 4 5]) := by
    have hc' : call_fn 0 (main_heap ++ [Cell.NUM 1, Cell.NUM 2, Cell.CONS 5 1, Cell.CONS 4 6])
        Fn._cons 7 = some (8, main_heap ++ [Cell.NUM 1, Cell.NUM 2, Cell.CONS 5 1,
        Cell.CONS 4 6, Cell.CONS 4 5]) := by decide
    rw [hc'] at hc
    injection hc with hc
    exact hc.symm
  injection hp with hp1 hp2
  subst hp1 hp2
  exact ⟨(hall _ 9 1 (by decide) (by decide)).1, ⟨20, by decide⟩⟩

/-- C19. The `/` builtin never divides: `div_` and `mul_` are the same function and `/` is
bound to `f_div`; on a proper list of `NUM` cells `f_div` returns a new `NUM` cell holding the
product of the numbers, `1` for the empty list. -/
theorem f_div_multiplies :
    builtins_tbl.lookup "/" = some Fn.f_div ∧
    (∀ (n : Nat) (h : Heap) (l : Nat), div_ n h l = mul_ n h l) ∧
    ∀ (h : Heap) (xs : List (Nat × Rat)) (l n : Nat), h[None]? = some (Cell.CONS None None) →
      ListAt h l (xs.map Prod.fst) → (∀ p ∈ xs, h[p.1]? = some (Cell.NUM p.2)) →
      xs.length < n →
      call_fn n h Fn.f_div l = some (h.length, h ++ [Cell.NUM (xs.map Prod.snd).prod]) ∧
      call_fn n h Fn.mul l = some (h.length, h ++ [Cell.NUM (xs.map Prod.snd).prod]) := by
  refine ⟨by decide, div_eq_mul, ?_⟩
  intro h xs l n hN hl hx hn
  have hm := mul_list hN xs l n hl hx hn
  simp [call_fn, div_eq_mul, hm, make_num, alloc]

set_option maxRecDepth 1000000 in
/-- Instance of C19: on the list `(2 3 4)` the function `f_div` returns a cell holding `24`. -/
theorem f_div_multiplies_witness :
    call_fn 4 (main_heap ++ [Cell.NUM 2, Cell.NUM 3, Cell.NUM 4, Cell.CONS 6 1, Cell.CONS 5 7,
      Cell.CONS 4 8]) Fn.f_div 9 =
    some (10, main_heap ++ [Cell.NUM 2, Cell.NUM 3, Cell.NUM 4, Cell.CONS 6 1, Cell.CONS 5 7,
      Cell.CONS 4 8] ++ [Cell.NUM 24]) := by
  have hv := (f_div_multiplies.2.2 (main_heap ++ [Cell.NUM 2, Cell.NUM 3, Cell.NUM 4,
    Cell.CONS 6 1, Cell.CONS 5 7, Cell.CONS 4 8]) [(4, 2), (5, 3), (6, 4)] 9 4 (by decide)
    ⟨8, by decide, 7, by decide, 1, by decide, rfl⟩
    (by
      intro p hp
      simp only [List.mem_cons, List.mem_singleton, List.not_mem_nil, or_false] at hp
      rcases hp with rfl | rfl | rfl <;> decide)
    (by decide)).1
  rw [hv]
  norm_num [main_heap]

set_option maxRecDepth 1000000 in
/-- C16, as stated, fails: the empty sentinel `None` is not the false value of `if`.  In
`(if (quote ()) 7 8)`, read in the initial global environment, the test `(quote ())` at `88`
evaluates to `None`, and the expression evaluates to the cell `91` of `7`, the then-branch. -/
theorem if_empty_sentinel_takes_then :
    Evals (global_heap ++ [Cell.SYMBOL "if", Cell.CONS 85 90, Cell.SYMBOL "quote",
        Cell.CONS 87 89, Cell.CONS 1 1, Cell.CONS 88 92, Cell.NUM 7, Cell.CONS 91 94,
        Cell.NUM 8, Cell.CONS 93 1]) 88 global_env None
      (global_heap ++ [Cell.SYMBOL "if", Cell.CONS 85 90, Cell.SYMBOL "quote",
        Cell.CONS 87 89, Cell.CONS 1 1, Cell.CONS 88 92, Cell.NUM 7, Cell.CONS 91 94,
        Cell.NUM 8, Cell.CONS 93 1]) ∧
    Evals (global_heap ++ [Cell.SYMBOL "if", Cell.CONS 85 90, Cell.SYMBOL "quote",
        Cell.CONS 87 89, Cell.CONS 1 1, Cell.CONS 88 92, Cell.NUM 7, Cell.CONS 91 94,
        Cell.NUM 8, Cell.CONS 93 1]) 86 global_env 91
      (global_heap ++ [Cell.SYMBOL "if", Cell.CONS 85 90, Cell.SYMBOL "quote",
        Cell.CONS 87 89, Cell.CONS 1 1, Cell.CONS 88 92, Cell.NUM 7, Cell.CONS 91 94,
        Cell.NUM 8, Cell.CONS 93 1]) :=
  ⟨⟨20, by decide⟩, ⟨20, by decide⟩⟩

/-- C16, amended: `None` and `False` are different objects, and a test that evaluates to the
empty sentinel `None` selects the then-branch: when `T` evaluates to `None`, leaving the heap
`h1`, the expression `(if T A B)` evaluates exactly as `A` does in `h1`. -/
theorem if_empty_sentinel_then_branch (h h1 : Heap) (exp env kw c1 T c2 A : Nat)
    (hexp0 : exp ≠ NULL) (hexp : h[exp]? = some (Cell.CONS kw c1))
    (hkw : h[kw]? = some (Cell.SYMBOL "if")) (hc1 : h[c1]? = some (Cell.CONS T c2))
    (hT : Evals h T env None h1) (hA : caddr h1 exp = some A) :
    None ≠ False_ ∧ ∀ res h', Evals h exp env res h' ↔ Evals h1 A env res h' := by
  have hNF : None ≠ False_ := by decide
  refine ⟨hNF, ?_⟩
  intro res h'
  rw [evals_if_iff hexp0 hexp hkw hc1]
  constructor
  · rintro ⟨r, h1', hev, e, he, hres⟩
    obtain ⟨rfl, rfl⟩ := Evals.unique_result hT hev
    rw [if_neg hNF, hA] at he
    injection he with he
    rw [he]; exact hres
  · intro hres
    exact ⟨None, h1, hT, A, by rw [if_neg hNF, hA], hres⟩

set_option maxRecDepth 1000000 in
/-- Instance of the amended C16: `(if (quote ()) 7 8)` evaluates to the cell of `7`. -/
theorem if_empty_sentinel_then_branch_witness :
    Evals (global_heap ++ [Cell.SYMBOL "if", Cell.CONS 85 90, Cell.SYMBOL "quote",
        Cell.CONS 87 89, Cell.CONS 1 1, Cell.CONS 88 92, Cell.NUM 7, Cell.CONS 91 94,
        Cell.NUM 8, Cell.CONS 93 1]) 86 global_env 91
      (global_heap ++ [Cell.SYMBOL "if", Cell.CONS 85 90, Cell.SYMBOL "quote",
        Cell.CONS 87 89, Cell.CONS 1 1, Cell.CONS 88 92, Cell.NUM 7, Cell.CONS 91 94,
        Cell.NUM 8, Cell.CONS 93 1]) :=
  ((if_empty_sentinel_then_branch (global_heap ++ [Cell.SYMBOL "if", Cell.CONS 85 90,
      Cell.SYMBOL "quote", Cell.CONS 87 89, Cell.CONS 1 1, Cell.CONS 88 92, Cell.NUM 7,
      Cell.CONS 91 94, Cell.NUM 8, Cell.CONS 93 1]) (global_heap ++ [Cell.SYMBOL "if",
      Cell.CONS 85 90, Cell.SYMBOL "quote", Cell.CONS 87 89, Cell.CONS 1 1, Cell.CONS 88 92,
      Cell.NUM 7, Cell.CONS 91 94, Cell.NUM 8, Cell.CONS 93 1]) 86 global_env 85 90 88 92 91
    (by decide) (by decide) (by decide) (by decide) ⟨5, by decide⟩ (by decide)).2 91 _).2
    ⟨1, by decide⟩

set_option maxRecDepth 1000000 in
/-- C18, as stated, fails: `set!` writes into the cell a variable is bound to, and a variable
can be bound to a sentinel.  `(define t (null? (quote ())))` binds `t` to the cell `True`
itself; `(set! t 5)`, where `t` is bound, then overwrites that cell, which in the initial
heap holds `1`, with `5`, and afterwards `(null? (quote ()))` returns a cell holding `5`. -/
theorem set_overwrites_True_sentinel :
    global_heap[True_]? = some (Cell.NUM 1) ∧
    Evals (global_heap ++ [Cell.SYMBOL "define", Cell.CONS 85 88, Cell.SYMBOL "t",
        Cell.CONS 87 95, Cell.SYMBOL "null?", Cell.CONS 89 94, Cell.SYMBOL "quote",
        Cell.CONS 91 93, Cell.CONS 1 1, Cell.CONS 92 1, Cell.CONS 90 1]) 86 global_env 87
      ((global_heap ++ [Cell.SYMBOL "define", Cell.CONS 85 88, Cell.SYMBOL "t",
        Cell.CONS 87 95, Cell.SYMBOL "null?", Cell.CONS 89 94, Cell.SYMBOL "quote",
        Cell.CONS 91 93, Cell.CONS 1 1, Cell.CONS 92 1, Cell.CONS 90 1, Cell.CONS 1 1,
        Cell.CONS 87 2, Cell.CONS 1 1, Cell.CONS 97 98]).set 27 (Cell.CONS 99 1)) ∧
    EnvFinds ((global_heap ++ [Cell.SYMBOL "define", Cell.CONS 85 88, Cell.SYMBOL "t",
        Cell.CONS 87 95, Cell.SYMBOL "null?", Cell.CONS 89 94, Cell.SYMBOL "quote",
        Cell.CONS 91 93, Cell.CONS 1 1, Cell.CONS 92 1, Cell.CONS 90 1, Cell.CONS 1 1,
        Cell.CONS 87 2, Cell.CONS 1 1, Cell.CONS 97 98]).set 27 (Cell.CONS 99 1))
      global_env "t" True_ ∧
    Evals ((global_heap ++ [Cell.SYMBOL "define", Cell.CONS 85 88, Cell.SYMBOL "t",
        Cell.CONS 87 95, Cell.SYMBOL "null?", Cell.CONS 89 94, Cell.SYMBOL "quote",
        Cell.CONS 91 93, Cell.CONS 1 1, Cell.CONS 92 1, Cell.CONS 90 1, Cell.CONS 1 1,
        Cell.CONS 87 2, Cell.CONS 1 1, Cell.CONS 97 98]).set 27 (Cell.CONS 99 1) ++
        [Cell.SYMBOL "set!", Cell.CONS 100 103, Cell.SYMBOL "t", Cell.CONS 102 105, Cell.NUM 5,
        Cell.CONS 104 1]) 101 global_env True_
      (((global_heap ++ [Cell.SYMBOL "define", Cell.CONS 85 88, Cell.SYMBOL "t",
        Cell.CONS 87 95, Cell.SYMBOL "null?", Cell.CONS 89 94, Cell.SYMBOL "quote",
        Cell.CONS 91 93, Cell.CONS 1 1, Cell.CONS 92 1, Cell.CONS 90 1, Cell.CONS 1 1,
        Cell.CONS 87 2, Cell.CONS 1 1, Cell.CONS 97 98]).set 27 (Cell.CONS 99 1) ++
        [Cell.SYMBOL "set!", Cell.CONS 100 103, Cell.SYMBOL "t", Cell.CONS 102 105, Cell.NUM 5,
        Cell.CONS 104 1]).set True_ (Cell.NUM 5)) ∧
    Evals (((global_heap ++ [Cell.SYMBOL "define", Cell.CONS 85 88, Cell.SYMBOL "t",
        Cell.CONS 87 95, Cell.SYMBOL "null?", Cell.CONS 89 94, Cell.SYMBOL "quote",
        Cell.CONS 91 93, Cell.CONS 1 1, Cell.CONS 92 1, Cell.CONS 90 1, Cell.CONS 1 1,
        Cell.CONS 87 2, Cell.CONS 1 1, Cell.CONS 97 98]).set 27 (Cell.CONS 99 1) ++
        [Cell.SYMBOL "set!", Cell.CONS 100 103, Cell.SYMBOL "t", Cell.CONS 102 105, Cell.NUM 5,
        Cell.CONS 104 1]).set True_ (Cell.NUM 5) ++ [Cell.SYMBOL "null?", Cell.CONS 106 111,
        Cell.SYMBOL "quote", Cell.CONS 108 110, Cell.CONS 1 1, Cell.CONS 109 1]) 107
      global_env True_
      (((global_heap ++ [Cell.SYMBOL "define", Cell.CONS 85 88, Cell.SYMBOL "t",
        Cell.CONS 87 95, Cell.SYMBOL "null?", Cell.CONS 89 94, Cell.SYMBOL "quote",
        Cell.CONS 91 93, Cell.CONS 1 1, Cell.CONS 92 1, Cell.CONS 90 1, Cell.CONS 1 1,
        Cell.CONS 87 2, Cell.CONS 1 1, Cell.CONS 97 98]).set 27 (Cell.CONS 99 1) ++
        [Cell.SYMBOL "set!", Cell.CONS 100 103, Cell.SYMBOL "t", Cell.CONS 102 105, Cell.NUM 5,
        Cell.CONS 104 1]).set True_ (Cell.NUM 5) ++ [Cell.SYMBOL "null?", Cell.CONS 106 111,
        Cell.SYMBOL "quote", Cell.CONS 108 110, Cell.CONS 1 1, Cell.CONS 109 1,
        Cell.CONS 1 1]) :=
  ⟨by decide, ⟨20, by decide⟩, ⟨10, by decide⟩, ⟨20, by decide⟩, ⟨20, by decide⟩⟩

set_option maxRecDepth 1000000 in
/-- C17, as stated, fails: a new key that is less than the key of the node goes to the right
child.  In a tree with the one key `m` at node `8`, the key `a` (cell `5`), which `strcmp`
puts before `m`, is inserted: the left child `cddr` of the node is still empty and the right
child `cadr` is the new node `11`, where `btbl_find` finds the key. -/
theorem btbl_insert_less_goes_right :
    strcmp "a" "m" < 0 ∧
    btbl_insert 5 (main_heap ++ [Cell.SYMBOL "m", Cell.SYMBOL "a"]) None 4 True_ =
      some (8, main_heap ++ [Cell.SYMBOL "m", Cell.SYMBOL "a", Cell.CONS 4 2, Cell.CONS 1 1,
        Cell.CONS 6 7]) ∧
    btbl_insert 5 (main_heap ++ [Cell.SYMBOL "m", Cell.SYMBOL "a", Cell.CONS 4 2, Cell.CONS 1 1,
        Cell.CONS 6 7]) 8 5 False_ =
      some (8, main_heap ++ [Cell.SYMBOL "m", Cell.SYMBOL "a", Cell.CONS 4 2, Cell.CONS 11 1,
        Cell.CONS 6 7, Cell.CONS 5 3, Cell.CONS 1 1, Cell.CONS 9 10]) ∧
    cddr (main_heap ++ [Cell.SYMBOL "m", Cell.SYMBOL "a", Cell.CONS 4 2, Cell.CONS 11 1,
        Cell.CONS 6 7, Cell.CONS 5 3, Cell.CONS 1 1, Cell.CONS 9 10]) 8 = some None ∧
    cadr (main_heap ++ [Cell.SYMBOL "m", Cell.SYMBOL "a", Cell.CONS 4 2, Cell.CONS 11 1,
        Cell.CONS 6 7, Cell.CONS 5 3, Cell.CONS 1 1, Cell.CONS 9 10]) 8 = some 11 ∧
    btbl_find 1 (main_heap ++ [Cell.SYMBOL "m", Cell.SYMBOL "a", Cell.CONS 4 2, Cell.CONS 11 1,
        Cell.CONS 6 7, Cell.CONS 5 3, Cell.CONS 1 1, Cell.CONS 9 10]) 11 "a" = some False_ ∧
    btbl_find 2 (main_heap ++ [Cell.SYMBOL "m", Cell.SYMBOL "a", Cell.CONS 4 2, Cell.CONS 11 1,
        Cell.CONS 6 7, Cell.CONS 5 3, Cell.CONS 1 1, Cell.CONS 9 10]) 8 "a" = some False_ := by
  refine ⟨by decide, by decide, by decide, by decide, by decide, by decide, by decide⟩

/-- C17, amended: at a node with key `key`, right subtree `r` and left subtree `l`, a key `s`
for which `strcmp(key, s)` is negative, that is a key greater than the key of the node, is
looked up and inserted in the left child `TBL_LEFT_CHILD` (`cddr`), and any other key, less or
equal, in the right child `TBL_RITE_CHILD` (`cadr`), equal keys being found at the node. -/
theorem btbl_routing (h : Heap) (a kv ch k' : Nat) (key : String) (val : Nat) (r l : BT)
    (k v : Nat) (s : String) (n : Nat) (hk : h[k]? = some (Cell.SYMBOL s))
    (hrep : Rep h (BT.node a kv ch k' key val r l))
    (hnd : (BT.node a kv ch k' key val r l).cells.Nodup)
    (hn : (BT.node a kv ch k' key val r l).depth < n + 1) :
    cadr h a = some r.root ∧ cddr h a = some l.root ∧
    btbl_find (n + 1) h a s =
      (if strcmp key s = 0 then some val
       else if strcmp key s < 0 then btbl_find n h l.root s else btbl_find n h r.root s) ∧
    ∃ h', btbl_insert (n + 1) h a k v = some (a, h') ∧
      (strcmp key s < 0 → cadr h' a = some r.root ∧
        cddr h' a = some (BT.ins h.length k s v l).root ∧ Rep h' r ∧
        Rep h' (BT.ins h.length k s v l)) ∧
      (¬ strcmp key s < 0 → cddr h' a = some l.root ∧
        cadr h' a = some (BT.ins h.length k s v r).root ∧ Rep h' l ∧
        Rep h' (BT.ins h.length k s v r)) := by
  obtain ⟨h', hins, hrep', -, -⟩ := btbl_insert_rep (v := v) hk _ (n + 1) hrep hnd hn
  obtain ⟨ha1, ha0, ha, hkv, hk'', hch, hrr, hrl⟩ := hrep
  refine ⟨by simp [cadr, cdr_of ha, car_of hch], by simp [cddr, cdr_of ha, cdr_of hch], ?_,
    h', ?_, ?_, ?_⟩
  · simp only [btbl_find, caar, cdar, cddr, cadr, car_of ha, cdr_of ha, car_of hkv, cdr_of hkv,
      str_of hk'', car_of hch, cdr_of hch, Option.some_bind, ha1, ha0, or_self, if_false]
  · rw [BT.root_node] at hins
    by_cases hc : strcmp key s < 0
    · simpa [BT.ins, hc, BT.root_node] using hins
    · simpa [BT.ins, hc, BT.root_node] using hins
  · intro hc
    simp only [BT.ins, if_pos hc] at hrep'
    obtain ⟨-, -, ha', -, -, hch', hrr', hrl'⟩ := hrep'
    exact ⟨by simp [cadr, cdr_of ha', car_of hch'], by simp [cddr, cdr_of ha', cdr_of hch'],
      hrr', hrl'⟩
  · intro hc
    simp only [BT.ins, if_neg hc] at hrep'
    obtain ⟨-, -, ha', -, -, hch', hrr', hrl'⟩ := hrep'
    exact ⟨by simp [cddr, cdr_of ha', cdr_of hch'], by simp [cadr, cdr_of ha', car_of hch'],
      hrl', hrr'⟩

set_option maxRecDepth 1000000 in
/-- Instance of the amended C17: in the tree with the one key `m`, the key `z`, greater than
`m`, is inserted in the left child `cddr` of the node and the right child stays empty. -/
theorem btbl_routing_witness :
    strcmp "m" "z" < 0 ∧
    ∃ h', btbl_insert 2 (main_heap ++ [Cell.SYMBOL "m", Cell.SYMBOL "z", Cell.CONS 4 2,
        Cell.CONS 1 1, Cell.CONS 6 7]) 8 5 False_ = some (8, h') ∧
      cadr h' 8 = some None ∧ cddr h' 8 = some 11 := by
  obtain ⟨-, -, -, h', hins, hlt, -⟩ := btbl_routing (main_heap ++ [Cell.SYMBOL "m",
    Cell.SYMBOL "z", Cell.CONS 4 2, Cell.CONS 1 1, Cell.CONS 6 7]) 8 6 7 4 "m" True_ BT.leaf
    BT.leaf 5 False_ "z" 1 (by decide) (by decide) (by decide) (by decide)
  have hz : strcmp "m" "z" < 0 := by decide
  exact ⟨hz, h', hins, (hlt hz).1, (hlt hz).2.1⟩

set_option maxRecDepth 1000000 in
/-- C20. Variables defined from one another share one value object: for all numbers `n` and
`m`, starting from the initial global environment, the expressions `(define a n)`,
`(define b a)`, `(set! a m)` and `b` are read and evaluated one after the other (each laid out
by the parser at the end of the heap left by the previous evaluation); every evaluation
returns, `(define b a)` binds `b` to the very cell that `a` is bound to, and `b` finally
returns a `NUM` cell holding `m`. -/
theorem defined_variables_share_object (n m : Rat) :
    ∃ h1 h2 h3 h4 r3 r4,
      Evals (global_heap ++ [Cell.SYMBOL "define", Cell.CONS 85 88, Cell.SYMBOL "a",
        Cell.CONS 87 90, Cell.NUM n, Cell.CONS 89 1]) 86 global_env 87 h1 ∧
      Evals (h1 ++ [Cell.SYMBOL "define", Cell.CONS 94 97, Cell.SYMBOL "b", Cell.CONS 96 99,
        Cell.SYMBOL "a", Cell.CONS 98 1]) 95 global_env 96 h2 ∧
      Evals (h2 ++ [Cell.SYMBOL "set!", Cell.CONS 103 106, Cell.SYMBOL "a", Cell.CONS 105 108,
        Cell.NUM m, Cell.CONS 107 1]) 104 global_env r3 h3 ∧
      Evals (h3 ++ [Cell.SYMBOL "b"]) 109 global_env r4 h4 ∧
      r4 = r3 ∧ h4[r4]? = some (Cell.NUM m) := by
  obtain ⟨hg0, hcl, hhit, hdep⟩ := global_bt_ok
  have hL0 : global_heap.length = 85 := by decide
  -- (define a n)
  have hgA := hg0.append_cells [Cell.SYMBOL "define", Cell.CONS 85 88, Cell.SYMBOL "a",
    Cell.CONS 87 90, Cell.NUM n, Cell.CONS 89 1]
  have cA := fun i c hc => get_extra hL0 [Cell.SYMBOL "define", Cell.CONS 85 88,
    Cell.SYMBOL "a", Cell.CONS 87 90, Cell.NUM n, Cell.CONS 89 1] i (c := c) hc
  have hLA : (global_heap ++ [Cell.SYMBOL "define", Cell.CONS 85 88, Cell.SYMBOL "a",
    Cell.CONS 87 90, Cell.NUM n, Cell.CONS 89 1]).length = 91 := by
    rw [List.length_append, hL0]; rfl
  have n86 : (86 : Nat) ∉ global_bt.cells := fun hx => absurd (hcl _ hx) (by omega)
  have n88 : (88 : Nat) ∉ global_bt.cells := fun hx => absurd (hcl _ hx) (by omega)
  have n89 : (89 : Nat) ∉ global_bt.cells := fun hx => absurd (hcl _ hx) (by omega)
  obtain ⟨h1, e1, hg1, hf1, hL1⟩ := eval_define_global hgA (cA 1 _ rfl) (cA 0 _ rfl)
    (cA 3 _ rfl) (cA 5 _ rfl) (eval_num global_env (cA 4 _ rfl) 16) hgA (cA 2 _ rfl)
    (cA 1 _ rfl) (cA 3 _ rfl) n86 n88 (by omega)
  rw [hLA] at hg1 hf1 hL1
  simp only [Nat.reduceAdd] at e1 hg1 hL1
  have h1_89 : h1[89]? = some (Cell.NUM n) := by
    rw [hf1 89 (by omega) n89]; exact cA 4 _ rfl
  have hd1 : (BT.ins 91 87 "a" 89 global_bt).depth ≤ 17 :=
    le_trans (BT.depth_ins _ _ _ _ _) (by omega)
  have ha0 : ¬ global_bt.hit "a" := by rw [hhit]; decide
  have hfa1 : (BT.ins 91 87 "a" 89 global_bt).find "a" = 89 := BT.find_ins_new _ _ _ _ _ ha0
  have hcl1 : ∀ y ∈ (BT.ins 91 87 "a" 89 global_bt).cells, y < 84 ∨ (91 ≤ y ∧ y < 94) := by
    intro y hy
    rcases (BT.mem_cells_ins _ _ _ _ _ _).1 hy with hy | hy | hy | hy
    · exact Or.inl (hcl _ hy)
    · omega
    · omega
    · omega
  -- (define b a)
  have hgB := hg1.append_cells [Cell.SYMBOL "define", Cell.CONS 94 97, Cell.SYMBOL "b",
    Cell.CONS 96 99, Cell.SYMBOL "a", Cell.CONS 98 1]
  have cB := fun i c hc => get_extra hL1 [Cell.SYMBOL "define", Cell.CONS 94 97,
    Cell.SYMBOL "b", Cell.CONS 96 99, Cell.SYMBOL "a", Cell.CONS 98 1] i (c := c) hc
  have hLB : (h1 ++ [Cell.SYMBOL "define", Cell.CONS 94 97, Cell.SYMBOL "b",
    Cell.CONS 96 99, Cell.SYMBOL "a", Cell.CONS 98 1]).length = 100 := by
    rw [List.length_append, hL1]; rfl
  have hsym := eval_symbol_global hgB (cB 4 _ rfl) 21 (by omega)
  rw [hfa1] at hsym
  have m95 : (95 : Nat) ∉ (BT.ins 91 87 "a" 89 global_bt).cells := fun hx => by
    have := hcl1 _ hx; omega
  have m97 : (97 : Nat) ∉ (BT.ins 91 87 "a" 89 global_bt).cells := fun hx => by
    have := hcl1 _ hx; omega
  have m89 : (89 : Nat) ∉ (BT.ins 91 87 "a" 89 global_bt).cells := fun hx => by
    have := hcl1 _ hx; omega
  obtain ⟨h2, e2, hg2, hf2, hL2⟩ := eval_define_global hgB (cB 1 _ rfl) (cB 0 _ rfl)
    (cB 3 _ rfl) (cB 5 _ rfl) hsym hgB (cB 2 _ rfl) (cB 1 _ rfl) (cB 3 _ rfl) m95 m97
    (by omega)
  rw [hLB] at hg2 hf2 hL2
  simp only [Nat.reduceAdd] at e2 hg2 hL2
  have h2_89 : h2[89]? = some (Cell.NUM n) := by
    rw [hf2 89 (by omega) m89]; exact get_append h1_89
  have hd2 : (BT.ins 100 96 "b" 89 (BT.ins 91 87 "a" 89 global_bt)).depth ≤ 18 :=
    le_trans (BT.depth_ins _ _ _ _ _) (by omega)
  have hfa2 : (BT.ins 100 96 "b" 89 (BT.ins 91 87 "a" 89 global_bt)).find "a" = 89 := by
    rw [BT.find_ins_ne _ _ _ (by decide)]; exact hfa1
  have hb0 : ¬ (BT.ins 91 87 "a" 89 global_bt).hit "b" := by
    rw [BT.hit_ins]
    have : ¬ global_bt.hit "b" := by rw [hhit]; decide
    simp [this]
  have hfb2 : (BT.ins 100 96 "b" 89 (BT.ins 91 87 "a" 89 global_bt)).find "b" = 89 :=
    BT.find_ins_new _ _ _ _ _ hb0
  -- (set! a m)
  have hgC := hg2.append_cells [Cell.SYMBOL "set!", Cell.CONS 103 106, Cell.SYMBOL "a",
    Cell.CONS 105 108, Cell.NUM m, Cell.CONS 107 1]
  have cC := fun i c hc => get_extra hL2 [Cell.SYMBOL "set!", Cell.CONS 103 106,
    Cell.SYMBOL "a", Cell.CONS 105 108, Cell.NUM m, Cell.CONS 107 1] i (c := c) hc
  have hC89 : (h2 ++ [Cell.SYMBOL "set!", Cell.CONS 103 106, Cell.SYMBOL "a",
      Cell.CONS 105 108, Cell.NUM m, Cell.CONS 107 1])[(BT.ins 100 96 "b" 89
      (BT.ins 91 87 "a" 89 global_bt)).find "a"]? = some (Cell.NUM n) := by
    rw [hfa2]; exact get_append h2_89
  have e3 := eval_set_global hgC (cC 1 _ rfl) (cC 0 _ rfl) (cC 3 _ rfl) (cC 2 _ rfl)
    (cC 5 _ rfl) (eval_num global_env (cC 4 _ rfl) 21) (cC 4 _ rfl) (by simp) hC89
    (by omega)
  rw [hfa2] at e3 hC89
  simp only [Nat.reduceAdd] at e3
  have hg3 := hgC.store hC89 (Cell.NUM m)
  have hL3 : ((h2 ++ [Cell.SYMBOL "set!", Cell.CONS 103 106, Cell.SYMBOL "a",
      Cell.CONS 105 108, Cell.NUM m, Cell.CONS 107 1]).set 89 (Cell.NUM m)).length = 109 := by
    rw [List.length_set, List.length_append, hL2]; rfl
  have h3_89 := get_set_eq (Cell.NUM m) (get_lt hC89)
  -- b
  have hgD := hg3.append_cells [Cell.SYMBOL "b"]
  have e4 := eval_symbol_global hgD (get_extra hL3 [Cell.SYMBOL "b"] 0 rfl) 22 (by omega)
  rw [hfb2] at e4
  exact ⟨h1, h2, _, _, 89, 89, ⟨_, e1⟩, ⟨_, e2⟩, ⟨_, e3⟩, ⟨_, e4⟩, rfl, get_append h3_89⟩

/-- C12. The parser builds proper lists: when the calls of `gettok` on the input return the
tokens of `(`, of the well-formed expressions `es` and of `)`, leaving the input `inp'`, then
with enough fuel `parse` returns, leaves the input `inp'`, and its result `p` is the chain of
`CONS` cells ended by `None` whose heads `vs` hold the expressions `es`, made of new cells,
the cells allocated before being left as they were; for no expression the result is `None`
itself and the heap is the same.  An expression of `es` parsed alone gives a pointer that
holds the same expression. -/
theorem parse_builds_proper_list (m : Nat) (es : List SExp) (hwf : ∀ e ∈ es, e.WF) (h : Heap)
    (hN : None < h.length) (inp inp' : List Char)
    (hr : reads m inp (Tok.SYMBOL "(" :: (SExp.toksList es ++ [Tok.SYMBOL ")"])) = some inp') :
    (∀ n, m + (SExp.toksList es).length + 2 ≤ n →
      ∃ p h' vs, parse n h inp = some (p, h', inp') ∧ ListAt h' p vs ∧
        List.Forall₂ (fun v e => SRep h' h.length h'.length v e) vs es ∧
        (es = [] → p = None ∧ h' = h) ∧ ∀ x, x < h.length → h'[x]? = h[x]?) ∧
    ∀ e ∈ es, ∀ (h0 : Heap) (i i' : List Char) (n : Nat), None < h0.length →
      reads m i e.toks = some i' → m + e.toks.length ≤ n →
      ∃ v h1, parse n h0 i = some (v, h1, i') ∧ SRep h1 h0.length h1.length v e := by
  constructor
  · intro n hn
    by_cases hes : es = []
    · subst hes
      exact ⟨None, h, [], parse_nil h hr (by omega), rfl, List.Forall₂.nil,
        fun _ => ⟨rfl, rfl⟩, fun _ _ => rfl⟩
    · rw [← SExp.toks_ofList] at hr
      obtain ⟨p, h', hp, -, hrep, -, hfr⟩ := (parse_toks m (SExp.ofList es)).1
        (SExp.wf_ofList es hwf) h inp inp' n hN hr
        (by rw [SExp.toks_ofList, List.length_cons, List.length_append,
              List.length_singleton]; omega)
      obtain ⟨vs, hl, hf⟩ := SRep.ofList es p hrep
      exact ⟨p, h', vs, hp, hl, hf, fun he => absurd he hes, hfr⟩
  · intro e he h0 i i' n hN0 hri hn
    obtain ⟨v, h1, hp, -, hrep, -, -⟩ := (parse_toks m e).1 (hwf e he) h0 i i' n hN0 hri hn
    exact ⟨v, h1, hp, hrep⟩

set_option maxRecDepth 1000000 in
/-- Instance of C12: the text `(a (b 1) ())` followed by ` x` is parsed to the list `5` of
the three cells `4`, `7` and `None`, and ` x` is left in the input. -/
theorem parse_builds_proper_list_witness :
    ∃ p h' vs, parse 30 main_heap ['(', 'a', ' ', '(', 'b', ' ', '1', ')', ' ', '(', ')', ')',
        ' ', 'x'] = some (p, h', [' ', 'x']) ∧ ListAt h' p vs ∧
      List.Forall₂ (fun v e => SRep h' main_heap.length h'.length v e) vs
        [SExp.sym "a", SExp.ofList [SExp.sym "b", SExp.num "1"], SExp.nil] ∧
      ([SExp.sym "a", SExp.ofList [SExp.sym "b", SExp.num "1"], SExp.nil] = [] →
        p = None ∧ h' = main_heap) ∧
      ∀ x, x < main_heap.length → h'[x]? = main_heap[x]? :=
  (parse_builds_proper_list 12 [SExp.sym "a", SExp.ofList [SExp.sym "b", SExp.num "1"],
      SExp.nil]
    (by
      intro e he
      simp only [List.mem_cons, List.mem_singleton, List.not_mem_nil, or_false] at he
      rcases he with rfl | rfl | rfl
      · exact ⟨by decide, by decide⟩
      · exact ⟨⟨by decide, by decide⟩, ⟨trivial, trivial, trivial⟩, trivial⟩
      · trivial)
    main_heap (by decide) _ _ (by decide)).1 30 (by decide)

set_option maxRecDepth 1000000 in
/-- C13, as stated, fails: a dot does not start a number token.  On the input `.5` followed
by a space `gettok` returns, with the fuel `3` and with any larger fuel, a `SYMBOL` token with
the text `.5`. -/
theorem dot_starts_symbol_token :
    gettok 3 ['.', '5', ' '] = some (Tok.SYMBOL ".5", [' ']) ∧
    ∀ n, gettok (n + 3) ['.', '5', ' '] = some (Tok.SYMBOL ".5", [' ']) :=
  ⟨by decide, fun n => gettok_mono (by decide : gettok 3 ['.', '5', ' '] =
    some (Tok.SYMBOL ".5", [' '])) (by omega)⟩

/-- C13, amended: on input made of ASCII characters other than the zero character, after
white space `ws`, when the first character `c` is a digit, `gettok` returns a `NUM` token whose
text is the longest run of digits and dots starting there; when `c` is any other character
that is neither white space nor a parenthesis nor `;`, a dot included, and a character follows
the longest run of characters that are neither white space nor parentheses, `gettok` returns
a `SYMBOL` token whose text is that run.  The run has less than `256` characters, and what
follows it is left in the input. -/
theorem gettok_classification (ws : List Char) (c : Char) (tl : List Char) (n : Nat)
    (hws : ∀ w ∈ ws, isspace (some w) = true) (hc : isspace (some c) = false)
    (hsemi : c ≠ ';') (hasc : ∀ x ∈ c :: tl, ascii x = true)
    (hn : ws.length + tl.length + 2 ≤ n) :
    (isdigit (some c) = true → ((c :: tl).takeWhile numch).length < 256 →
      gettok n (ws ++ c :: tl) =
        some (Tok.NUM (String.mk ((c :: tl).takeWhile numch)), (c :: tl).dropWhile numch)) ∧
    (isdigit (some c) = false → c ≠ '(' → c ≠ ')' →
      ((c :: tl).takeWhile symch).length < 256 → (c :: tl).dropWhile symch ≠ [] →
      gettok n (ws ++ c :: tl) =
        some (Tok.SYMBOL (String.mk ((c :: tl).takeWhile symch)),
          (c :: tl).dropWhile symch)) := by
  have h255 : ∀ x ∈ c :: tl, x.toNat ≠ 255 := fun x hx => ascii_ne_255 (hasc x hx)
  have h0 : ∀ x ∈ c :: tl, x.toNat ≠ 0 := by
    intro x hx
    have := hasc x hx
    simp only [ascii, Bool.and_eq_true, decide_eq_true_eq] at this
    omega
  have hc255 : c.toNat ≠ 255 := h255 c (by simp)
  have hsk := skip_space_run c tl hc hc255 ws n hws (Or.inr hsemi) (by omega)
  constructor
  · intro hd hlen
    have hp : ¬ (c = '(' ∨ c = ')') := by
      rintro (rfl | rfl) <;> exact absurd hd (by decide)
    have hrun := num_loop_run (c :: tl) [] n h255 (by simpa using Nat.lt_succ_of_lt hlen)
      (by simp only [List.length_cons]; omega)
    rw [getc_cons c tl hc255] at hrun
    rw [gettok, hsk, Option.some_bind]
    simp only [if_neg hp, if_pos hd, hrun, Option.some_bind, List.nil_append, if_pos hlen]
    rw [ungetc_getc _ (fun x hx => h255 x ((List.dropWhile_suffix numch).subset hx)),
      cstr_eq _ (fun x hx => h0 x ((List.takeWhile_prefix numch).subset hx))]
  · intro hd hp1 hp2 hlen hfol
    have hp : ¬ (c = '(' ∨ c = ')') := by
      rintro (h | h)
      · exact hp1 h
      · exact hp2 h
    have hd' : ¬ isdigit (some c) = true := by rw [hd]; decide
    have hrun := sym_loop_run (c :: tl) [] n h255 (by simpa using Nat.lt_succ_of_lt hlen)
      (by simp only [List.length_cons]; omega) hfol
    rw [getc_cons c tl hc255] at hrun
    rw [gettok, hsk, Option.some_bind]
    simp only [if_neg hp, if_neg hd', hrun, Option.some_bind, List.nil_append, if_pos hlen]
    rw [ungetc_getc _ (fun x hx => h255 x ((List.dropWhile_suffix symch).subset hx)),
      cstr_eq _ (fun x hx => h0 x ((List.takeWhile_prefix symch).subset hx))]

set_option maxRecDepth 1000000 in
/-- Instance of the amended C13: after two spaces the text `12.5` followed by `)` gives a
`NUM` token `12.5`, and the text `.5` followed by a space gives a `SYMBOL` token `.5`. -/
theorem gettok_classification_witness :
    gettok 8 [' ', ' ', '1', '2', '.', '5', ')'] = some (Tok.NUM "12.5", [')']) ∧
    gettok 4 ['.', '5', ' '] = some (Tok.SYMBOL ".5", [' ']) :=
  ⟨(gettok_classification [' ', ' '] '1' ['2', '.', '5', ')'] 8 (by decide) (by decide)
      (by decide) (by decide) (by decide)).1 (by decide) (by decide),
    (gettok_classification [] '.' ['5', ' '] 4 (by decide) (by decide) (by decide)
      (by decide) (by decide)).2 (by decide) (by decide) (by decide) (by decide) (by decide)⟩

set_option maxRecDepth 1000000 in
/-- C14, as stated, fails: at the end of the input two loops of `gettok` never meet their
exit test.  On `abc`, a symbol that nothing follows, `gettok` has no result whatever the
fuel; on `x ;c` the first call returns the symbol `x` and the second, inside the comment that
no newline ends, has no result whatever the fuel.  On the empty input, and after a symbol that
a space follows, `DONE` is returned. -/
theorem gettok_no_result_at_eof (n : Nat) :
    gettok n ['a', 'b', 'c'] = none ∧
    gettok (n + 3) ['x', ' ', ';', 'c'] = some (Tok.SYMBOL "x", [' ', ';', 'c']) ∧
    gettok n [' ', ';', 'c'] = none ∧
    gettok (n + 1) [] = some (Tok.DONE, []) ∧
    reads (n + 3) ['x', ' '] [Tok.SYMBOL "x", Tok.DONE] = some [] := by
  refine ⟨?_, ?_, ?_, ?_, ?_⟩
  · rw [gettok, getc_cons _ _ (by decide)]
    cases hs : skip_space n (some 'a') ['b', 'c'] with
    | none => rfl
    | some r =>
      cases n with
      | zero => rw [skip_space] at hs; cases hs
      | succ k =>
        rw [skip_space, if_neg (by decide)] at hs
        injection hs with hs
        subst hs
        rw [Option.some_bind]
        simp only [if_neg (by decide : ¬ ('a' = '(' ∨ 'a' = ')')),
          if_neg (by decide : ¬ isdigit (some 'a') = true)]
        rw [sym_loop_eof (k + 1) (some 'a') ['b', 'c'] []
          (by intro c hc; injection hc with hc; subst hc; decide) (by decide)]
        rfl
  · exact gettok_mono (by decide : gettok 3 ['x', ' ', ';', 'c'] =
      some (Tok.SYMBOL "x", [' ', ';', 'c'])) (by omega)
  · rw [gettok, getc_cons _ _ (by decide)]
    cases n with
    | zero => rfl
    | succ k =>
      rw [skip_space, if_pos (by decide), getc_cons _ _ (by decide), if_pos rfl,
        skip_line_eof k ['c'] (by decide)]
      rfl
  · exact gettok_mono (by decide : gettok 1 [] = some (Tok.DONE, [])) (by omega)
  · exact reads_mono (by omega : 3 ≤ n + 3) _ _ _ (by decide)

set_option maxRecDepth 1000000 in
/-- C15, as stated, fails: a `;` is taken for the start of a comment only when `gettok` has
just skipped a white space character.  At the very start of the input `;c`, newline, `x`,
space, the first token is the symbol `;c`, not the token `x` of the rest; directly after a
parenthesis, the input `(;c`, newline, `x)` gives the four tokens `(`, `;c`, `x` and `)`.
After a space the comment is skipped, and a `;` inside a symbol stays part of it. -/
theorem comment_needs_white_space (n : Nat) :
    gettok (n + 3) [';', 'c', '\n', 'x', ' '] = some (Tok.SYMBOL ";c", ['\n', 'x', ' ']) ∧
    gettok (n + 3) ['x', ' '] = some (Tok.SYMBOL "x", [' ']) ∧
    reads (n + 3) ['(', ';', 'c', '\n', 'x', ')']
      [Tok.SYMBOL "(", Tok.SYMBOL ";c", Tok.SYMBOL "x", Tok.SYMBOL ")", Tok.DONE] = some [] ∧
    reads (n + 3) ['(', 'x', ')'] [Tok.SYMBOL "(", Tok.SYMBOL "x", Tok.SYMBOL ")", Tok.DONE] =
      some [] ∧
    gettok (n + 4) [' ', ';', 'c', '\n', 'x', ' '] = some (Tok.SYMBOL "x", [' ']) ∧
    gettok (n + 4) ['a', ';', 'b', ' '] = some (Tok.SYMBOL "a;b", [' ']) := by
  refine ⟨?_, ?_, ?_, ?_, ?_, ?_⟩
  · exact gettok_mono (by decide : gettok 3 [';', 'c', '\n', 'x', ' '] =
      some (Tok.SYMBOL ";c", ['\n', 'x', ' '])) (by omega)
  · exact gettok_mono (by decide : gettok 3 ['x', ' '] = some (Tok.SYMBOL "x", [' ']))
      (by omega)
  · exact reads_mono (by omega : 3 ≤ n + 3) _ _ _ (by decide)
  · exact reads_mono (by omega : 3 ≤ n + 3) _ _ _ (by decide)
  · exact gettok_mono (by decide : gettok 4 [' ', ';', 'c', '\n', 'x', ' '] =
      some (Tok.SYMBOL "x", [' '])) (by omega)
  · exact gettok_mono (by decide : gettok 4 ['a', ';', 'b', ' '] =
      some (Tok.SYMBOL "a;b", [' '])) (by omega)

end Miniskim
